import Mathlib

/-!
Passeio do cavalo (knight's tour, Warnsdorff heuristic)

Shallow embedding of `problema-cavalo-matriz.cpp` (board-state variant) and
`problema-cavalo-oop.cpp` (graph variant).

Conventions of the embedding:
* `short int` values are `Int`; every value the programs compute from a square
  of the board lies between `-1` and `10`, far from the 16-bit limits.
* the global variables `casas` and `coordenadasSolucao` are passed explicitly.
* a `for` loop over `0 .. N-1` is a fold over `List.range 8`; the loop of
  `achaSolucao`, which can return early, is a structural recursion on the
  number of iterations that remain.
-/

namespace Matriz

/-- The preprocessor constant `N`. -/
def N : Int := 8

/-- The table `coordenadaTraducao` (file index to file letter). -/
def coordenadaTraducao : List (Int × Char) :=
  [(1, 'a'), (2, 'b'), (3, 'c'), (4, 'd'), (5, 'e'), (6, 'f'), (7, 'g'), (8, 'h')]

/-- The read `coordenadaTraducao[x]`; a missing key reads as the value-initialised `char`. -/
def traduz (x : Int) : Char :=
  match coordenadaTraducao.lookup x with
  | some c => c
  | none => Char.ofNat 0

/-- The initial value of `coordenadasSolucao`: `N * N` value-initialised pairs. -/
def coordenadasSolucaoInicial : List (Char × Int) :=
  List.replicate 64 (Char.ofNat 0, 0)

/-- The initial value of `casas`: an `(N + 1) x (N + 1)` grid of `false`. -/
def casasInicial : List (List Bool) :=
  List.replicate 9 (List.replicate 9 false)

/-- The read `casas[x][y]`. -/
def leCasa (casas : List (List Bool)) (x y : Int) : Bool :=
  (casas.getD x.toNat []).getD y.toNat false

/-- The write `casas[x][y] = true`. -/
def marcaCasa (casas : List (List Bool)) (x y : Int) : List (List Bool) :=
  casas.set x.toNat ((casas.getD x.toNat []).set y.toNat true)

/-- The table `movimentosPossiveis`. -/
def movimentosPossiveis : List (Int × Int) :=
  [(2, 1), (2, -1), (1, 2), (1, -2), (-1, 2), (-1, -2), (-2, 1), (-2, -1)]

/-- The read `movimentosPossiveis[i]`. -/
def movimento (i : Nat) : Int × Int :=
  movimentosPossiveis.getD i (0, 0)

/-- The function `ePosicaoValida`. -/
def ePosicaoValida (x y : Int) : Bool :=
  decide (x ≥ 1) && decide (x ≤ N) && decide (y ≥ 1) && decide (y ≤ N)

/-- The function `checaVisitacao`; `&&` reads the grid only for a valid position. -/
def checaVisitacao (casas : List (List Bool)) (x y : Int) : Bool :=
  ePosicaoValida x y && !leCasa casas x y

/-- The function `retornaGrau`. -/
def retornaGrau (casas : List (List Bool)) (x y : Int) : Int :=
  (List.range 8).foldl
    (fun grau i =>
      if checaVisitacao casas (x + (movimento i).1) (y + (movimento i).2) then grau + 1
      else grau)
    0

/-- The body of the loop of `retornaProximaCoordenada`, on the pair
`(melhorMovimento, menorGrau)`. -/
def passoProxima (casas : List (List Bool)) (x y : Int) (est : Int × Int) (movPossivel : Nat) :
    Int × Int :=
  let proxCoordX := x + (movimento movPossivel).1
  let proxCoordY := y + (movimento movPossivel).2
  if checaVisitacao casas proxCoordX proxCoordY
      && decide (retornaGrau casas proxCoordX proxCoordY < est.2) then
    ((movPossivel : Int), retornaGrau casas proxCoordX proxCoordY)
  else est

/-- The function `retornaProximaCoordenada`. -/
def retornaProximaCoordenada (casas : List (List Bool)) (x y : Int) : Int × Int :=
  let melhorMovimento := ((List.range 8).foldl (passoProxima casas x y) (-1, N + 1)).1
  if melhorMovimento = -1 then (x, y)
  else (x + (movimento melhorMovimento.toNat).1, y + (movimento melhorMovimento.toNat).2)

/-- The globals `casas` and `coordenadasSolucao`. -/
structure Estado where
  casas : List (List Bool)
  coordenadasSolucao : List (Char × Int)
deriving DecidableEq

/-- The loop of `achaSolucao`, from the iteration with index `i`, with `n`
iterations left. -/
def lacoSolucao : Nat → Nat → Int → Int → Estado → Bool × Estado
  | 0, _, _, _, e => (true, e)
  | n + 1, i, x, y, e =>
    let novaCoordenada := retornaProximaCoordenada e.casas x y
    if novaCoordenada.1 = x ∧ novaCoordenada.2 = y then (false, e)
    else
      lacoSolucao n (i + 1) novaCoordenada.1 novaCoordenada.2
        { casas := marcaCasa e.casas novaCoordenada.1 novaCoordenada.2
          coordenadasSolucao :=
            e.coordenadasSolucao.set i (traduz novaCoordenada.1, novaCoordenada.2) }

/-- The function `achaSolucao`. -/
def achaSolucao (x y : Int) (e : Estado) : Bool × Estado :=
  lacoSolucao 63 1 x y { e with casas := marcaCasa e.casas x y }

/-- The part of `trataEntrada` after the command line is read: the file letter
is translated back to its index (no index when the letter is not in the table),
the start is stored at index 0 and `achaSolucao` runs on the initial globals. -/
def trataEntrada (xInicialChar : Char) (yInicial : Int) : Option (Bool × Estado) :=
  match coordenadaTraducao.find? (fun coordenada => coordenada.2 == xInicialChar) with
  | none => none
  | some coordenada =>
    some (achaSolucao coordenada.1 yInicial
      { casas := casasInicial
        coordenadasSolucao := coordenadasSolucaoInicial.set 0 (xInicialChar, yInicial) })

/-- The square reached from `(x, y)` by the offset with index `i`. -/
def destino (x y : Int) (i : Nat) : Int × Int :=
  (x + (movimento i).1, y + (movimento i).2)

/-- Whether the offset with index `i` leads from `(x, y)` to a square within the
board that is not visited. -/
def disponivel (casas : List (List Bool)) (x y : Int) (i : Nat) : Bool :=
  checaVisitacao casas (destino x y i).1 (destino x y i).2

/-- The degree of the square reached from `(x, y)` by the offset with index `i`. -/
def grauDestino (casas : List (List Bool)) (x y : Int) (i : Nat) : Int :=
  retornaGrau casas (destino x y i).1 (destino x y i).2

/-!
Auxiliary definitions for the board-state variant

The squares a run moves to, the entries it writes, and the vocabulary of the
statements below.
-/

/-- A grid with the shape of `casas`: `N + 1` rows of `N + 1` cells. -/
def gradeBoa (c : List (List Bool)) : Prop :=
  c.length = 9 ∧ ∀ r ∈ c, r.length = 9

/-- The squares that the loop of `achaSolucao` moves to, in order, in `n`
iterations from the square `(x, y)` on the grid `casas`. -/
def percurso : Nat → Int → Int → List (List Bool) → List (Int × Int)
  | 0, _, _, _ => []
  | n + 1, x, y, casas =>
    if (retornaProximaCoordenada casas x y).1 = x ∧ (retornaProximaCoordenada casas x y).2 = y then
      []
    else
      retornaProximaCoordenada casas x y ::
        percurso n (retornaProximaCoordenada casas x y).1 (retornaProximaCoordenada casas x y).2
          (marcaCasa casas (retornaProximaCoordenada casas x y).1
            (retornaProximaCoordenada casas x y).2)

/-- The writes `coordenadasSolucao[i] = {coordenadaTraducao[x], y}` for the
squares of a list, from the index `i` on. -/
def escreve (sol : List (Char × Int)) (i : Nat) : List (Int × Int) → List (Char × Int)
  | [] => sol
  | c :: l => escreve (sol.set i (traduz c.1, c.2)) (i + 1) l

/-- The writes `casas[x][y] = true` for the squares of a list. -/
def marcaTodas (casas : List (List Bool)) : List (Int × Int) → List (List Bool)
  | [] => casas
  | c :: l => marcaTodas (marcaCasa casas c.1 c.2) l

/-- Two squares one knight move apart: the second is the destination of one of
the 8 offsets from the first. -/
def salto (a b : Int × Int) : Prop :=
  ∃ k, k < 8 ∧ b = destino a.1 a.2 k

/-- The entry of `coordenadasSolucao` written for a square. -/
def entrada (c : Int × Int) : Char × Int :=
  (traduz c.1, c.2)

/-- The square that an entry of `coordenadasSolucao` stands for: the file letter
is translated back to its index as `trataEntrada` does. -/
def casaDaEntrada (p : Char × Int) : Int × Int :=
  match coordenadaTraducao.find? (fun coordenada => coordenada.2 == p.1) with
  | some coordenada => (coordenada.1, p.2)
  | none => (0, p.2)

/-- The square that the value `m` of `melhorMovimento` stands for: the current
square for `-1`, the destination of the offset with index `m` otherwise. -/
def posicao (x y : Int) (m : Int) : Int × Int :=
  if m = -1 then (x, y) else (x + (movimento m.toNat).1, y + (movimento m.toNat).2)

end Matriz

/-!
Further definitions for the board-state variant
-/

namespace Matriz

/-- Whether the square `b` is one knight move away from the square `a`: one step
along one axis and two steps along the other. -/
def movimentoDeCavalo (a b : Int × Int) : Bool :=
  (decide (b.1 - a.1 = 1 ∨ b.1 - a.1 = -1) && decide (b.2 - a.2 = 2 ∨ b.2 - a.2 = -2)) ||
    (decide (b.1 - a.1 = 2 ∨ b.1 - a.1 = -2) && decide (b.2 - a.2 = 1 ∨ b.2 - a.2 = -1))

/-- The squares within the board that are unvisited in the grid and one knight
move away from the square `(x, y)`. -/
def vizinhasLivres (casas : List (List Bool)) (x y : Int) : Finset (Int × Int) :=
  (Finset.Icc (1 : Int) 8 ×ˢ Finset.Icc (1 : Int) 8).filter
    (fun s => movimentoDeCavalo (x, y) s = true ∧ leCasa casas s.1 s.2 = false)

/-!
The board-state variant with its accesses checked

The same functions, where every access to `casas`, `movimentosPossiveis` and
`coordenadaTraducao` is checked: a function has no result (`none`) when it reads
or writes `casas` at an index outside `1..8`, indexes `movimentosPossiveis`
outside `0..7`, reads `coordenadaTraducao` at a missing key, or writes an entry
whose letter is not in `'a'..'h'` or whose rank is not in `1..8`.
-/

/-- The read `casas[x][y]`, checked: both indices are in `1..8`. -/
def leCasaVerificada (casas : List (List Bool)) (x y : Int) : Option Bool :=
  if 1 ≤ x ∧ x ≤ 8 ∧ 1 ≤ y ∧ y ≤ 8 then some (leCasa casas x y) else none

/-- The write `casas[x][y] = true`, checked: both indices are in `1..8`. -/
def marcaCasaVerificada (casas : List (List Bool)) (x y : Int) : Option (List (List Bool)) :=
  if 1 ≤ x ∧ x ≤ 8 ∧ 1 ≤ y ∧ y ≤ 8 then some (marcaCasa casas x y) else none

/-- The read `movimentosPossiveis[i]`, checked: the index is in `0..7`. -/
def movimentoVerificado (i : Int) : Option (Int × Int) :=
  if 0 ≤ i ∧ i ≤ 7 then some (movimento i.toNat) else none

/-- The entry `{coordenadaTraducao[x], y}`, checked: `coordenadaTraducao` has the
key `x`, the letter is in `'a'..'h'` and the rank is in `1..8`. -/
def entradaVerificada (x y : Int) : Option (Char × Int) :=
  match coordenadaTraducao.lookup x with
  | none => none
  | some letra =>
    if letra ∈ ['a', 'b', 'c', 'd', 'e', 'f', 'g', 'h'] ∧ 1 ≤ y ∧ y ≤ 8 then some (letra, y)
    else none

/-- The function `checaVisitacao`, checked. -/
def checaVisitacaoVerificada (casas : List (List Bool)) (x y : Int) : Option Bool :=
  if ePosicaoValida x y then
    match leCasaVerificada casas x y with
    | none => none
    | some visitada => some (!visitada)
  else some false

/-- The body of the loop of `retornaGrau`, checked. -/
def passoGrauVerificado (casas : List (List Bool)) (x y : Int) (grau : Option Int) (i : Nat) :
    Option Int :=
  match grau with
  | none => none
  | some grau =>
    match movimentoVerificado i with
    | none => none
    | some m =>
      match checaVisitacaoVerificada casas (x + m.1) (y + m.2) with
      | none => none
      | some livre => some (if livre then grau + 1 else grau)

/-- The function `retornaGrau`, checked. -/
def retornaGrauVerificado (casas : List (List Bool)) (x y : Int) : Option Int :=
  (List.range 8).foldl (passoGrauVerificado casas x y) (some 0)

/-- The body of the loop of `retornaProximaCoordenada`, checked. -/
def passoProximaVerificado (casas : List (List Bool)) (x y : Int) (est : Option (Int × Int))
    (movPossivel : Nat) : Option (Int × Int) :=
  match est with
  | none => none
  | some est =>
    match movimentoVerificado movPossivel with
    | none => none
    | some m =>
      match checaVisitacaoVerificada casas (x + m.1) (y + m.2) with
      | none => none
      | some false => some est
      | some true =>
        match retornaGrauVerificado casas (x + m.1) (y + m.2) with
        | none => none
        | some testeMenorGrau =>
          if testeMenorGrau < est.2 then some ((movPossivel : Int), testeMenorGrau)
          else some est

/-- The function `retornaProximaCoordenada`, checked. -/
def retornaProximaCoordenadaVerificada (casas : List (List Bool)) (x y : Int) :
    Option (Int × Int) :=
  match (List.range 8).foldl (passoProximaVerificado casas x y) (some (-1, N + 1)) with
  | none => none
  | some est =>
    if est.1 = -1 then some (x, y)
    else
      match movimentoVerificado est.1 with
      | none => none
      | some m => some (x + m.1, y + m.2)

/-- The loop of `achaSolucao`, checked. -/
def lacoSolucaoVerificado : Nat → Nat → Int → Int → Estado → Option (Bool × Estado)
  | 0, _, _, _, e => some (true, e)
  | n + 1, i, x, y, e =>
    (retornaProximaCoordenadaVerificada e.casas x y).bind fun novaCoordenada =>
      if novaCoordenada.1 = x ∧ novaCoordenada.2 = y then some (false, e)
      else
        (marcaCasaVerificada e.casas novaCoordenada.1 novaCoordenada.2).bind fun casas =>
          (entradaVerificada novaCoordenada.1 novaCoordenada.2).bind fun entradaNova =>
            lacoSolucaoVerificado n (i + 1) novaCoordenada.1 novaCoordenada.2
              { casas := casas
                coordenadasSolucao := e.coordenadasSolucao.set i entradaNova }

/-- The function `achaSolucao`, checked. -/
def achaSolucaoVerificado (x y : Int) (e : Estado) : Option (Bool × Estado) :=
  match marcaCasaVerificada e.casas x y with
  | none => none
  | some casas => lacoSolucaoVerificado 63 1 x y { e with casas := casas }

end Matriz

/-!
A bit-set model of the board-state variant

The grid and its border are one natural number (12 rows of 12 bits), a square is
the position of its bit, and the 8 offsets are additions to the position. The
model is proved equal to `Matriz.achaSolucao` below (`achaSolucao_eq_correR`);
it is what the kernel evaluates for the 64 start squares.
-/

namespace Rapido

/-- The position of the square `(x, y)` in a board of 12 rows of 12 cells that
has a border two cells wide around the 8 x 8 board. -/
def indice (x y : Int) : Nat :=
  (12 * (x + 1) + (y + 1)).toNat

/-- The bit set of the border cells of the 12 x 12 board. -/
def borda : Nat := 0xffffffc03c03c03c03c03c03c03c03ffffff

/-- Whether the cell `q` is not in the bit set `B` (1) or is (0). -/
def livre (B q : Nat) : Nat :=
  Nat.sub 1 (Nat.mod (Nat.shiftRight B q) 2)

/-- The number of cells a knight move away from `p` that are not in `B`. -/
def grauR (B p : Nat) : Nat :=
  Nat.add (livre B (Nat.add p 25)) (Nat.add (livre B (Nat.add p 23))
    (Nat.add (livre B (Nat.add p 14)) (Nat.add (livre B (Nat.add p 10))
      (Nat.add (livre B (Nat.sub p 10)) (Nat.add (livre B (Nat.sub p 14))
        (Nat.add (livre B (Nat.sub p 23)) (livre B (Nat.sub p 25))))))))

/-- One step of the selector on `(best cell, least degree)`; the candidate is
the cell `p + d - 25`. -/
def passoR (B p : Nat) (est : Nat × Nat) (d : Nat) : Nat × Nat :=
  cond (and (Nat.beq (Nat.mod (Nat.shiftRight B (Nat.sub (Nat.add p d) 25)) 2) 0)
      (Nat.ble (Nat.succ (grauR B (Nat.sub (Nat.add p d) 25))) est.2))
    (Nat.sub (Nat.add p d) 25, grauR B (Nat.sub (Nat.add p d) 25))
    est

/-- The selector: the offsets in the order of `movimentosPossiveis`. -/
def proxR (B p : Nat) : Nat :=
  (passoR B p (passoR B p (passoR B p (passoR B p (passoR B p (passoR B p
    (passoR B p (passoR B p (p, 9) 50) 48) 39) 35) 15) 11) 2) 0).1

/-- The loop of `achaSolucao`, `n` iterations from the cell `p`. -/
def lacoR : Nat → Nat → Nat → Bool
  | 0, _, _ => true
  | n + 1, B, p =>
    cond (Nat.beq (proxR B p) p) false
      (lacoR n (Nat.lor B (Nat.pow 2 (proxR B p))) (proxR B p))

/-- The run of `achaSolucao` from the square `(x, y)` on the initial grid. -/
def correR (x y : Int) : Bool :=
  lacoR 63 (Nat.lor borda (Nat.pow 2 (indice x y))) (indice x y)

/-- The 64 squares of the board. -/
def todasCasas : List (Int × Int) :=
  [1, 2, 3, 4, 5, 6, 7, 8].flatMap fun x => [1, 2, 3, 4, 5, 6, 7, 8].map fun y => (x, y)

/-- The offset of the fast board for the index `k` of `movimentosPossiveis`,
shifted by 25. -/
def deslocamento (k : Nat) : Nat :=
  [50, 48, 39, 35, 15, 11, 2, 0].getD k 0

/-- The bit set `B` holds the cells of the border and the visited cells of the
grid `c`: a cell is in `B` exactly when `checaVisitacao` rejects its square. -/
def Corresponde (c : List (List Bool)) (B : Nat) : Prop :=
  ∀ a b : Int, -1 ≤ a → a ≤ 10 → -1 ≤ b → b ≤ 10 →
    B.testBit (indice a b) = !Matriz.checaVisitacao c a b

end Rapido

/-!
The graph variant (`problema-cavalo-oop.cpp`)

`casas.at` throws when the key is missing: the functions that call it return an
`Option`. The order in which a `std::set<Vertice *>` enumerates its elements is
the order of the addresses of the vertices, which the program does not fix: the
address of the vertex of each key is the parameter `ender`.
-/

namespace Oop

open Matriz (N traduz movimento ePosicaoValida destino checaVisitacao marcaCasa casasInicial
  coordenadaTraducao coordenadasSolucaoInicial)

/-- The class `Vertice`. A value of type `Vertice *` is represented by the key
under which `Grafo.casas` holds the vertex it points to (the constructor of
`Grafo` allocates one vertex per key), so `casasVizinhas` is a list of keys; it
lists the elements of the `std::set<Vertice *>` in the order in which the set
enumerates them, the increasing order of the addresses of the vertices. -/
structure Vertice where
  id : Int × Int
  casasVizinhas : List (Int × Int)
deriving DecidableEq

/-- The class `Grafo`: the entries of the `std::map` `casas`. -/
structure Grafo where
  casas : List ((Int × Int) × Vertice)
deriving DecidableEq

/-- The insertion `std::set::insert`, for the set of pointers whose elements, in
increasing order of address, are the list; `ender` gives the address of the
vertex of each key. -/
def insere (ender : Int × Int → Nat) (w : Int × Int) : List (Int × Int) → List (Int × Int)
  | [] => [w]
  | u :: l =>
    if ender w < ender u then w :: u :: l
    else if ender u < ender w then u :: insere ender w l
    else u :: l

/-- The lookup `casas.at(k)`; `none` stands for the exception `std::out_of_range`. -/
def Grafo.em (g : Grafo) (k : Int × Int) : Option Vertice :=
  g.casas.lookup k

/-- The call `p->adicionaVizinho(w)`. -/
def Grafo.adicionaVizinho (ender : Int × Int → Nat) (g : Grafo) (p w : Int × Int) : Grafo :=
  { casas := g.casas.map fun e =>
      if e.1 = p then (e.1, { e.2 with casasVizinhas := insere ender w e.2.casasVizinhas })
      else e }

/-- The call `p->retornaCasasVizinhas().erase(w)`: the element equal to `w`,
if the set has one, is removed. -/
def Grafo.apagaVizinho (g : Grafo) (p w : Int × Int) : Grafo :=
  { casas := g.casas.map fun e =>
      if e.1 = p then
        (e.1, { e.2 with casasVizinhas := e.2.casasVizinhas.filter fun u => decide (u ≠ w) })
      else e }

/-- The call `casas.insert(std::make_pair(p, new Vertice({linha, coluna})))`:
nothing is inserted when the key is present. -/
def Grafo.insereCasa (g : Grafo) (p : Int × Int) : Grafo :=
  match g.em p with
  | some _ => g
  | none => { casas := g.casas ++ [(p, { id := p, casasVizinhas := [] })] }

/-- The values of the loop variables of `for (short int i = 1 ; i <= N ; i++)`. -/
def indices : List Int := [1, 2, 3, 4, 5, 6, 7, 8]

/-- The body of the innermost loop of `adicionaArestas`. -/
def passoAresta (ender : Int × Int → Nat) (i j : Int) (g : Option Grafo) (movPossivel : Nat) :
    Option Grafo :=
  match g with
  | none => none
  | some g =>
    if ePosicaoValida (i + (movimento movPossivel).1) (j + (movimento movPossivel).2) then
      match g.em (i, j), g.em (i + (movimento movPossivel).1, j + (movimento movPossivel).2) with
      | some _, some _ =>
        some (g.adicionaVizinho ender (i, j)
          (i + (movimento movPossivel).1, j + (movimento movPossivel).2))
      | _, _ => none
    else some g

/-- The function `Grafo::adicionaArestas`. -/
def adicionaArestas (ender : Int × Int → Nat) (g : Grafo) : Option Grafo :=
  indices.foldl
    (fun g i => indices.foldl (fun g j => (List.range 8).foldl (passoAresta ender i j) g) g)
    (some g)

/-- The constructor `Grafo::Grafo`. -/
def Grafo.novo (ender : Int × Int → Nat) : Option Grafo :=
  adicionaArestas ender
    (indices.foldl
      (fun g linha => indices.foldl (fun g coluna => g.insereCasa (linha, coluna)) g)
      { casas := [] })

/-- The function `Grafo::retornaGrau`. -/
def retornaGrau (g : Grafo) (x y : Int) : Option Int :=
  match g.em (x, y) with
  | none => none
  | some v => some (v.casasVizinhas.length : Int)

/-- The body of the first loop of `Grafo::retornaProximaCoordenada`, on the pair
`(melhorCoordenada, menorGrau)`. -/
def passoProxima (g : Grafo) (est : Option ((Int × Int) × Int)) (coordenada : Int × Int) :
    Option ((Int × Int) × Int) :=
  match est with
  | none => none
  | some est =>
    match g.em coordenada with
    | none => none
    | some vc =>
      match retornaGrau g vc.id.1 vc.id.2 with
      | none => none
      | some testeMenorGrau =>
        if testeMenorGrau < est.2 then some (coordenada, testeMenorGrau) else some est

/-- The loop `for (auto &adj : p->retornaCasasVizinhas()) adj->retornaCasasVizinhas().erase(p)`,
over the elements `vizinhas` of the set of `p`. -/
def retira (g : Grafo) (p : Int × Int) (vizinhas : List (Int × Int)) : Grafo :=
  vizinhas.foldl (fun g adj => g.apagaVizinho adj p) g

/-- The function `Grafo::retornaProximaCoordenada`: the pointer returned and the
graph after the call. -/
def retornaProximaCoordenada (g : Grafo) (x y : Int) : Option ((Int × Int) × Grafo) :=
  match g.em (x, y) with
  | none => none
  | some atual =>
    match atual.casasVizinhas.foldl (passoProxima g) (some ((x, y), N + 1)) with
    | none => none
    | some est =>
      if est.1 = (x, y) then some ((x, y), g)
      else
        match g.em est.1 with
        | none => none
        | some melhor => some (est.1, retira g est.1 melhor.casasVizinhas)

/-- The loop of `Grafo::achaSolucao`, from the iteration with index `i`, with
`n` iterations left; `v` is the pointer to the vertex of the start square. -/
def lacoSolucao (v : Int × Int) :
    Nat → Nat → Int → Int → Grafo → List (Char × Int) → Option (Bool × Grafo × List (Char × Int))
  | 0, _, _, _, g, sol => some (true, g, sol)
  | n + 1, i, x, y, g, sol =>
    match retornaProximaCoordenada g x y with
    | none => none
    | some r =>
      if r.1 = v then some (false, r.2, sol)
      else
        match r.2.em r.1 with
        | none => none
        | some nova =>
          lacoSolucao v n (i + 1) nova.id.1 nova.id.2 r.2 (sol.set i (traduz nova.id.1, nova.id.2))

/-- The function `Grafo::achaSolucao`. -/
def achaSolucao (g : Grafo) (sol : List (Char × Int)) (x y : Int) :
    Option (Bool × Grafo × List (Char × Int)) :=
  match g.em (x, y) with
  | none => none
  | some v => lacoSolucao (x, y) 63 1 x y (retira g (x, y) v.casasVizinhas) sol

/-- The part of `trataEntrada` after the command line is read, for the file
letter `xInicialChar` and the rank `yInicial`; `ender` gives the addresses at
which the constructor of `Grafo` allocates the vertices. -/
def trataEntrada (ender : Int × Int → Nat) (xInicialChar : Char) (yInicial : Int) :
    Option (Bool × Grafo × List (Char × Int)) :=
  match coordenadaTraducao.find? (fun coordenada => coordenada.2 == xInicialChar) with
  | none => none
  | some coordenada =>
    match Grafo.novo ender with
    | none => none
    | some g =>
      achaSolucao g (coordenadasSolucaoInicial.set 0 (xInicialChar, yInicial)) coordenada.1
        yInicial

/-- Addresses that grow in the order in which the constructor allocates the
vertices. -/
def enderCrescente (k : Int × Int) : Nat :=
  (8 * k.1 + k.2).toNat

/-- Addresses that decrease in the order in which the constructor allocates the
vertices. -/
def enderDecrescente (k : Int × Int) : Nat :=
  (100 - (8 * k.1 + k.2)).toNat

/-!
Auxiliary definitions for the graph variant

The run of the graph variant told on the grid of the visited squares, and the
relation between a graph and a grid that the run keeps.
-/

/-- The elements of the set of the vertex that the pointer `u` points to; no
element when `casas` has no such vertex. -/
def vizinhas (g : Grafo) (u : Int × Int) : List (Int × Int) :=
  match g.em u with
  | some v => v.casasVizinhas
  | none => []

/-- The keys that the constructor inserts, in the order of insertion. -/
def todas : List (Int × Int) :=
  indices.flatMap fun linha => indices.map fun coluna => (linha, coluna)

/-- The map `casas` holds one vertex for each square of the board, whose `id` is
its key. -/
def BemFormado (g : Grafo) : Prop :=
  g.casas.map (fun e => (e.1, e.2.id)) = todas.map (fun k => (k, k))

/-- The destinations of the 8 offsets from the square `u` that are within the
board and not visited in the grid `c`, in the order of `movimentosPossiveis`. -/
def disponiveis (c : List (List Bool)) (u : Int × Int) : List (Int × Int) :=
  ((List.range 8).map (destino u.1 u.2)).filter (fun s => checaVisitacao c s.1 s.2)

/-- The order of the pointers: the order of the addresses. -/
def antes (ender : Int × Int → Nat) (a b : Int × Int) : Prop :=
  ender a < ender b

/-- Distinct vertices of the board have distinct addresses. -/
def EnderecosDistintos (ender : Int × Int → Nat) : Prop :=
  ∀ a b : Int × Int, ePosicaoValida a.1 a.2 = true → ePosicaoValida b.1 b.2 = true →
    ender a = ender b → a = b

/-- The list of squares in increasing order of address. -/
def ordena (ender : Int × Int → Nat) (l : List (Int × Int)) : List (Int × Int) :=
  l.foldl (fun acc w => insere ender w acc) []

/-- The destinations of the 8 offsets from the square `u` that are within the
board, in the order of `movimentosPossiveis`. -/
def destinosValidos (u : Int × Int) : List (Int × Int) :=
  ((List.range 8).map (destino u.1 u.2)).filter (fun s => ePosicaoValida s.1 s.2)


/-- The body of the first loop of `Grafo::retornaProximaCoordenada`, with the
degree of a vertex read from the grid of the visited squares. -/
def passoOrdenado (c : List (List Bool)) (est : (Int × Int) × Int) (w : Int × Int) :
    (Int × Int) × Int :=
  if Matriz.retornaGrau c w.1 w.2 < est.2 then (w, Matriz.retornaGrau c w.1 w.2) else est

/-- The square that `Grafo::retornaProximaCoordenada` returns at the square
`(x, y)` when the visited squares are those of the grid `c`: the available
destinations are enumerated in increasing order of address. -/
def proximaOrdenada (ender : Int × Int → Nat) (c : List (List Bool)) (x y : Int) : Int × Int :=
  ((ordena ender (disponiveis c (x, y))).foldl (passoOrdenado c) ((x, y), N + 1)).1

/-- The squares that `n` iterations of the loop of `Grafo::achaSolucao` write,
from the square `(x, y)`, when the visited squares are those of the grid `c`. -/
def escritos (ender : Int × Int → Nat) : Nat → Int → Int → List (List Bool) → List (Int × Int)
  | 0, _, _, _ => []
  | n + 1, x, y, c =>
    proximaOrdenada ender c x y ::
      escritos ender n (proximaOrdenada ender c x y).1 (proximaOrdenada ender c x y).2
        (marcaCasa c (proximaOrdenada ender c x y).1 (proximaOrdenada ender c x y).2)

/-- The graph `g` agrees with the grid `c` of the visited squares, the current
square being `cur`: the set of every square that is not visited, and that of the
current square, holds the available destinations of the square. -/
def Inv (ender : Int × Int → Nat) (g : Grafo) (c : List (List Bool)) (cur : Int × Int) : Prop :=
  BemFormado g ∧ Matriz.gradeBoa c ∧ ePosicaoValida cur.1 cur.2 = true ∧
    checaVisitacao c cur.1 cur.2 = false ∧
    ∀ u : Int × Int, ePosicaoValida u.1 u.2 = true →
      (checaVisitacao c u.1 u.2 = true ∨ u = cur) →
        (vizinhas g u).Sorted (antes ender) ∧ (vizinhas g u).Perm (disponiveis c u)

/-- The state in which the main loop of `Grafo::achaSolucao` starts on the graph
`g`, for the start square `(x, y)`: the graph after the loop that erases the
start vertex from the sets of its neighbours, the current square, and the grid
in which the start square is marked. -/
def inicio (g : Grafo) (x y : Int) : Option (Grafo × (Int × Int) × List (List Bool)) :=
  match g.em (x, y) with
  | none => none
  | some v => some (retira g (x, y) v.casasVizinhas, (x, y), marcaCasa casasInicial x y)

/-- One iteration of the main loop of `Grafo::achaSolucao` on the graph, the
current square and the grid of the visited squares: the square that the selector
returns becomes the current square and is marked. -/
def avanca (s : Grafo × (Int × Int) × List (List Bool)) :
    Option (Grafo × (Int × Int) × List (List Bool)) :=
  match retornaProximaCoordenada s.1 s.2.1.1 s.2.1.2 with
  | none => none
  | some r =>
    match r.2.em r.1 with
    | none => none
    | some nova => some (r.2, nova.id, marcaCasa s.2.2 nova.id.1 nova.id.2)

/-- The state of a run of `Grafo::achaSolucao` on the graph `g` from the square
`(x, y)` after the erasing of the start vertex and `k` iterations of the main
loop. -/
def corridaEm (g : Grafo) (x y : Int) : Nat → Option (Grafo × (Int × Int) × List (List Bool))
  | 0 => inicio g x y
  | k + 1 => (corridaEm g x y k).bind avanca

/-- The state of a run of `Grafo::achaSolucao` from the square `(x, y)` after the
constructor, the erasing of the start vertex, and `k` iterations of the main
loop: the graph, the current square, and the grid in which exactly the squares
visited so far are marked. -/
def corrida (ender : Int × Int → Nat) (x y : Int) (k : Nat) :
    Option (Grafo × (Int × Int) × List (List Bool)) :=
  (Grafo.novo ender).bind fun g => corridaEm g x y k

/-- The current square and the grid of the visited squares after `k` iterations
of the loop of `Grafo::achaSolucao` from the square `(x, y)`. -/
def estado (ender : Int × Int → Nat) (x y : Int) : Nat → (Int × Int) × List (List Bool)
  | 0 => ((x, y), marcaCasa casasInicial x y)
  | k + 1 =>
    (proximaOrdenada ender (estado ender x y k).2 (estado ender x y k).1.1
        (estado ender x y k).1.2,
      marcaCasa (estado ender x y k).2
        (proximaOrdenada ender (estado ender x y k).2 (estado ender x y k).1.1
          (estado ender x y k).1.2).1
        (proximaOrdenada ender (estado ender x y k).2 (estado ender x y k).1.1
          (estado ender x y k).1.2).2)

/-- The addresses of the vertices of the board decrease in the order in which
the constructor allocates them (row after row); with such addresses the set of
a vertex enumerates its elements in the order of `movimentosPossiveis`. -/
def OrdemDaTabela (ender : Int × Int → Nat) : Prop :=
  ∀ a b : Int × Int, ePosicaoValida a.1 a.2 = true → ePosicaoValida b.1 b.2 = true →
    (ender a < ender b ↔ (b.1 < a.1 ∨ (b.1 = a.1 ∧ b.2 < a.2)))

end Oop

/-!
The board-state variant

The degree and the selector
-/

namespace Matriz

theorem foldl_conta (P : Nat → Bool) (l : List Nat) (g0 : Int) :
    l.foldl (fun grau i => if P i then grau + 1 else grau) g0 = g0 + (l.countP P : Nat) := by
  induction l generalizing g0 with
  | nil => simp
  | cons i l ih =>
    simp only [List.foldl_cons, ih, List.countP_cons]
    by_cases h : P i = true <;> simp [h]
    omega

theorem retornaGrau_eq_countP (casas : List (List Bool)) (x y : Int) :
    retornaGrau casas x y = ((List.range 8).countP (disponivel casas x y) : Nat) := by
  have h := foldl_conta (disponivel casas x y) (List.range 8) 0
  rw [zero_add] at h
  exact h

theorem retornaGrau_le (casas : List (List Bool)) (x y : Int) :
    retornaGrau casas x y ≤ 8 := by
  rw [retornaGrau_eq_countP]
  have h := List.countP_le_length (disponivel casas x y) (l := List.range 8)
  simp at h
  omega

theorem passoProxima_eq (casas : List (List Bool)) (x y : Int) (est : Int × Int) (i : Nat) :
    passoProxima casas x y est i =
      if disponivel casas x y i = true ∧ grauDestino casas x y i < est.2 then
        ((i : Int), grauDestino casas x y i)
      else est := by
  unfold passoProxima disponivel grauDestino destino
  by_cases h1 : checaVisitacao casas (x + (movimento i).1) (y + (movimento i).2) = true <;>
    by_cases h2 : retornaGrau casas (x + (movimento i).1) (y + (movimento i).2) < est.2 <;>
    simp [h1, h2]

/-- The loop of the selector over an increasing list of offset indices: either
nothing beats the initial bound, or the result is the first available index of
least degree. -/
theorem foldl_passoProxima (casas : List (List Bool)) (x y : Int) (l : List Nat)
    (hl : l.Sorted (· < ·)) (est : Int × Int) :
    ((l.foldl (passoProxima casas x y) est = est) ∧
        ∀ i ∈ l, disponivel casas x y i = true → est.2 ≤ grauDestino casas x y i) ∨
      ∃ k ∈ l, l.foldl (passoProxima casas x y) est = ((k : Int), grauDestino casas x y k) ∧
        disponivel casas x y k = true ∧ grauDestino casas x y k < est.2 ∧
        ∀ i ∈ l, disponivel casas x y i = true →
          grauDestino casas x y k ≤ grauDestino casas x y i ∧
            (i < k → grauDestino casas x y k < grauDestino casas x y i) := by
  induction l generalizing est with
  | nil => left; simp
  | cons j l ih =>
    have hj : ∀ i ∈ l, j < i := fun i hi => List.rel_of_sorted_cons hl i hi
    have hl2 : l.Sorted (· < ·) := hl.of_cons
    rw [List.foldl_cons, passoProxima_eq]
    by_cases h : disponivel casas x y j = true ∧ grauDestino casas x y j < est.2
    · rw [if_pos h]
      rcases ih hl2 ((j : Int), grauDestino casas x y j) with ⟨he, hall⟩ | ⟨k, hk, he, hd, hlt, hall⟩
      · right
        refine ⟨j, List.mem_cons_self _ _, he, h.1, h.2, ?_⟩
        intro i hi hdi
        rcases List.mem_cons.1 hi with rfl | hi
        · exact ⟨le_refl _, fun hlt => absurd hlt (lt_irrefl _)⟩
        · exact ⟨hall i hi hdi, fun hlt => absurd (hj i hi) (by omega)⟩
      · right
        simp only at hlt
        refine ⟨k, List.mem_cons_of_mem _ hk, he, hd, by omega, ?_⟩
        intro i hi hdi
        rcases List.mem_cons.1 hi with rfl | hi
        · exact ⟨by omega, fun _ => hlt⟩
        · exact hall i hi hdi
    · rw [if_neg h]
      have hj2 : disponivel casas x y j = true → est.2 ≤ grauDestino casas x y j := by
        intro hd
        by_contra hc
        exact h ⟨hd, by omega⟩
      rcases ih hl2 est with ⟨he, hall⟩ | ⟨k, hk, he, hd, hlt, hall⟩
      · left
        refine ⟨he, ?_⟩
        intro i hi hdi
        rcases List.mem_cons.1 hi with rfl | hi
        · exact hj2 hdi
        · exact hall i hi hdi
      · right
        refine ⟨k, List.mem_cons_of_mem _ hk, he, hd, hlt, ?_⟩
        intro i hi hdi
        rcases List.mem_cons.1 hi with rfl | hi
        · have := hj2 hdi
          exact ⟨by omega, fun _ => by omega⟩
        · exact hall i hi hdi

end Matriz

namespace Matriz

/-- The two outcomes of the selector: no offset is available and the current
square comes back, or the first available offset of least degree is taken. -/
theorem retornaProximaCoordenada_casos (casas : List (List Bool)) (x y : Int) :
    (retornaProximaCoordenada casas x y = (x, y) ∧
        ∀ i, i < 8 → disponivel casas x y i = false) ∨
      ∃ k, k < 8 ∧ retornaProximaCoordenada casas x y = destino x y k ∧
        disponivel casas x y k = true ∧
        ∀ i, i < 8 → disponivel casas x y i = true →
          grauDestino casas x y k ≤ grauDestino casas x y i ∧
            (i < k → grauDestino casas x y k < grauDestino casas x y i) := by
  have hs : (List.range 8).Sorted (· < ·) := List.sorted_lt_range 8
  rcases foldl_passoProxima casas x y (List.range 8) hs (-1, N + 1) with
    ⟨he, hall⟩ | ⟨k, hk, he, hd, _, hall⟩
  · left
    constructor
    · unfold retornaProximaCoordenada
      simp only [he]
      simp
    · intro i hi
      by_contra hc
      have h1 := hall i (List.mem_range.2 hi) (by simpa using hc)
      have h2 := retornaGrau_le casas (destino x y i).1 (destino x y i).2
      simp only [N, grauDestino] at h1
      omega
  · right
    refine ⟨k, List.mem_range.1 hk, ?_, hd, fun i hi => hall i (List.mem_range.2 hi)⟩
    unfold retornaProximaCoordenada
    simp only [he]
    have hk0 : ¬ ((k : Int) = -1) := by omega
    rw [if_neg hk0]
    simp [destino]

end Matriz

/-!
The selector and the exhausted square (C8, C9, C6)
-/

namespace Matriz

/-- C8. When some offset of `(x, y)` leads to a square within the board that is
not visited, `retornaProximaCoordenada` returns such a square, and its
`retornaGrau` is at most that of every other such square. -/
theorem retornaProximaCoordenada_minimo (casas : List (List Bool)) (x y : Int)
    (h : ∃ i, i < 8 ∧ checaVisitacao casas (destino x y i).1 (destino x y i).2 = true) :
    (∃ k, k < 8 ∧ retornaProximaCoordenada casas x y = destino x y k) ∧
      checaVisitacao casas (retornaProximaCoordenada casas x y).1
        (retornaProximaCoordenada casas x y).2 = true ∧
      ∀ i, i < 8 → checaVisitacao casas (destino x y i).1 (destino x y i).2 = true →
        retornaGrau casas (retornaProximaCoordenada casas x y).1
            (retornaProximaCoordenada casas x y).2
          ≤ retornaGrau casas (destino x y i).1 (destino x y i).2 := by
  rcases retornaProximaCoordenada_casos casas x y with ⟨_, hnone⟩ | ⟨k, hk, he, hd, hall⟩
  · obtain ⟨i, hi, hdi⟩ := h
    have := hnone i hi
    simp only [disponivel] at this
    rw [this] at hdi
    exact absurd hdi (by decide)
  · rw [he]
    exact ⟨⟨k, hk, rfl⟩, hd, fun i hi hdi => (hall i hi hdi).1⟩

/-- Instance of C8: the square a1 on the initial grid. -/
theorem retornaProximaCoordenada_minimo_witness :
    (∃ k, k < 8 ∧ retornaProximaCoordenada casasInicial 1 1 = destino 1 1 k) ∧
      checaVisitacao casasInicial (retornaProximaCoordenada casasInicial 1 1).1
        (retornaProximaCoordenada casasInicial 1 1).2 = true ∧
      ∀ i, i < 8 → checaVisitacao casasInicial (destino 1 1 i).1 (destino 1 1 i).2 = true →
        retornaGrau casasInicial (retornaProximaCoordenada casasInicial 1 1).1
            (retornaProximaCoordenada casasInicial 1 1).2
          ≤ retornaGrau casasInicial (destino 1 1 i).1 (destino 1 1 i).2 :=
  retornaProximaCoordenada_minimo casasInicial 1 1 ⟨0, by decide, by decide⟩

/-- C9. Among the available offsets of least degree the selector takes the one
with the smallest index in `movimentosPossiveis`: if the offset `k` is
available, no available offset has a smaller degree, and no available offset
before `k` has the same degree, the result is the destination of `k`. From a1,
once a1 is visited, c2 and b3 both have degree 5 and the result is c2. -/
theorem retornaProximaCoordenada_desempate :
    (∀ (casas : List (List Bool)) (x y : Int) (k : Nat), k < 8 →
      checaVisitacao casas (destino x y k).1 (destino x y k).2 = true →
      (∀ i, i < 8 → checaVisitacao casas (destino x y i).1 (destino x y i).2 = true →
        retornaGrau casas (destino x y k).1 (destino x y k).2
          ≤ retornaGrau casas (destino x y i).1 (destino x y i).2) →
      (∀ j, j < k → checaVisitacao casas (destino x y j).1 (destino x y j).2 = true →
        retornaGrau casas (destino x y j).1 (destino x y j).2
          ≠ retornaGrau casas (destino x y k).1 (destino x y k).2) →
      retornaProximaCoordenada casas x y = destino x y k) ∧
    (movimentosPossiveis =
        [(2, 1), (2, -1), (1, 2), (1, -2), (-1, 2), (-1, -2), (-2, 1), (-2, -1)] ∧
      retornaGrau (marcaCasa casasInicial 1 1) 3 2 = 5 ∧
      retornaGrau (marcaCasa casasInicial 1 1) 2 3 = 5 ∧
      retornaProximaCoordenada (marcaCasa casasInicial 1 1) 1 1 = (3, 2)) := by
  refine ⟨?_, rfl, by decide, by decide, by decide⟩
  intro casas x y k hk hdk hmin hprim
  rcases retornaProximaCoordenada_casos casas x y with ⟨_, hnone⟩ | ⟨m, hm, he, hd, hall⟩
  · have := hnone k hk
    simp only [disponivel] at this
    rw [this] at hdk
    exact absurd hdk (by decide)
  · rw [he]
    have h1 := hall k hk hdk
    have h2 := hmin m hm hd
    simp only [grauDestino] at h1
    rcases Nat.lt_trichotomy m k with hlt | heq | hgt
    · exact absurd (le_antisymm h1.1 h2) (hprim m hlt hd)
    · rw [heq]
    · have := h1.2 hgt
      omega

/-- Instance of C9: from a1, once a1 is visited, the offset with index 0 is taken. -/
theorem retornaProximaCoordenada_desempate_witness :
    retornaProximaCoordenada (marcaCasa casasInicial 1 1) 1 1 = destino 1 1 0 :=
  retornaProximaCoordenada_desempate.1 (marcaCasa casasInicial 1 1) 1 1 0 (by decide)
    (by decide) (by decide) (fun j hj => absurd hj (by omega))

/-- C6. When, at the iteration `i` of the loop of `achaSolucao` (`1 ≤ i ≤ 63`,
so `64 - i` iterations are left), every offset of the current square leads out
of the board or to a visited square, the loop returns `false` and leaves the
grid and the solution sequence as they were. -/
theorem lacoSolucao_exaustao (casas : List (List Bool)) (sol : List (Char × Int)) (x y : Int)
    (i : Nat) (hi1 : 1 ≤ i) (hi2 : i ≤ 63)
    (h : ∀ k, k < 8 → checaVisitacao casas (destino x y k).1 (destino x y k).2 = false) :
    lacoSolucao (64 - i) i x y { casas := casas, coordenadasSolucao := sol }
      = (false, { casas := casas, coordenadasSolucao := sol }) := by
  obtain ⟨n, hn⟩ : ∃ n, 64 - i = n + 1 := ⟨63 - i, by omega⟩
  have hp : retornaProximaCoordenada casas x y = (x, y) := by
    rcases retornaProximaCoordenada_casos casas x y with ⟨he, _⟩ | ⟨k, hk, _, hd, _⟩
    · exact he
    · have := h k hk
      simp only [disponivel] at hd
      rw [this] at hd
      exact absurd hd (by decide)
  rw [hn]
  simp [lacoSolucao, hp]

/-- Instance of C6: the iteration 3 at a1 with a1, c2 and b3 visited. -/
theorem lacoSolucao_exaustao_witness :
    lacoSolucao (64 - 3) 3 1 1
        { casas := marcaCasa (marcaCasa (marcaCasa casasInicial 1 1) 3 2) 2 3,
          coordenadasSolucao := coordenadasSolucaoInicial }
      = (false, { casas := marcaCasa (marcaCasa (marcaCasa casasInicial 1 1) 3 2) 2 3,
                  coordenadasSolucao := coordenadasSolucaoInicial }) :=
  lacoSolucao_exaustao _ _ 1 1 3 (by decide) (by decide) (by decide)

end Matriz

/-!
Reads and writes of the grid
-/

namespace Matriz

theorem getD_set_grade (c : List (List Bool)) (i j i' j' : Nat) (hi : i < c.length)
    (hj : j < (c.getD i []).length) :
    ((c.set i ((c.getD i []).set j true)).getD i' []).getD j' false
      = if i' = i ∧ j' = j then true else (c.getD i' []).getD j' false := by
  by_cases h1 : i' = i
  · subst h1
    by_cases h2 : j' = j
    · subst h2
      simp [List.getD_eq_getElem?_getD, List.getElem?_set_self, hi] at hj ⊢
      simp [List.getElem?_set_self hj]
    · have h3 : j ≠ j' := fun h => h2 h.symm
      simp [List.getD_eq_getElem?_getD, List.getElem?_set_self, hi, h2,
        List.getElem?_set_ne h3]
  · have h3 : i ≠ i' := fun h => h1 h.symm
    simp [List.getD_eq_getElem?_getD, List.getElem?_set_ne h3, h1]

theorem gradeBoa_marcaCasa (c : List (List Bool)) (x y : Int) (h : gradeBoa c) :
    gradeBoa (marcaCasa c x y) := by
  obtain ⟨h1, h2⟩ := h
  refine ⟨by simp [marcaCasa, h1], ?_⟩
  intro r hr
  unfold marcaCasa at hr
  by_cases hx : x.toNat < c.length
  · rcases List.mem_or_eq_of_mem_set hr with hr | hr
    · exact h2 r hr
    · rw [hr, List.length_set, List.getD_eq_getElem _ _ hx]
      exact h2 _ (List.getElem_mem _)
  · rw [List.set_eq_of_length_le (by omega)] at hr
    exact h2 r hr

theorem leCasa_marcaCasa (c : List (List Bool)) (h : gradeBoa c) (x y a b : Int)
    (hx0 : 0 ≤ x) (hx8 : x ≤ 8) (hy0 : 0 ≤ y) (hy8 : y ≤ 8) (ha : 0 ≤ a) (hb : 0 ≤ b) :
    leCasa (marcaCasa c x y) a b = if a = x ∧ b = y then true else leCasa c a b := by
  obtain ⟨h1, h2⟩ := h
  have hi : x.toNat < c.length := by omega
  have hj : y.toNat < (c.getD x.toNat []).length := by
    rw [List.getD_eq_getElem _ _ hi, h2 _ (List.getElem_mem _)]
    omega
  unfold leCasa marcaCasa
  rw [getD_set_grade c _ _ _ _ hi hj]
  have e1 : a.toNat = x.toNat ↔ a = x := by omega
  have e2 : b.toNat = y.toNat ↔ b = y := by omega
  simp only [e1, e2]

theorem gradeBoa_casasInicial : gradeBoa casasInicial := by
  refine ⟨by simp [casasInicial], ?_⟩
  intro r hr
  simp only [casasInicial, List.mem_replicate] at hr
  rw [hr.2]
  simp

theorem ePosicaoValida_iff (x y : Int) :
    ePosicaoValida x y = true ↔ 1 ≤ x ∧ x ≤ 8 ∧ 1 ≤ y ∧ y ≤ 8 := by
  simp [ePosicaoValida, N, and_assoc]

theorem checaVisitacao_marcaCasa (c : List (List Bool)) (h : gradeBoa c) (x y a b : Int)
    (hv : ePosicaoValida x y = true) :
    checaVisitacao (marcaCasa c x y) a b
      = (checaVisitacao c a b && !decide (a = x ∧ b = y)) := by
  rw [ePosicaoValida_iff] at hv
  unfold checaVisitacao
  by_cases hab : ePosicaoValida a b = true
  · have hab2 := (ePosicaoValida_iff a b).1 hab
    rw [leCasa_marcaCasa c h x y a b (by omega) (by omega) (by omega) (by omega) (by omega)
      (by omega)]
    by_cases e : a = x ∧ b = y <;> simp [hab, e]
  · simp [hab]

end Matriz

/-!
The squares of a run
-/

namespace Matriz

theorem lacoSolucao_eq (n i : Nat) (x y : Int) (e : Estado) :
    lacoSolucao n i x y e =
      (decide ((percurso n x y e.casas).length = n),
        { casas := marcaTodas e.casas (percurso n x y e.casas),
          coordenadasSolucao := escreve e.coordenadasSolucao i (percurso n x y e.casas) }) := by
  induction n generalizing i x y e with
  | zero => simp [lacoSolucao, percurso, marcaTodas, escreve]
  | succ n ih =>
    unfold lacoSolucao percurso
    by_cases h : (retornaProximaCoordenada e.casas x y).1 = x ∧
        (retornaProximaCoordenada e.casas x y).2 = y
    · simp only [h, and_self, if_true]
      simp [marcaTodas, escreve]
    · simp only [if_neg h]
      rw [ih]
      simp [marcaTodas, escreve]

/-- The squares of `percurso` are distinct squares of the board, none of them
visited in the grid the loop starts from, and each one is a knight move away
from the one before. -/
theorem percurso_props (n : Nat) (x y : Int) (c : List (List Bool)) (hc : gradeBoa c) :
    (percurso n x y c).Nodup ∧
      (∀ s ∈ percurso n x y c, checaVisitacao c s.1 s.2 = true) ∧
      List.Chain salto (x, y) (percurso n x y c) := by
  induction n generalizing x y c with
  | zero => simp [percurso]
  | succ n ih =>
    unfold percurso
    by_cases h : (retornaProximaCoordenada c x y).1 = x ∧ (retornaProximaCoordenada c x y).2 = y
    · simp [h]
    · rw [if_neg h]
      rcases retornaProximaCoordenada_casos c x y with ⟨he, _⟩ | ⟨k, hk, he, hd, _⟩
      · exact absurd (by rw [he]; exact ⟨rfl, rfl⟩) h
      · have hd2 : checaVisitacao c (retornaProximaCoordenada c x y).1
            (retornaProximaCoordenada c x y).2 = true := by rw [he]; exact hd
        have hv : ePosicaoValida (retornaProximaCoordenada c x y).1
            (retornaProximaCoordenada c x y).2 = true := by
          unfold checaVisitacao at hd2
          simp only [Bool.and_eq_true] at hd2
          exact hd2.1
        obtain ⟨ih1, ih2, ih3⟩ := ih (retornaProximaCoordenada c x y).1
          (retornaProximaCoordenada c x y).2 _ (gradeBoa_marcaCasa c _ _ hc)
        have key : ∀ s ∈ percurso n (retornaProximaCoordenada c x y).1
            (retornaProximaCoordenada c x y).2
            (marcaCasa c (retornaProximaCoordenada c x y).1 (retornaProximaCoordenada c x y).2),
            checaVisitacao c s.1 s.2 = true ∧ s ≠ retornaProximaCoordenada c x y := by
          intro s hs
          have := ih2 s hs
          rw [checaVisitacao_marcaCasa c hc _ _ _ _ hv] at this
          simp only [Bool.and_eq_true, Bool.not_eq_true', decide_eq_false_iff_not] at this
          refine ⟨this.1, fun hne => this.2 ?_⟩
          rw [hne]
          exact ⟨rfl, rfl⟩
        refine ⟨List.nodup_cons.2 ⟨fun hm => (key _ hm).2 rfl, ih1⟩, ?_, ?_⟩
        · intro s hs
          rcases List.mem_cons.1 hs with rfl | hs
          · exact hd2
          · exact (key s hs).1
        · exact List.Chain.cons ⟨k, hk, he⟩ ih3

end Matriz

namespace Matriz

theorem escreve_append (pre suf : List (Char × Int)) (l : List (Int × Int))
    (h : l.length ≤ suf.length) :
    escreve (pre ++ suf) pre.length l = pre ++ l.map entrada ++ suf.drop l.length := by
  induction l generalizing pre suf with
  | nil => simp [escreve]
  | cons c l ih =>
    cases suf with
    | nil => simp at h
    | cons s suf =>
      simp only [List.length_cons, Nat.add_le_add_iff_right] at h
      unfold escreve
      rw [List.set_append_right _ _ (le_refl _)]
      simp only [Nat.sub_self, List.set_cons_zero]
      have e1 : pre ++ (traduz c.1, c.2) :: suf = (pre ++ [(traduz c.1, c.2)]) ++ suf := by simp
      have e2 : pre.length + 1 = (pre ++ [(traduz c.1, c.2)]).length := by simp
      rw [e1, e2, ih _ _ h]
      simp [entrada]

theorem casaDaEntrada_entrada (a b : Int) (h1 : 1 ≤ a) (h8 : a ≤ 8) :
    casaDaEntrada (entrada (a, b)) = (a, b) := by
  interval_cases a <;> rfl

theorem trataEntrada_eq (x y : Int) (h1 : 1 ≤ x) (h8 : x ≤ 8) :
    trataEntrada (traduz x) y = some (achaSolucao x y
      { casas := casasInicial
        coordenadasSolucao := coordenadasSolucaoInicial.set 0 (traduz x, y) }) := by
  interval_cases x <;> rfl

theorem card_tabuleiro :
    (Finset.Icc (1 : Int) 8 ×ˢ Finset.Icc (1 : Int) 8).card = 64 := by
  simp

/-- A list of 64 distinct squares of the board holds every square of the board. -/
theorem todas_as_casas (Q : List (Int × Int)) (hn : Q.Nodup) (hl : Q.length = 64)
    (hv : ∀ s ∈ Q, ePosicaoValida s.1 s.2 = true) (a b : Int)
    (hab : ePosicaoValida a b = true) : (a, b) ∈ Q := by
  have hsub : Q.toFinset ⊆ (Finset.Icc (1 : Int) 8 ×ˢ Finset.Icc (1 : Int) 8) := by
    intro s hs
    have := (ePosicaoValida_iff s.1 s.2).1 (hv s (List.mem_toFinset.1 hs))
    simp only [Finset.mem_product, Finset.mem_Icc]
    omega
  have hcard : (Finset.Icc (1 : Int) 8 ×ˢ Finset.Icc (1 : Int) 8).card ≤ Q.toFinset.card := by
    rw [List.toFinset_card_of_nodup hn, hl, card_tabuleiro]
  have heq := Finset.eq_of_subset_of_card_le hsub hcard
  have hm : (a, b) ∈ (Finset.Icc (1 : Int) 8 ×ˢ Finset.Icc (1 : Int) 8) := by
    have := (ePosicaoValida_iff a b).1 hab
    simp only [Finset.mem_product, Finset.mem_Icc]
    omega
  rw [← heq] at hm
  exact List.mem_toFinset.1 hm

/-- The shape of a successful run: the solution sequence is the list of entries
of 64 distinct squares of the board, the first one the start, each one a knight
move away from the one before. -/
theorem solucao_estrutura (x y : Int) (hx1 : 1 ≤ x) (hx8 : x ≤ 8) (hy1 : 1 ≤ y) (hy8 : y ≤ 8)
    (e : Estado) (h : trataEntrada (traduz x) y = some (true, e)) :
    ∃ Q : List (Int × Int), Q.length = 64 ∧ Q.Nodup ∧
      (∀ s ∈ Q, ePosicaoValida s.1 s.2 = true) ∧ List.Chain' salto Q ∧
      Q.head? = some (x, y) ∧ e.coordenadasSolucao = Q.map entrada := by
  rw [trataEntrada_eq x y hx1 hx8] at h
  unfold achaSolucao at h
  rw [lacoSolucao_eq] at h
  simp only [Option.some.injEq, Prod.mk.injEq, decide_eq_true_eq] at h
  obtain ⟨hlen, he⟩ := h
  have hxy : ePosicaoValida x y = true := (ePosicaoValida_iff x y).2 ⟨hx1, hx8, hy1, hy8⟩
  have hc1 : gradeBoa (marcaCasa casasInicial x y) :=
    gradeBoa_marcaCasa _ _ _ gradeBoa_casasInicial
  obtain ⟨p1, p2, p3⟩ := percurso_props 63 x y (marcaCasa casasInicial x y) hc1
  refine ⟨(x, y) :: percurso 63 x y (marcaCasa casasInicial x y), by simp [hlen], ?_, ?_, p3,
    rfl, ?_⟩
  · refine List.nodup_cons.2 ⟨fun hm => ?_, p1⟩
    have := p2 _ hm
    rw [checaVisitacao_marcaCasa _ gradeBoa_casasInicial _ _ _ _ hxy] at this
    simp at this
  · intro s hs
    rcases List.mem_cons.1 hs with rfl | hs
    · exact hxy
    · have := p2 s hs
      unfold checaVisitacao at this
      simp only [Bool.and_eq_true] at this
      exact this.1
  · rw [← he]
    have e0 : coordenadasSolucaoInicial.set 0 (traduz x, y)
        = [(traduz x, y)] ++ List.replicate 63 (Char.ofNat 0, 0) := rfl
    simp only [e0]
    have := escreve_append [(traduz x, y)] (List.replicate 63 (Char.ofNat 0, 0))
      (percurso 63 x y (marcaCasa casasInicial x y)) (by simp [hlen])
    simp only [List.length_singleton] at this
    rw [this, hlen]
    simp [entrada]

end Matriz

/-!
A successful run is a knight's tour (C1, C2)
-/

namespace Matriz

theorem destino_inj (a b : Int) (k k' : Nat) (hk : k < 8) (hk' : k' < 8)
    (h : destino a b k = destino a b k') : k = k' := by
  unfold destino at h
  simp only [Prod.mk.injEq, add_right_inj] at h
  have hm : movimento k = movimento k' := Prod.ext h.1 h.2
  have hall : ∀ i, i < 8 → ∀ j, j < 8 → movimento i = movimento j → i = j := by decide
  exact hall k hk k' hk' hm

/-- C1. For a start square `(x, y)` of the board, when `achaSolucao`, run by
`trataEntrada` on the initial globals, returns `true`, the solution sequence has
64 entries and the entry of every square of the board occurs in it exactly
once. -/
theorem achaSolucao_permutacao (x y : Int) (hx1 : 1 ≤ x) (hx8 : x ≤ 8) (hy1 : 1 ≤ y)
    (hy8 : y ≤ 8) (e : Estado) (h : trataEntrada (traduz x) y = some (true, e)) :
    e.coordenadasSolucao.length = 64 ∧
      ∀ a b : Int, 1 ≤ a → a ≤ 8 → 1 ≤ b → b ≤ 8 →
        e.coordenadasSolucao.countP (fun p => decide (p = (traduz a, b))) = 1 := by
  obtain ⟨Q, hl, hn, hv, _, _, he⟩ := solucao_estrutura x y hx1 hx8 hy1 hy8 e h
  refine ⟨by rw [he, List.length_map, hl], ?_⟩
  intro a b ha1 ha8 hb1 hb8
  have hm : (a, b) ∈ Q :=
    todas_as_casas Q hn hl hv a b ((ePosicaoValida_iff a b).2 ⟨ha1, ha8, hb1, hb8⟩)
  have hnm : (Q.map entrada).Nodup := by
    refine List.Nodup.map_on ?_ hn
    intro s hs t ht hst
    have h1 := (ePosicaoValida_iff s.1 s.2).1 (hv s hs)
    have h2 := (ePosicaoValida_iff t.1 t.2).1 (hv t ht)
    have e1 := casaDaEntrada_entrada s.1 s.2 h1.1 h1.2.1
    have e2 := casaDaEntrada_entrada t.1 t.2 h2.1 h2.2.1
    have : casaDaEntrada (entrada s) = casaDaEntrada (entrada t) := by rw [hst]
    rw [e1, e2] at this
    exact this
  rw [he]
  exact List.count_eq_one_of_mem hnm (List.mem_map_of_mem entrada hm)

/-- C2. In a successful run from a start square of the board, for every `i`
from 1 to 63 the square at index `i` of the solution sequence is reached from
the square at index `i - 1` by one, and only one, of the 8 offsets of
`movimentosPossiveis`. -/
theorem achaSolucao_saltos (x y : Int) (hx1 : 1 ≤ x) (hx8 : x ≤ 8) (hy1 : 1 ≤ y)
    (hy8 : y ≤ 8) (e : Estado) (h : trataEntrada (traduz x) y = some (true, e))
    (i : Nat) (hi1 : 1 ≤ i) (hi2 : i ≤ 63) :
    ∃! k, k < 8 ∧
      casaDaEntrada (e.coordenadasSolucao.getD i (Char.ofNat 0, 0)) =
        ((casaDaEntrada (e.coordenadasSolucao.getD (i - 1) (Char.ofNat 0, 0))).1
            + (movimento k).1,
          (casaDaEntrada (e.coordenadasSolucao.getD (i - 1) (Char.ofNat 0, 0))).2
            + (movimento k).2) := by
  obtain ⟨Q, hl, _, hv, hch, _, he⟩ := solucao_estrutura x y hx1 hx8 hy1 hy8 e h
  have hget : ∀ j (hj : j < Q.length),
      casaDaEntrada (e.coordenadasSolucao.getD j (Char.ofNat 0, 0)) = Q.get ⟨j, hj⟩ := by
    intro j hj
    have hj2 : j < (Q.map entrada).length := by rw [List.length_map]; exact hj
    rw [he, List.getD_eq_getElem _ _ hj2, List.getElem_map]
    have hv2 := (ePosicaoValida_iff _ _).1 (hv (Q.get ⟨j, hj⟩) (List.get_mem _ _ _))
    exact casaDaEntrada_entrada _ _ hv2.1 hv2.2.1
  have hs := (List.chain'_iff_get.1 hch) (i - 1) (by omega)
  have e1 : i - 1 + 1 = i := by omega
  simp only [e1] at hs
  rw [hget i (by omega), hget (i - 1) (by omega)]
  obtain ⟨k, hk, hk2⟩ := hs
  refine ⟨k, ⟨hk, hk2⟩, ?_⟩
  rintro k' ⟨hk', hk3⟩
  exact destino_inj _ _ k' k hk' hk (by rw [← hk2]; exact hk3.symm)

end Matriz

/-!
The bit-set model computes what the board-state variant computes
-/

namespace Rapido

open Matriz

theorem bit_eq (B q : Nat) :
    Nat.mod (Nat.shiftRight B q) 2 = if B.testBit q = true then 1 else 0 := by
  show (B >>> q) % 2 = _
  rw [Nat.testBit_to_div_mod, Nat.shiftRight_eq_div_pow]
  rcases Nat.mod_two_eq_zero_or_one (B / 2 ^ q) with h | h <;> simp [h]

theorem livre_eq (c : List (List Bool)) (B : Nat) (h : Corresponde c B) (a b : Int)
    (ha1 : -1 ≤ a) (ha2 : a ≤ 10) (hb1 : -1 ≤ b) (hb2 : b ≤ 10) :
    livre B (indice a b) = if checaVisitacao c a b = true then 1 else 0 := by
  unfold livre
  rw [bit_eq, h a b ha1 ha2 hb1 hb2]
  by_cases hc : checaVisitacao c a b = true <;> simp [hc]

theorem grauR_eq (c : List (List Bool)) (B : Nat) (h : Corresponde c B) (a b : Int)
    (hv : ePosicaoValida a b = true) :
    ((grauR B (indice a b) : Nat) : Int) = retornaGrau c a b := by
  rw [ePosicaoValida_iff] at hv
  have e1 : Nat.add (indice a b) 25 = indice (a + 2) (b + 1) := by
    show indice a b + 25 = _
    unfold indice; omega
  have e2 : Nat.add (indice a b) 23 = indice (a + 2) (b + -1) := by
    show indice a b + 23 = _
    unfold indice; omega
  have e3 : Nat.add (indice a b) 14 = indice (a + 1) (b + 2) := by
    show indice a b + 14 = _
    unfold indice; omega
  have e4 : Nat.add (indice a b) 10 = indice (a + 1) (b + -2) := by
    show indice a b + 10 = _
    unfold indice; omega
  have e5 : Nat.sub (indice a b) 10 = indice (a + -1) (b + 2) := by
    show indice a b - 10 = _
    unfold indice; omega
  have e6 : Nat.sub (indice a b) 14 = indice (a + -1) (b + -2) := by
    show indice a b - 14 = _
    unfold indice; omega
  have e7 : Nat.sub (indice a b) 23 = indice (a + -2) (b + 1) := by
    show indice a b - 23 = _
    unfold indice; omega
  have e8 : Nat.sub (indice a b) 25 = indice (a + -2) (b + -1) := by
    show indice a b - 25 = _
    unfold indice; omega
  unfold grauR
  rw [e1, e2, e3, e4, e5, e6, e7, e8,
    livre_eq c B h _ _ (by omega) (by omega) (by omega) (by omega),
    livre_eq c B h _ _ (by omega) (by omega) (by omega) (by omega),
    livre_eq c B h _ _ (by omega) (by omega) (by omega) (by omega),
    livre_eq c B h _ _ (by omega) (by omega) (by omega) (by omega),
    livre_eq c B h _ _ (by omega) (by omega) (by omega) (by omega),
    livre_eq c B h _ _ (by omega) (by omega) (by omega) (by omega),
    livre_eq c B h _ _ (by omega) (by omega) (by omega) (by omega),
    livre_eq c B h _ _ (by omega) (by omega) (by omega) (by omega)]
  rw [retornaGrau_eq_countP]
  have hr : List.range 8 = [0, 1, 2, 3, 4, 5, 6, 7] := rfl
  rw [hr]
  simp only [List.countP_cons, List.countP_nil, disponivel, destino, movimento,
    movimentosPossiveis, List.getD_cons_zero, List.getD_cons_succ, Nat.add_eq]
  push_cast
  ring

end Rapido

namespace Rapido

open Matriz

theorem passoR_eq (B p : Nat) (est : Nat × Nat) (d : Nat) :
    passoR B p est d =
      if B.testBit (p + d - 25) = false ∧ grauR B (p + d - 25) < est.2 then
        (p + d - 25, grauR B (p + d - 25))
      else est := by
  unfold passoR
  have e0 : Nat.sub (Nat.add p d) 25 = p + d - 25 := rfl
  rw [e0, bit_eq]
  have b1 : Nat.beq 1 0 = false := rfl
  have b0 : Nat.beq 0 0 = true := rfl
  by_cases h1 : B.testBit (p + d - 25) = true
  · simp [h1, b1]
  · simp only [Bool.not_eq_true] at h1
    by_cases h2 : grauR B (p + d - 25) < est.2
    · have : Nat.ble (Nat.succ (grauR B (p + d - 25))) est.2 = true :=
        Nat.ble_eq_true_of_le h2
      simp [h1, h2, this, b0]
    · have : Nat.ble (Nat.succ (grauR B (p + d - 25))) est.2 = false := by
        rw [← Bool.not_eq_true]
        exact fun hb => h2 (Nat.le_of_ble_eq_true hb)
      simp [h1, h2, this, b0]

theorem indice_destino (x y : Int) (hv : ePosicaoValida x y = true) (k : Nat) (hk : k < 8) :
    indice x y + deslocamento k - 25 = indice (destino x y k).1 (destino x y k).2 := by
  rw [ePosicaoValida_iff] at hv
  interval_cases k <;>
    simp only [deslocamento, destino, movimento, movimentosPossiveis, List.getD_cons_zero,
      List.getD_cons_succ, indice] <;> omega

theorem destino_limites (x y : Int) (hv : ePosicaoValida x y = true) (k : Nat) (hk : k < 8) :
    -1 ≤ (destino x y k).1 ∧ (destino x y k).1 ≤ 10 ∧
      -1 ≤ (destino x y k).2 ∧ (destino x y k).2 ≤ 10 := by
  rw [ePosicaoValida_iff] at hv
  interval_cases k <;>
    simp only [destino, movimento, movimentosPossiveis, List.getD_cons_zero,
      List.getD_cons_succ] <;> omega

theorem passoR_simula (c : List (List Bool)) (B : Nat) (h : Corresponde c B) (x y : Int)
    (hv : ePosicaoValida x y = true) (est : Int × Int) (estR : Nat × Nat) (k : Nat) (hk : k < 8)
    (hs : (estR.2 : Int) = est.2 ∧
      estR.1 = indice (posicao x y est.1).1 (posicao x y est.1).2) :
    ((passoR B (indice x y) estR (deslocamento k)).2 : Int) = (passoProxima c x y est k).2 ∧
      (passoR B (indice x y) estR (deslocamento k)).1 =
        indice (posicao x y (passoProxima c x y est k).1).1
          (posicao x y (passoProxima c x y est k).1).2 := by
  obtain ⟨hl1, hl2, hl3, hl4⟩ := destino_limites x y hv k hk
  rw [passoR_eq, passoProxima_eq, indice_destino x y hv k hk, h _ _ hl1 hl2 hl3 hl4]
  by_cases hd : checaVisitacao c (destino x y k).1 (destino x y k).2 = true
  · have hvd : ePosicaoValida (destino x y k).1 (destino x y k).2 = true := by
      unfold checaVisitacao at hd
      simp only [Bool.and_eq_true] at hd
      exact hd.1
    have hg := grauR_eq c B h _ _ hvd
    by_cases hlt : grauDestino c x y k < est.2
    · have hlt2 : grauR B (indice (destino x y k).1 (destino x y k).2) < estR.2 := by
        unfold grauDestino at hlt
        omega
      have hpos : posicao x y (k : Int) = destino x y k := by
        unfold posicao destino
        have : ¬ ((k : Int) = -1) := by omega
        simp [this]
      simp only [disponivel, hd, hlt, hlt2, Bool.not_true, and_self, if_true, hpos]
      exact ⟨hg, trivial⟩
    · have hlt2 : ¬ grauR B (indice (destino x y k).1 (destino x y k).2) < estR.2 := by
        unfold grauDestino at hlt
        omega
      simp only [disponivel, hd, hlt, hlt2, and_false, if_false]
      exact hs
  · simp only [Bool.not_eq_true] at hd
    simp only [disponivel, hd, Bool.not_false, false_and, if_false]
    simp
    exact hs

theorem retornaProximaCoordenada_eq_posicao (c : List (List Bool)) (x y : Int) :
    retornaProximaCoordenada c x y
      = posicao x y ((List.range 8).foldl (passoProxima c x y) (-1, N + 1)).1 := rfl

theorem proxR_eq (c : List (List Bool)) (B : Nat) (h : Corresponde c B) (x y : Int)
    (hv : ePosicaoValida x y = true) :
    proxR B (indice x y)
      = indice (retornaProximaCoordenada c x y).1 (retornaProximaCoordenada c x y).2 := by
  have hf : ∀ e0 : Int × Int, (List.range 8).foldl (passoProxima c x y) e0
      = passoProxima c x y (passoProxima c x y (passoProxima c x y (passoProxima c x y
          (passoProxima c x y (passoProxima c x y (passoProxima c x y
            (passoProxima c x y e0 0) 1) 2) 3) 4) 5) 6) 7 := fun _ => rfl
  rw [retornaProximaCoordenada_eq_posicao, hf]
  have s0 : (((indice x y, 9) : Nat × Nat).2 : Int) = ((-1, N + 1) : Int × Int).2 ∧
      ((indice x y, 9) : Nat × Nat).1
        = indice (posicao x y ((-1, N + 1) : Int × Int).1).1
            (posicao x y ((-1, N + 1) : Int × Int).1).2 := by
    simp [posicao, N]
  have s1 := passoR_simula c B h x y hv _ _ 0 (by omega) s0
  have s2 := passoR_simula c B h x y hv _ _ 1 (by omega) s1
  have s3 := passoR_simula c B h x y hv _ _ 2 (by omega) s2
  have s4 := passoR_simula c B h x y hv _ _ 3 (by omega) s3
  have s5 := passoR_simula c B h x y hv _ _ 4 (by omega) s4
  have s6 := passoR_simula c B h x y hv _ _ 5 (by omega) s5
  have s7 := passoR_simula c B h x y hv _ _ 6 (by omega) s6
  have s8 := passoR_simula c B h x y hv _ _ 7 (by omega) s7
  exact s8.2

end Rapido

namespace Rapido

open Matriz

theorem indice_inj (a b a' b' : Int) (ha1 : -1 ≤ a) (hb1 : -1 ≤ b) (hb2 : b ≤ 10)
    (ha1' : -1 ≤ a') (hb1' : -1 ≤ b') (hb2' : b' ≤ 10) :
    indice a b = indice a' b' ↔ (a = a' ∧ b = b') := by
  unfold indice
  omega

theorem corresponde_marcaCasa (c : List (List Bool)) (B : Nat) (hc : gradeBoa c)
    (h : Corresponde c B) (x y : Int) (hv : ePosicaoValida x y = true) :
    Corresponde (marcaCasa c x y) (Nat.lor B (Nat.pow 2 (indice x y))) := by
  intro a b ha1 ha2 hb1 hb2
  have hv2 := (ePosicaoValida_iff x y).1 hv
  show (B ||| 2 ^ indice x y).testBit (indice a b) = _
  rw [Nat.testBit_or, Nat.testBit_two_pow, h a b ha1 ha2 hb1 hb2,
    checaVisitacao_marcaCasa c hc x y a b hv]
  have hi := indice_inj x y a b (by omega) (by omega) (by omega) ha1 hb1 hb2
  by_cases e : a = x ∧ b = y
  · have e2 : indice x y = indice a b := hi.2 ⟨e.1.symm, e.2.symm⟩
    simp [e, e2]
  · have e2 : ¬ indice x y = indice a b := fun h2 => e ⟨(hi.1 h2).1.symm, (hi.1 h2).2.symm⟩
    simp [e, e2]

theorem lacoR_refina (n i : Nat) (x y : Int) (c : List (List Bool)) (sol : List (Char × Int))
    (B : Nat) (hc : gradeBoa c) (hv : ePosicaoValida x y = true) (h : Corresponde c B) :
    (lacoSolucao n i x y { casas := c, coordenadasSolucao := sol }).1
      = lacoR n B (indice x y) := by
  induction n generalizing i x y c sol B with
  | zero => rfl
  | succ n ih =>
    unfold lacoSolucao lacoR
    rw [proxR_eq c B h x y hv]
    have hv2 := (ePosicaoValida_iff x y).1 hv
    rcases retornaProximaCoordenada_casos c x y with ⟨he, _⟩ | ⟨k, hk, he, hd, _⟩
    · have hb : Nat.beq (indice x y) (indice x y) = true := Nat.beq_refl _
      simp [he, hb]
    · have hd2 : checaVisitacao c (retornaProximaCoordenada c x y).1
          (retornaProximaCoordenada c x y).2 = true := by rw [he]; exact hd
      have hvn : ePosicaoValida (retornaProximaCoordenada c x y).1
          (retornaProximaCoordenada c x y).2 = true := by
        unfold checaVisitacao at hd2
        simp only [Bool.and_eq_true] at hd2
        exact hd2.1
      have hvn2 := (ePosicaoValida_iff _ _).1 hvn
      have hi := indice_inj (retornaProximaCoordenada c x y).1 (retornaProximaCoordenada c x y).2
        x y (by omega) (by omega) (by omega) (by omega) (by omega) (by omega)
      by_cases e : (retornaProximaCoordenada c x y).1 = x ∧ (retornaProximaCoordenada c x y).2 = y
      · have hb : Nat.beq (indice (retornaProximaCoordenada c x y).1
            (retornaProximaCoordenada c x y).2) (indice x y) = true := by
          rw [hi.2 e]; exact Nat.beq_refl _
        simp [e, hb]
      · have hb : Nat.beq (indice (retornaProximaCoordenada c x y).1
            (retornaProximaCoordenada c x y).2) (indice x y) = false := by
          rw [← Bool.not_eq_true]
          exact fun hb => e (hi.1 (Nat.eq_of_beq_eq_true hb))
        simp only [e, if_false, hb, cond_false]
        exact ih _ _ _ _ _ _ (gradeBoa_marcaCasa c _ _ hc) hvn
          (corresponde_marcaCasa c B hc h _ _ hvn)

set_option maxRecDepth 100000 in
theorem borda_tabela :
    ∀ a ∈ [(-1 : Int), 0, 1, 2, 3, 4, 5, 6, 7, 8, 9, 10],
      ∀ b ∈ [(-1 : Int), 0, 1, 2, 3, 4, 5, 6, 7, 8, 9, 10],
        borda.testBit (indice a b) = !checaVisitacao casasInicial a b := by
  decide!

theorem corresponde_inicial : Corresponde casasInicial borda := by
  intro a b ha1 ha2 hb1 hb2
  refine borda_tabela a ?_ b ?_
  · simp only [List.mem_cons, List.mem_singleton]
    omega
  · simp only [List.mem_cons, List.mem_singleton]
    omega

theorem achaSolucao_eq_correR (x y : Int) (hv : ePosicaoValida x y = true)
    (sol : List (Char × Int)) :
    (achaSolucao x y { casas := casasInicial, coordenadasSolucao := sol }).1 = correR x y := by
  unfold achaSolucao correR
  exact lacoR_refina 63 1 x y _ _ _ (gradeBoa_marcaCasa _ _ _ gradeBoa_casasInicial) hv
    (corresponde_marcaCasa _ _ gradeBoa_casasInicial corresponde_inicial x y hv)

set_option maxRecDepth 100000 in
theorem correR_tabela :
    ∀ s ∈ todasCasas, correR s.1 s.2 = !decide (s ∈ [((2 : Int), (7 : Int)), (5, 5), (5, 8)]) := by
  decide!

theorem mem_todasCasas (x y : Int) (hv : ePosicaoValida x y = true) : (x, y) ∈ todasCasas := by
  rw [ePosicaoValida_iff] at hv
  simp only [todasCasas, List.mem_flatMap, List.mem_map, List.mem_cons, List.mem_singleton,
    Prod.mk.injEq]
  refine ⟨x, ?_, y, ?_, rfl, rfl⟩ <;> simp <;> omega

end Rapido

/-!
The start squares from which the board-state variant succeeds (C7)
-/

namespace Rapido

open Matriz

theorem trataEntrada_resultado (x y : Int) (hv : ePosicaoValida x y = true) :
    trataEntrada (traduz x) y = some (correR x y,
      (achaSolucao x y
        { casas := casasInicial
          coordenadasSolucao := coordenadasSolucaoInicial.set 0 (traduz x, y) }).2) := by
  have hv2 := (ePosicaoValida_iff x y).1 hv
  rw [trataEntrada_eq x y hv2.1 hv2.2.1, ← achaSolucao_eq_correR x y hv]

end Rapido

namespace Matriz

/-- C7, the claim as stated fails: from b7 the selector reaches a square with no
available offset before the 63 steps are done, and `achaSolucao` returns
`false`. -/
theorem achaSolucao_b7_falha : (trataEntrada 'b' 7).map Prod.fst = some false := by
  have h := Rapido.trataEntrada_resultado 2 7 (by decide)
  have ht : traduz 2 = 'b' := rfl
  rw [ht] at h
  rw [h, Rapido.correR_tabela (2, 7) (Rapido.mem_todasCasas 2 7 (by decide))]
  rfl

/-- C7, amended. On the initial grid `achaSolucao` returns `true` from every
start square of the board other than b7, e5 and e8, and `false` from these
three. -/
theorem achaSolucao_sucesso (x y : Int) (hx1 : 1 ≤ x) (hx8 : x ≤ 8) (hy1 : 1 ≤ y)
    (hy8 : y ≤ 8) :
    (trataEntrada (traduz x) y).map Prod.fst
      = some (!decide ((x, y) ∈ [((2 : Int), (7 : Int)), (5, 5), (5, 8)])) := by
  have hv : ePosicaoValida x y = true := (ePosicaoValida_iff x y).2 ⟨hx1, hx8, hy1, hy8⟩
  rw [Rapido.trataEntrada_resultado x y hv,
    Rapido.correR_tabela (x, y) (Rapido.mem_todasCasas x y hv)]
  rfl

/-- Instance of C7, amended: the start square a1. -/
theorem achaSolucao_sucesso_witness :
    (trataEntrada (traduz 1) 1).map Prod.fst
      = some (!decide (((1 : Int), (1 : Int)) ∈ [((2 : Int), (7 : Int)), (5, 5), (5, 8)])) :=
  achaSolucao_sucesso 1 1 (by decide) (by decide) (by decide) (by decide)

/-- The run of the board-state variant from a1 returns `true`. -/
theorem trataEntrada_a1 :
    trataEntrada (traduz 1) 1 = some (true,
      (achaSolucao 1 1
        { casas := casasInicial
          coordenadasSolucao := coordenadasSolucaoInicial.set 0 (traduz 1, 1) }).2) := by
  rw [Rapido.trataEntrada_resultado 1 1 (by decide),
    Rapido.correR_tabela (1, 1) (Rapido.mem_todasCasas 1 1 (by decide))]
  rfl

/-- Instance of C1: the run from the start square a1. -/
theorem achaSolucao_permutacao_witness :
    (achaSolucao 1 1
        { casas := casasInicial
          coordenadasSolucao := coordenadasSolucaoInicial.set 0 (traduz 1, 1) }).2.coordenadasSolucao.length = 64 ∧
      ∀ a b : Int, 1 ≤ a → a ≤ 8 → 1 ≤ b → b ≤ 8 →
        (achaSolucao 1 1
          { casas := casasInicial
            coordenadasSolucao :=
              coordenadasSolucaoInicial.set 0 (traduz 1, 1) }).2.coordenadasSolucao.countP
          (fun p => decide (p = (traduz a, b))) = 1 :=
  achaSolucao_permutacao 1 1 (by decide) (by decide) (by decide) (by decide) _ trataEntrada_a1

/-- Instance of C2: the run from the start square a1, at the index 1. -/
theorem achaSolucao_saltos_witness :
    ∃! k, k < 8 ∧
      casaDaEntrada ((achaSolucao 1 1
          { casas := casasInicial
            coordenadasSolucao :=
              coordenadasSolucaoInicial.set 0 (traduz 1, 1) }).2.coordenadasSolucao.getD 1
            (Char.ofNat 0, 0)) =
        ((casaDaEntrada ((achaSolucao 1 1
            { casas := casasInicial
              coordenadasSolucao :=
                coordenadasSolucaoInicial.set 0 (traduz 1, 1) }).2.coordenadasSolucao.getD (1 - 1)
              (Char.ofNat 0, 0))).1 + (movimento k).1,
          (casaDaEntrada ((achaSolucao 1 1
            { casas := casasInicial
              coordenadasSolucao :=
                coordenadasSolucaoInicial.set 0 (traduz 1, 1) }).2.coordenadasSolucao.getD (1 - 1)
              (Char.ofNat 0, 0))).2 + (movimento k).2) :=
  achaSolucao_saltos 1 1 (by decide) (by decide) (by decide) (by decide) _ trataEntrada_a1 1
    (by decide) (by decide)

end Matriz

/-!
The graph variant

The map `casas` and the sets of the vertices
-/

namespace Oop

open Matriz (N traduz movimento ePosicaoValida destino checaVisitacao marcaCasa casasInicial
  gradeBoa)

theorem lookup_map_chave (l : List ((Int × Int) × Vertice)) (p u : Int × Int)
    (F : Vertice → Vertice) :
    (l.map fun e => if e.1 = p then (e.1, F e.2) else e).lookup u
      = (l.lookup u).map (fun v => if u = p then F v else v) := by
  induction l with
  | nil => rfl
  | cons e l ih =>
    obtain ⟨k, v⟩ := e
    simp only [List.map_cons]
    by_cases hk : k = p
    · subst hk
      by_cases hu : u = k
      · subst hu
        simp [List.lookup_cons]
      · have : (u == k) = false := by simpa using hu
        simp [List.lookup_cons, this, ih, hu]
    · by_cases hu : u = k
      · subst hu
        simp [List.lookup_cons, hk]
      · have : (u == k) = false := by simpa using hu
        simp [List.lookup_cons, this, ih, hk]

theorem vizinhas_apagaVizinho (g : Grafo) (p w u : Int × Int) :
    vizinhas (g.apagaVizinho p w) u
      = if u = p then (vizinhas g u).filter (fun a => decide (a ≠ w)) else vizinhas g u := by
  unfold vizinhas Grafo.em Grafo.apagaVizinho
  rw [lookup_map_chave g.casas p u
    (fun v => { v with casasVizinhas := v.casasVizinhas.filter fun a => decide (a ≠ w) })]
  cases h : g.casas.lookup u with
  | none => simp
  | some v =>
    by_cases hu : u = p <;> simp [hu]

theorem vizinhas_adicionaVizinho (ender : Int × Int → Nat) (g : Grafo) (p w u : Int × Int)
    (hp : (g.em p).isSome = true) :
    vizinhas (g.adicionaVizinho ender p w) u
      = if u = p then insere ender w (vizinhas g u) else vizinhas g u := by
  unfold vizinhas Grafo.em Grafo.adicionaVizinho
  rw [lookup_map_chave g.casas p u
    (fun v => { v with casasVizinhas := insere ender w v.casasVizinhas })]
  cases h : g.casas.lookup u with
  | none =>
    by_cases hu : u = p
    · subst hu
      unfold Grafo.em at hp
      rw [h] at hp
      exact absurd hp (by decide)
    · simp [hu]
  | some v =>
    by_cases hu : u = p <;> simp [hu]

theorem bemFormado_map (g : Grafo) (p : Int × Int) (F : Vertice → Vertice)
    (hF : ∀ v, (F v).id = v.id) (h : BemFormado g) :
    BemFormado { casas := g.casas.map fun e => if e.1 = p then (e.1, F e.2) else e } := by
  unfold BemFormado at h ⊢
  rw [← h, List.map_map]
  apply List.map_congr_left
  intro e _
  by_cases he : e.1 = p <;> simp [he, hF]

theorem bemFormado_apagaVizinho (g : Grafo) (p w : Int × Int) (h : BemFormado g) :
    BemFormado (g.apagaVizinho p w) :=
  bemFormado_map g p
    (fun v => { v with casasVizinhas := v.casasVizinhas.filter fun a => decide (a ≠ w) })
    (fun _ => rfl) h

theorem bemFormado_adicionaVizinho (ender : Int × Int → Nat) (g : Grafo) (p w : Int × Int)
    (h : BemFormado g) : BemFormado (g.adicionaVizinho ender p w) :=
  bemFormado_map g p (fun v => { v with casasVizinhas := insere ender w v.casasVizinhas })
    (fun _ => rfl) h

theorem lookup_de_chaves (l : List ((Int × Int) × Vertice)) (L : List (Int × Int))
    (h : l.map (fun e => (e.1, e.2.id)) = L.map (fun k => (k, k))) (u : Int × Int)
    (hu : u ∈ L) : ∃ v, l.lookup u = some v ∧ v.id = u := by
  induction l generalizing L with
  | nil =>
    cases L with
    | nil => simp at hu
    | cons k L => simp at h
  | cons e l ih =>
    cases L with
    | nil => simp at hu
    | cons k L =>
      obtain ⟨k', v⟩ := e
      simp only [List.map_cons, List.cons.injEq, Prod.mk.injEq] at h
      obtain ⟨⟨hk, hid⟩, hrest⟩ := h
      by_cases huk : u = k'
      · subst huk
        exact ⟨v, by simp [List.lookup_cons], by rw [hid, hk]⟩
      · have hb : (u == k') = false := by simpa using huk
        rcases List.mem_cons.1 hu with rfl | hu'
        · exact absurd hk.symm huk
        · obtain ⟨v', hv', hid'⟩ := ih L hrest hu'
          exact ⟨v', by simp [List.lookup_cons, hb, hv'], hid'⟩

theorem mem_todas (u : Int × Int) : u ∈ todas ↔ ePosicaoValida u.1 u.2 = true := by
  obtain ⟨x, y⟩ := u
  rw [Matriz.ePosicaoValida_iff]
  simp only [todas, indices, List.mem_flatMap, List.mem_map, List.mem_cons, List.mem_singleton,
    Prod.mk.injEq, List.not_mem_nil, or_false]
  constructor
  · rintro ⟨a, ha, b, hb, rfl, rfl⟩
    omega
  · intro h
    exact ⟨x, by omega, y, by omega, rfl, rfl⟩

theorem em_de_valida (g : Grafo) (h : BemFormado g) (u : Int × Int)
    (hu : ePosicaoValida u.1 u.2 = true) : ∃ v, g.em u = some v ∧ v.id = u :=
  lookup_de_chaves g.casas todas h u ((mem_todas u).2 hu)

end Oop

namespace Oop

open Matriz (N traduz movimento ePosicaoValida destino checaVisitacao marcaCasa casasInicial
  gradeBoa)

theorem mem_insere_imp (ender : Int × Int → Nat) (w : Int × Int) (l : List (Int × Int))
    (x : Int × Int) (hx : x ∈ insere ender w l) : x = w ∨ x ∈ l := by
  induction l with
  | nil =>
    simp only [insere, List.mem_singleton] at hx
    exact Or.inl hx
  | cons u l ih =>
    unfold insere at hx
    split_ifs at hx with h1 h2
    · rcases List.mem_cons.1 hx with h | h
      · exact Or.inl h
      · exact Or.inr h
    · rcases List.mem_cons.1 hx with h | h
      · exact Or.inr (h ▸ List.mem_cons_self _ _)
      · rcases ih h with h | h
        · exact Or.inl h
        · exact Or.inr (List.mem_cons_of_mem _ h)
    · exact Or.inr hx

theorem mem_insere_of_mem (ender : Int × Int → Nat) (w : Int × Int) (l : List (Int × Int))
    (x : Int × Int) (hx : x ∈ l) : x ∈ insere ender w l := by
  induction l with
  | nil => simp at hx
  | cons u l ih =>
    unfold insere
    split_ifs with h1 h2
    · exact List.mem_cons_of_mem _ hx
    · rcases List.mem_cons.1 hx with h | h
      · exact h ▸ List.mem_cons_self _ _
      · exact List.mem_cons_of_mem _ (ih h)
    · exact hx

theorem sorted_insere (ender : Int × Int → Nat) (w : Int × Int) (l : List (Int × Int))
    (hs : l.Sorted (antes ender)) : (insere ender w l).Sorted (antes ender) := by
  induction l with
  | nil => simp [insere]
  | cons u l ih =>
    have hu : ∀ x ∈ l, antes ender u x := fun x hx => List.rel_of_sorted_cons hs x hx
    have hl : l.Sorted (antes ender) := hs.of_cons
    unfold insere
    split_ifs with h1 h2
    · refine List.sorted_cons.2 ⟨?_, hs⟩
      intro x hx
      rcases List.mem_cons.1 hx with rfl | hx
      · exact h1
      · exact Nat.lt_trans h1 (hu x hx)
    · refine List.sorted_cons.2 ⟨?_, ih hl⟩
      intro x hx
      rcases mem_insere_imp ender w l x hx with rfl | hx
      · exact h2
      · exact hu x hx
    · exact hs

theorem perm_insere (ender : Int × Int → Nat) (w : Int × Int) (l : List (Int × Int))
    (h : ∀ u ∈ l, ender u ≠ ender w) : (insere ender w l).Perm (w :: l) := by
  induction l with
  | nil => simp [insere]
  | cons u l ih =>
    have hu : ender u ≠ ender w := h u (List.mem_cons_self _ _)
    unfold insere
    split_ifs with h1 h2
    · exact List.Perm.refl _
    · exact ((ih (fun x hx => h x (List.mem_cons_of_mem _ hx))).cons u).trans
        (List.Perm.swap w u l)
    · exact absurd (by omega) hu

theorem insere_final (ender : Int × Int → Nat) (w : Int × Int) (l : List (Int × Int))
    (h : ∀ u ∈ l, ender u < ender w) : insere ender w l = l ++ [w] := by
  induction l with
  | nil => simp [insere]
  | cons u l ih =>
    have hu : ender u < ender w := h u (List.mem_cons_self _ _)
    unfold insere
    have h1 : ¬ ender w < ender u := by omega
    rw [if_neg h1, if_pos hu, ih (fun x hx => h x (List.mem_cons_of_mem _ hx))]
    rfl

theorem antes_antisimetrica (ender : Int × Int → Nat) : IsAntisymm (Int × Int) (antes ender) :=
  ⟨fun _ _ h1 h2 => absurd (Nat.lt_trans h1 h2) (Nat.lt_irrefl _)⟩

theorem eq_de_ordenadas (ender : Int × Int → Nat) (l1 l2 : List (Int × Int))
    (hp : l1.Perm l2) (h1 : l1.Sorted (antes ender)) (h2 : l2.Sorted (antes ender)) :
    l1 = l2 :=
  haveI := antes_antisimetrica ender
  List.eq_of_perm_of_sorted hp h1 h2

theorem nodup_de_ordenada (ender : Int × Int → Nat) (l : List (Int × Int))
    (h : l.Sorted (antes ender)) : l.Nodup := by
  refine List.Pairwise.imp ?_ h
  intro a b hab heq
  rw [heq] at hab
  exact Nat.lt_irrefl _ hab

theorem foldl_insere (ender : Int × Int → Nat) (l acc : List (Int × Int))
    (hs : acc.Sorted (antes ender)) (hn : (l ++ acc).Nodup)
    (hi : ∀ a ∈ l ++ acc, ∀ b ∈ l ++ acc, ender a = ender b → a = b) :
    (l.foldl (fun acc w => insere ender w acc) acc).Sorted (antes ender) ∧
      (l.foldl (fun acc w => insere ender w acc) acc).Perm (l ++ acc) := by
  induction l generalizing acc with
  | nil => exact ⟨hs, List.Perm.refl _⟩
  | cons w l ih =>
    simp only [List.foldl_cons]
    have hw : w ∉ acc := by
      intro hm
      have := List.nodup_cons.1 hn
      exact this.1 (List.mem_append_right _ hm)
    have hne : ∀ u ∈ acc, ender u ≠ ender w := by
      intro u hu he
      have := hi u (List.mem_cons_of_mem _ (List.mem_append_right _ hu)) w
        (List.mem_cons_self _ _) he
      exact hw (this ▸ hu)
    have hp := perm_insere ender w acc hne
    have hn2 : (l ++ insere ender w acc).Nodup := by
      have h1 : (l ++ insere ender w acc).Perm (w :: l ++ acc) := by
        refine (List.Perm.append_left l hp).trans ?_
        exact (List.perm_middle).trans (List.Perm.refl _)
      exact h1.nodup_iff.2 hn
    have hi2 : ∀ a ∈ l ++ insere ender w acc, ∀ b ∈ l ++ insere ender w acc,
        ender a = ender b → a = b := by
      have hsub : ∀ a ∈ l ++ insere ender w acc, a ∈ w :: l ++ acc := by
        intro a ha
        rcases List.mem_append.1 ha with h | h
        · exact List.mem_cons_of_mem _ (List.mem_append_left _ h)
        · rcases mem_insere_imp ender w acc a h with rfl | h
          · exact List.mem_cons_self _ _
          · exact List.mem_cons_of_mem _ (List.mem_append_right _ h)
      intro a ha b hb
      exact hi a (hsub a ha) b (hsub b hb)
    obtain ⟨r1, r2⟩ := ih (insere ender w acc) (sorted_insere ender w acc hs) hn2 hi2
    refine ⟨r1, r2.trans ?_⟩
    refine (List.Perm.append_left l hp).trans ?_
    exact List.perm_middle

end Oop

/-!
The constructor
-/

namespace Oop

open Matriz (N traduz movimento ePosicaoValida destino checaVisitacao marcaCasa casasInicial
  gradeBoa)

set_option maxRecDepth 100000 in
theorem vertices_iniciais :
    indices.foldl
        (fun (g : Grafo) linha =>
          indices.foldl (fun (g : Grafo) coluna => g.insereCasa (linha, coluna)) g)
        { casas := [] }
      = { casas := todas.map fun k => (k, { id := k, casasVizinhas := [] }) } := by
  decide!

theorem bemFormado_vertices :
    BemFormado { casas := todas.map fun k => (k, { id := k, casasVizinhas := [] }) } := by
  unfold BemFormado
  rw [List.map_map]
  rfl

theorem vizinhas_vertices (u : Int × Int) :
    vizinhas { casas := todas.map fun k => (k, { id := k, casasVizinhas := [] }) } u = [] := by
  unfold vizinhas Grafo.em
  generalize todas = L
  induction L with
  | nil => rfl
  | cons k L ih =>
    simp only [List.map_cons, List.lookup_cons]
    by_cases h : (u == k) = true
    · simp [h]
    · simp only [Bool.not_eq_true] at h
      simp only [h]
      exact ih

theorem passoAresta_fold (ender : Int × Int → Nat) (i j : Int)
    (hv : ePosicaoValida i j = true) (is : List Nat) (g : Grafo) (h : BemFormado g) :
    is.foldl (passoAresta ender i j) (some g)
      = some (((is.map (destino i j)).filter (fun s => ePosicaoValida s.1 s.2)).foldl
          (fun g w => g.adicionaVizinho ender (i, j) w) g) := by
  induction is generalizing g with
  | nil => rfl
  | cons k is ih =>
    simp only [List.foldl_cons, List.map_cons]
    by_cases hd : ePosicaoValida (destino i j k).1 (destino i j k).2 = true
    · obtain ⟨v1, hv1, _⟩ := em_de_valida g h (i, j) hv
      obtain ⟨v2, hv2, _⟩ := em_de_valida g h (destino i j k) hd
      have e1 : passoAresta ender i j (some g) k
          = some (g.adicionaVizinho ender (i, j) (destino i j k)) := by
        unfold passoAresta
        unfold destino at hd hv2
        simp only [hd, if_true, hv1, hv2]
        rfl
      rw [e1, ih _ (bemFormado_adicionaVizinho ender g _ _ h)]
      simp only [List.filter_cons, hd, if_true, List.foldl_cons]
    · have e1 : passoAresta ender i j (some g) k = some g := by
        unfold passoAresta
        unfold destino at hd
        simp only [hd]
        rfl
      rw [e1, ih g h]
      simp only [List.filter_cons, hd]
      rfl

theorem adicionaVizinho_fold (ender : Int × Int → Nat) (p : Int × Int)
    (hp : ePosicaoValida p.1 p.2 = true) (L : List (Int × Int)) (g : Grafo)
    (h : BemFormado g) :
    BemFormado (L.foldl (fun g w => g.adicionaVizinho ender p w) g) ∧
      ∀ u, vizinhas (L.foldl (fun g w => g.adicionaVizinho ender p w) g) u
        = if u = p then L.foldl (fun acc w => insere ender w acc) (vizinhas g u)
          else vizinhas g u := by
  induction L generalizing g with
  | nil => exact ⟨h, fun u => by simp⟩
  | cons w L ih =>
    simp only [List.foldl_cons]
    obtain ⟨r1, r2⟩ := ih (g.adicionaVizinho ender p w) (bemFormado_adicionaVizinho ender g p w h)
    refine ⟨r1, fun u => ?_⟩
    obtain ⟨v, hv, _⟩ := em_de_valida g h p hp
    rw [r2 u, vizinhas_adicionaVizinho ender g p w u (by rw [hv]; rfl)]
    by_cases hu : u = p <;> simp [hu]

end Oop

namespace Oop

open Matriz (N traduz movimento ePosicaoValida destino checaVisitacao marcaCasa casasInicial
  gradeBoa)

theorem arestas_fold (ender : Int × Int → Nat) (L : List (Int × Int))
    (hL : ∀ p ∈ L, ePosicaoValida p.1 p.2 = true) (hn : L.Nodup) (g : Grafo)
    (h : BemFormado g) :
    ∃ g', L.foldl (fun og p => (List.range 8).foldl (passoAresta ender p.1 p.2) og) (some g)
        = some g' ∧ BemFormado g' ∧
      ∀ u, vizinhas g' u
        = if u ∈ L then
            (destinosValidos u).foldl (fun acc w => insere ender w acc) (vizinhas g u)
          else vizinhas g u := by
  induction L generalizing g with
  | nil => exact ⟨g, rfl, h, fun u => by simp⟩
  | cons p L ih =>
    have hp := hL p (List.mem_cons_self _ _)
    obtain ⟨hpL, hnL⟩ := List.nodup_cons.1 hn
    simp only [List.foldl_cons]
    rw [passoAresta_fold ender p.1 p.2 hp (List.range 8) g h]
    obtain ⟨b1, b2⟩ := adicionaVizinho_fold ender p hp
      (((List.range 8).map (destino p.1 p.2)).filter (fun s => ePosicaoValida s.1 s.2)) g h
    obtain ⟨g', e1, e2, e3⟩ := ih (fun q hq => hL q (List.mem_cons_of_mem _ hq)) hnL _ b1
    refine ⟨g', e1, e2, fun u => ?_⟩
    rw [e3 u, b2 u]
    by_cases hu : u = p
    · subst hu
      simp [hpL, destinosValidos]
    · by_cases hu2 : u ∈ L <;> simp [hu, hu2]

theorem foldl_aninhado (F : Int × Int → Option Grafo → Option Grafo) (L1 L2 : List Int)
    (a : Option Grafo) :
    L1.foldl (fun g i => L2.foldl (fun g j => F (i, j) g) g) a
      = (L1.flatMap fun i => L2.map fun j => (i, j)).foldl (fun g p => F p g) a := by
  induction L1 generalizing a with
  | nil => rfl
  | cons i L1 ih =>
    simp only [List.foldl_cons, List.flatMap_cons, List.foldl_append, List.foldl_map]
    exact ih _

theorem adicionaArestas_eq (ender : Int × Int → Nat) (g : Grafo) :
    adicionaArestas ender g
      = todas.foldl (fun og p => (List.range 8).foldl (passoAresta ender p.1 p.2) og)
          (some g) :=
  foldl_aninhado (fun p og => (List.range 8).foldl (passoAresta ender p.1 p.2) og) indices
    indices (some g)

theorem nodup_todas : todas.Nodup := by decide

/-- The constructor succeeds; the graph it builds has one vertex per square of
the board, and the set of each vertex holds the destinations of the offsets
that are within the board, in increasing order of address. -/
theorem novo_spec (ender : Int × Int → Nat) :
    ∃ g0, Grafo.novo ender = some g0 ∧ BemFormado g0 ∧
      ∀ u, ePosicaoValida u.1 u.2 = true → vizinhas g0 u = ordena ender (destinosValidos u) := by
  unfold Grafo.novo
  rw [vertices_iniciais, adicionaArestas_eq]
  obtain ⟨g', e1, e2, e3⟩ := arestas_fold ender todas (fun p hp => (mem_todas p).1 hp)
    nodup_todas _ bemFormado_vertices
  refine ⟨g', e1, e2, fun u hu => ?_⟩
  rw [e3 u, if_pos ((mem_todas u).2 hu), vizinhas_vertices]
  rfl

end Oop

/-!
The available destinations of a square
-/

namespace Oop

open Matriz (N traduz movimento ePosicaoValida destino checaVisitacao marcaCasa casasInicial
  gradeBoa)

theorem mem_disponiveis (c : List (List Bool)) (u w : Int × Int) :
    w ∈ disponiveis c u ↔
      (∃ k, k < 8 ∧ w = destino u.1 u.2 k) ∧ checaVisitacao c w.1 w.2 = true := by
  unfold disponiveis
  simp only [List.mem_filter, List.mem_map, List.mem_range]
  constructor
  · rintro ⟨⟨k, hk, rfl⟩, h⟩
    exact ⟨⟨k, hk, rfl⟩, h⟩
  · rintro ⟨⟨k, hk, rfl⟩, h⟩
    exact ⟨⟨k, hk, rfl⟩, h⟩

theorem nodup_destinos (u : Int × Int) : ((List.range 8).map (destino u.1 u.2)).Nodup := by
  refine List.Nodup.map_on ?_ (List.nodup_range 8)
  intro a ha b hb hab
  exact Matriz.destino_inj u.1 u.2 a b (List.mem_range.1 ha) (List.mem_range.1 hb) hab

theorem nodup_disponiveis (c : List (List Bool)) (u : Int × Int) : (disponiveis c u).Nodup :=
  (nodup_destinos u).filter _

theorem salto_simetrico (u w : Int × Int) (h : ∃ k, k < 8 ∧ w = destino u.1 u.2 k) :
    ∃ k, k < 8 ∧ u = destino w.1 w.2 k := by
  obtain ⟨k, hk, rfl⟩ := h
  refine ⟨7 - k, by omega, ?_⟩
  obtain ⟨x, y⟩ := u
  interval_cases k <;>
    simp only [destino, movimento, Matriz.movimentosPossiveis, List.getD_cons_zero,
      List.getD_cons_succ, Prod.mk.injEq, Nat.reduceSub] <;> omega

theorem destino_ne (u : Int × Int) (k : Nat) (hk : k < 8) : destino u.1 u.2 k ≠ u := by
  obtain ⟨x, y⟩ := u
  interval_cases k <;>
    simp only [destino, movimento, Matriz.movimentosPossiveis, List.getD_cons_zero,
      List.getD_cons_succ, ne_eq, Prod.mk.injEq] <;> omega

theorem disponiveis_marcaCasa (c : List (List Bool)) (hc : gradeBoa c) (w u : Int × Int)
    (hw : ePosicaoValida w.1 w.2 = true) :
    disponiveis (marcaCasa c w.1 w.2) u
      = (disponiveis c u).filter (fun a => decide (a ≠ w)) := by
  unfold disponiveis
  rw [List.filter_filter]
  apply List.filter_congr
  intro s _
  rw [Matriz.checaVisitacao_marcaCasa c hc w.1 w.2 s.1 s.2 hw]
  by_cases hs : s = w
  · subst hs
    simp
  · have : ¬ (s.1 = w.1 ∧ s.2 = w.2) := fun h => hs (Prod.ext h.1 h.2)
    simp [hs, this]

theorem length_disponiveis (c : List (List Bool)) (u : Int × Int) :
    ((disponiveis c u).length : Int) = Matriz.retornaGrau c u.1 u.2 := by
  rw [Matriz.retornaGrau_eq_countP]
  unfold disponiveis
  rw [← List.countP_eq_length_filter, List.countP_map]
  rfl

end Oop

/-!
Visiting a square keeps graph and grid in agreement
-/

namespace Oop

open Matriz (N traduz movimento ePosicaoValida destino checaVisitacao marcaCasa casasInicial
  gradeBoa)

theorem bemFormado_retira (g : Grafo) (p : Int × Int) (L : List (Int × Int))
    (h : BemFormado g) : BemFormado (retira g p L) := by
  unfold retira
  induction L generalizing g with
  | nil => exact h
  | cons a L ih => exact ih _ (bemFormado_apagaVizinho g a p h)

theorem vizinhas_retira (g : Grafo) (p : Int × Int) (L : List (Int × Int)) (hn : L.Nodup)
    (u : Int × Int) :
    vizinhas (retira g p L) u
      = if u ∈ L then (vizinhas g u).filter (fun a => decide (a ≠ p)) else vizinhas g u := by
  unfold retira
  induction L generalizing g with
  | nil => simp
  | cons a L ih =>
    obtain ⟨haL, hnL⟩ := List.nodup_cons.1 hn
    simp only [List.foldl_cons]
    rw [ih _ hnL, vizinhas_apagaVizinho]
    by_cases hu : u = a
    · subst hu
      simp [haL]
    · by_cases hu2 : u ∈ L <;> simp [hu, hu2]

theorem filtra_ausente (l : List (Int × Int)) (w : Int × Int) (h : w ∉ l) :
    l.filter (fun a => decide (a ≠ w)) = l := by
  rw [List.filter_eq_self]
  intro a ha
  simp only [ne_eq, decide_not, Bool.not_eq_true', decide_eq_false_iff_not]
  exact fun e => h (e ▸ ha)

theorem checaVisitacao_valida (c : List (List Bool)) (x y : Int)
    (h : checaVisitacao c x y = true) : ePosicaoValida x y = true := by
  unfold checaVisitacao at h
  simp only [Bool.and_eq_true] at h
  exact h.1

/-- Visiting the square `w`: once `w` is erased from the sets of its neighbours
and marked in the grid, the graph agrees with the grid, `w` being the current
square. -/
theorem retira_inv (ender : Int × Int → Nat) (g : Grafo) (c : List (List Bool))
    (w : Int × Int) (hg : BemFormado g) (hc : gradeBoa c)
    (hw : checaVisitacao c w.1 w.2 = true)
    (H : ∀ u : Int × Int, checaVisitacao c u.1 u.2 = true →
      (vizinhas g u).Sorted (antes ender) ∧ (vizinhas g u).Perm (disponiveis c u)) :
    Inv ender (retira g w (vizinhas g w)) (marcaCasa c w.1 w.2) w := by
  have hwv := checaVisitacao_valida c w.1 w.2 hw
  obtain ⟨hMs, hMp⟩ := H w hw
  have hMn := nodup_de_ordenada ender _ hMs
  have hwM : w ∉ vizinhas g w := by
    intro hm
    obtain ⟨⟨k, hk, hk2⟩, _⟩ := (mem_disponiveis c w w).1 (hMp.subset hm)
    exact destino_ne w k hk hk2.symm
  have hwD : w ∉ disponiveis c w := fun hm => hwM (hMp.symm.subset hm)
  refine ⟨bemFormado_retira g w _ hg, Matriz.gradeBoa_marcaCasa c _ _ hc, hwv, ?_, ?_⟩
  · rw [Matriz.checaVisitacao_marcaCasa c hc w.1 w.2 w.1 w.2 hwv]
    simp
  · intro u _ hu
    rw [vizinhas_retira g w _ hMn u, disponiveis_marcaCasa c hc w u hwv]
    by_cases huw : u = w
    · subst huw
      rw [if_neg hwM, filtra_ausente _ _ hwD]
      exact ⟨hMs, hMp⟩
    · have hcu : checaVisitacao c u.1 u.2 = true := by
        rcases hu with hu | hu
        · rw [Matriz.checaVisitacao_marcaCasa c hc w.1 w.2 u.1 u.2 hwv] at hu
          simp only [Bool.and_eq_true] at hu
          exact hu.1
        · exact absurd hu huw
      obtain ⟨hus, hup⟩ := H u hcu
      by_cases huM : u ∈ vizinhas g w
      · rw [if_pos huM]
        exact ⟨hus.filter _, hup.filter _⟩
      · rw [if_neg huM]
        have : w ∉ disponiveis c u := by
          intro hm
          obtain ⟨hs, _⟩ := (mem_disponiveis c u w).1 hm
          have := (mem_disponiveis c w u).2 ⟨salto_simetrico u w hs, hcu⟩
          exact huM (hMp.symm.subset this)
        rw [filtra_ausente _ _ this]
        exact ⟨hus, hup⟩

theorem inv_remarca (ender : Int × Int → Nat) (g : Grafo) (c : List (List Bool))
    (cur : Int × Int) (h : Inv ender g c cur) :
    Inv ender g (marcaCasa c cur.1 cur.2) cur := by
  obtain ⟨hg, hc, hv, hvis, H⟩ := h
  refine ⟨hg, Matriz.gradeBoa_marcaCasa c _ _ hc, hv, ?_, ?_⟩
  · rw [Matriz.checaVisitacao_marcaCasa c hc cur.1 cur.2 cur.1 cur.2 hv]
    simp
  · intro u huv hu
    have hnot : cur ∉ disponiveis c u := by
      intro hm
      have := ((mem_disponiveis c u cur).1 hm).2
      rw [hvis] at this
      exact absurd this (by decide)
    rw [disponiveis_marcaCasa c hc cur u hv, filtra_ausente _ _ hnot]
    refine H u huv ?_
    rcases hu with hu | hu
    · rw [Matriz.checaVisitacao_marcaCasa c hc cur.1 cur.2 u.1 u.2 hv] at hu
      simp only [Bool.and_eq_true] at hu
      exact Or.inl hu.1
    · exact Or.inr hu

end Oop

/-!
One call of the selector
-/

namespace Oop

open Matriz (N traduz movimento ePosicaoValida destino checaVisitacao marcaCasa casasInicial
  gradeBoa)

theorem vizinhas_de_em (g : Grafo) (u : Int × Int) (v : Vertice) (h : g.em u = some v) :
    vizinhas g u = v.casasVizinhas := by
  unfold vizinhas
  rw [h]

theorem foldl_passoProxima_grafo (g : Grafo) (hg : BemFormado g) (c : List (List Bool))
    (l : List (Int × Int))
    (hl : ∀ w ∈ l, ePosicaoValida w.1 w.2 = true ∧
      ((vizinhas g w).length : Int) = Matriz.retornaGrau c w.1 w.2)
    (est : (Int × Int) × Int) :
    l.foldl (passoProxima g) (some est) = some (l.foldl (passoOrdenado c) est) := by
  induction l generalizing est with
  | nil => rfl
  | cons w l ih =>
    obtain ⟨hwv, hwg⟩ := hl w (List.mem_cons_self _ _)
    obtain ⟨vc, hvc, hid⟩ := em_de_valida g hg w hwv
    have hvc2 : g.em (vc.id.1, vc.id.2) = some vc := by rw [hid]; exact hvc
    have e1 : passoProxima g (some est) w = some (passoOrdenado c est w) := by
      unfold passoProxima retornaGrau passoOrdenado
      simp only [hvc, hvc2]
      rw [← vizinhas_de_em g w vc hvc, hwg]
      by_cases hlt : Matriz.retornaGrau c w.1 w.2 < est.2 <;> simp [hlt]
    simp only [List.foldl_cons]
    rw [e1]
    exact ih (fun x hx => hl x (List.mem_cons_of_mem _ hx)) _

theorem foldl_passoOrdenado_mem (c : List (List Bool)) (l : List (Int × Int))
    (est : (Int × Int) × Int) :
    (l.foldl (passoOrdenado c) est).1 = est.1 ∨ (l.foldl (passoOrdenado c) est).1 ∈ l := by
  induction l generalizing est with
  | nil => exact Or.inl rfl
  | cons w l ih =>
    simp only [List.foldl_cons]
    rcases ih (passoOrdenado c est w) with h | h
    · by_cases hlt : Matriz.retornaGrau c w.1 w.2 < est.2
      · have e : passoOrdenado c est w = (w, Matriz.retornaGrau c w.1 w.2) := by
          unfold passoOrdenado
          rw [if_pos hlt]
        rw [e] at h ⊢
        right
        rw [h]
        exact List.mem_cons_self _ _
      · have e : passoOrdenado c est w = est := by
          unfold passoOrdenado
          rw [if_neg hlt]
        rw [e] at h ⊢
        exact Or.inl h
    · exact Or.inr (List.mem_cons_of_mem _ h)

theorem foldl_passoOrdenado_inicio (c : List (List Bool)) (l : List (Int × Int))
    (hl : l ≠ []) (p : Int × Int) :
    (l.foldl (passoOrdenado c) (p, N + 1)).1 ∈ l := by
  cases l with
  | nil => exact absurd rfl hl
  | cons w l =>
    simp only [List.foldl_cons]
    have hlt : Matriz.retornaGrau c w.1 w.2 < N + 1 := by
      have := Matriz.retornaGrau_le c w.1 w.2
      simp only [N]
      omega
    have e1 : passoOrdenado c (p, N + 1) w = (w, Matriz.retornaGrau c w.1 w.2) := by
      unfold passoOrdenado
      rw [if_pos hlt]
    rw [e1]
    rcases foldl_passoOrdenado_mem c l (w, Matriz.retornaGrau c w.1 w.2) with h | h
    · exact h ▸ List.mem_cons_self _ _
    · exact List.mem_cons_of_mem _ h

theorem ordena_spec (ender : Int × Int → Nat) (hinj : EnderecosDistintos ender)
    (l : List (Int × Int)) (hn : l.Nodup) (hv : ∀ w ∈ l, ePosicaoValida w.1 w.2 = true) :
    (ordena ender l).Sorted (antes ender) ∧ (ordena ender l).Perm l := by
  have := foldl_insere ender l [] List.sorted_nil (by simpa using hn)
    (by
      intro a ha b hb hab
      simp only [List.append_nil] at ha hb
      exact hinj a b (hv a ha) (hv b hb) hab)
  simpa [ordena] using this

/-- One call of `Grafo::retornaProximaCoordenada` on a graph that agrees with the
grid `c`: the call succeeds, returns the square `proximaOrdenada`, and the graph
it leaves agrees with the grid in which that square is marked. The current
square comes back exactly when it has no available destination. -/
theorem retornaProximaCoordenada_inv (ender : Int × Int → Nat) (hinj : EnderecosDistintos ender)
    (g : Grafo) (c : List (List Bool)) (x y : Int) (h : Inv ender g c (x, y)) :
    ∃ g', retornaProximaCoordenada g x y = some (proximaOrdenada ender c x y, g') ∧
      Inv ender g' (marcaCasa c (proximaOrdenada ender c x y).1 (proximaOrdenada ender c x y).2)
        (proximaOrdenada ender c x y) ∧
      (proximaOrdenada ender c x y = (x, y) → disponiveis c (x, y) = [] ∧ g' = g) ∧
      (proximaOrdenada ender c x y ≠ (x, y) →
        checaVisitacao c (proximaOrdenada ender c x y).1 (proximaOrdenada ender c x y).2
          = true) := by
  have hI := h
  obtain ⟨hg, hc, hv, hvis, H⟩ := h
  obtain ⟨atual, hat, _⟩ := em_de_valida g hg (x, y) hv
  obtain ⟨hLs, hLp⟩ := H (x, y) hv (Or.inr rfl)
  have hDv : ∀ w ∈ disponiveis c (x, y), ePosicaoValida w.1 w.2 = true := fun w hw =>
    checaVisitacao_valida c _ _ ((mem_disponiveis c (x, y) w).1 hw).2
  obtain ⟨hOs, hOp⟩ := ordena_spec ender hinj _ (nodup_disponiveis c (x, y)) hDv
  have hL : vizinhas g (x, y) = ordena ender (disponiveis c (x, y)) :=
    eq_de_ordenadas ender _ _ (hLp.trans hOp.symm) hLs hOs
  have hLc : ∀ w ∈ vizinhas g (x, y), checaVisitacao c w.1 w.2 = true := fun w hw =>
    ((mem_disponiveis c (x, y) w).1 (hLp.subset hw)).2
  have hfold := foldl_passoProxima_grafo g hg c (vizinhas g (x, y))
    (fun w hw => ⟨checaVisitacao_valida c _ _ (hLc w hw), by
      rw [← length_disponiveis c w]
      exact congrArg _ ((H w (checaVisitacao_valida c _ _ (hLc w hw)) (Or.inl (hLc w hw))).2.length_eq)⟩)
    ((x, y), N + 1)
  rw [vizinhas_de_em g (x, y) atual hat] at hfold
  have hnv : proximaOrdenada ender c x y
      = (atual.casasVizinhas.foldl (passoOrdenado c) ((x, y), N + 1)).1 := by
    unfold proximaOrdenada
    rw [← hL, vizinhas_de_em g (x, y) atual hat]
  have hmem : proximaOrdenada ender c x y = (x, y) ∨
      proximaOrdenada ender c x y ∈ vizinhas g (x, y) := by
    rw [hnv, vizinhas_de_em g (x, y) atual hat]
    exact foldl_passoOrdenado_mem c _ _
  have hxy : (x, y) ∉ vizinhas g (x, y) := by
    intro hm
    have := hLc _ hm
    rw [hvis] at this
    exact absurd this (by decide)
  by_cases hcase : proximaOrdenada ender c x y = (x, y)
  · refine ⟨g, ?_, ?_, ?_, fun hne => absurd hcase hne⟩
    · unfold retornaProximaCoordenada
      simp only [hat, hfold]
      rw [← hnv, if_pos hcase, hcase]
    · rw [hcase]
      exact inv_remarca ender g c (x, y) hI
    · intro _
      refine ⟨?_, rfl⟩
      by_contra hne
      have hne2 : atual.casasVizinhas ≠ [] := by
        rw [← vizinhas_de_em g (x, y) atual hat]
        intro he
        rw [he] at hLp
        exact hne hLp.symm.eq_nil
      have := foldl_passoOrdenado_inicio c atual.casasVizinhas hne2 (x, y)
      rw [← hnv, hcase, ← vizinhas_de_em g (x, y) atual hat] at this
      exact hxy this
  · have hm : proximaOrdenada ender c x y ∈ vizinhas g (x, y) := by
      rcases hmem with h1 | h1
      · exact absurd h1 hcase
      · exact h1
    have hcn := hLc _ hm
    obtain ⟨melhor, hmel, _⟩ := em_de_valida g hg _ (checaVisitacao_valida c _ _ hcn)
    refine ⟨retira g (proximaOrdenada ender c x y) (vizinhas g (proximaOrdenada ender c x y)),
      ?_, ?_, fun he => absurd he hcase, fun _ => hcn⟩
    · unfold retornaProximaCoordenada
      simp only [hat, hfold]
      rw [← hnv, if_neg hcase]
      simp only [hmel]
      rw [vizinhas_de_em g _ melhor hmel]
    · exact retira_inv ender g c _ hg hc hcn
        (fun u hu => H u (checaVisitacao_valida c _ _ hu) (Or.inl hu))

end Oop

/-!
The run of `Grafo::achaSolucao`
-/

namespace Oop

open Matriz (N traduz movimento ePosicaoValida destino checaVisitacao marcaCasa casasInicial
  gradeBoa)

/-- The loop of `Grafo::achaSolucao` on a graph that agrees with the grid `c`,
the start square being visited: unless the start square itself has no available
destination, the loop runs to its end, returns `true` and writes the squares
`escritos`. -/
theorem lacoSolucao_inv (ender : Int × Int → Nat) (hinj : EnderecosDistintos ender)
    (v : Int × Int) (n i : Nat) (x y : Int) (g : Grafo) (c : List (List Bool))
    (sol : List (Char × Int)) (h : Inv ender g c (x, y))
    (hv : checaVisitacao c v.1 v.2 = false)
    (hstart : (x, y) = v → disponiveis c (x, y) ≠ []) :
    ∃ g', lacoSolucao v n i x y g sol
      = some (true, g', Matriz.escreve sol i (escritos ender n x y c)) := by
  induction n generalizing i x y g c sol with
  | zero => exact ⟨g, rfl⟩
  | succ n ih =>
    obtain ⟨g', e1, hI, hdead, hmove⟩ := retornaProximaCoordenada_inv ender hinj g c x y h
    have hne : proximaOrdenada ender c x y ≠ v := by
      by_cases hc : proximaOrdenada ender c x y = (x, y)
      · intro he
        exact hstart (hc.symm.trans he) (hdead hc).1
      · intro he
        have := hmove hc
        rw [he, hv] at this
        exact absurd this (by decide)
    have hI2 := hI
    obtain ⟨hg', hc', hvn, _, _⟩ := hI2
    obtain ⟨nova, hnova, hid⟩ := em_de_valida g' hg' _ hvn
    have hv' : checaVisitacao (marcaCasa c (proximaOrdenada ender c x y).1
        (proximaOrdenada ender c x y).2) v.1 v.2 = false := by
      rw [Matriz.checaVisitacao_marcaCasa c h.2.1 _ _ _ _ hvn, hv]
      rfl
    obtain ⟨g'', e2⟩ := ih (i + 1) (proximaOrdenada ender c x y).1 (proximaOrdenada ender c x y).2
      g' _ (sol.set i (traduz (proximaOrdenada ender c x y).1, (proximaOrdenada ender c x y).2))
      hI hv' (fun he => absurd he hne)
    refine ⟨g'', ?_⟩
    unfold lacoSolucao
    simp only [e1, hnova, hid, if_neg hne]
    rw [e2]
    rfl

theorem getD_replicate_false (n m i j : Nat) :
    ((List.replicate n (List.replicate m false)).getD i []).getD j false = false := by
  simp only [List.getD_eq_getElem?_getD, List.getElem?_replicate]
  by_cases hi : i < n
  · by_cases hj : j < m <;> simp [hi, hj, List.getElem?_replicate]
  · simp [hi]

theorem leCasa_casasInicial (a b : Int) : Matriz.leCasa casasInicial a b = false :=
  getD_replicate_false 9 9 a.toNat b.toNat

theorem disponiveis_casasInicial (u : Int × Int) :
    disponiveis casasInicial u = destinosValidos u := by
  unfold disponiveis destinosValidos
  apply List.filter_congr
  intro s _
  unfold checaVisitacao
  rw [leCasa_casasInicial]
  simp

set_option maxRecDepth 100000 in
theorem destinosValidos_ne_nil : ∀ u ∈ todas, destinosValidos u ≠ [] := by
  decide!

/-- The state in which the main loop of `Grafo::achaSolucao` starts: the graph
of the constructor, with the start vertex erased from the sets of its
neighbours, agrees with the grid in which the start square is marked. -/
theorem inicio_inv (ender : Int × Int → Nat) (hinj : EnderecosDistintos ender)
    (x y : Int) (hxy : ePosicaoValida x y = true) :
    ∃ g0 v, Grafo.novo ender = some g0 ∧ g0.em (x, y) = some v ∧
      Inv ender (retira g0 (x, y) v.casasVizinhas) (marcaCasa casasInicial x y) (x, y) := by
  obtain ⟨g0, e0, hg0, hviz⟩ := novo_spec ender
  have H : ∀ u : Int × Int, checaVisitacao casasInicial u.1 u.2 = true →
      (vizinhas g0 u).Sorted (antes ender) ∧ (vizinhas g0 u).Perm (disponiveis casasInicial u) := by
    intro u hu
    have huv := checaVisitacao_valida _ _ _ hu
    rw [hviz u huv, disponiveis_casasInicial]
    refine ordena_spec ender hinj _ ((nodup_destinos u).filter _) ?_
    intro w hw
    exact (List.mem_filter.1 hw).2
  have hc0 : checaVisitacao casasInicial x y = true := by
    unfold checaVisitacao
    rw [leCasa_casasInicial, hxy]
    rfl
  have hI := retira_inv ender g0 casasInicial (x, y) hg0 Matriz.gradeBoa_casasInicial hc0 H
  obtain ⟨v, hv, _⟩ := em_de_valida g0 hg0 (x, y) hxy
  refine ⟨g0, v, e0, hv, ?_⟩
  rw [← vizinhas_de_em g0 (x, y) v hv]
  exact hI

/-- The run of `Grafo::achaSolucao` on the graph that the constructor builds:
the constructor and the run succeed, the result is `true`, and the squares
written are `escritos`. -/
theorem achaSolucao_spec (ender : Int × Int → Nat) (hinj : EnderecosDistintos ender)
    (x y : Int) (hxy : ePosicaoValida x y = true) (sol : List (Char × Int)) :
    ∃ g0 g', Grafo.novo ender = some g0 ∧
      achaSolucao g0 sol x y = some (true, g',
        Matriz.escreve sol 1 (escritos ender 63 x y (marcaCasa casasInicial x y))) := by
  obtain ⟨g0, v, e0, hv, hI⟩ := inicio_inv ender hinj x y hxy
  have hstart : (x, y) = (x, y) → disponiveis (marcaCasa casasInicial x y) (x, y) ≠ [] := by
    intro _
    rw [disponiveis_marcaCasa casasInicial Matriz.gradeBoa_casasInicial (x, y) (x, y) hxy,
      disponiveis_casasInicial, filtra_ausente]
    · exact destinosValidos_ne_nil (x, y) ((mem_todas (x, y)).2 hxy)
    · intro hm
      obtain ⟨k, hk, hk2⟩ := List.mem_map.1 (List.mem_filter.1 hm).1
      exact destino_ne (x, y) k (List.mem_range.1 hk) hk2
  obtain ⟨g', e1⟩ := lacoSolucao_inv ender hinj (x, y) 63 1 x y _ _ sol hI hI.2.2.2.1 hstart
  refine ⟨g0, g', e0, ?_⟩
  unfold achaSolucao
  simp only [hv]
  exact e1

theorem length_escritos (ender : Int × Int → Nat) (n : Nat) (x y : Int) (c : List (List Bool)) :
    (escritos ender n x y c).length = n := by
  induction n generalizing x y c with
  | zero => rfl
  | succ n ih => simp [escritos, ih]

/-- The run of the graph variant from a start square of the board: it returns
`true` and the solution sequence holds the entries of the start square and of
the squares `escritos`. -/
theorem trataEntrada_spec (ender : Int × Int → Nat) (hinj : EnderecosDistintos ender)
    (x y : Int) (hxy : ePosicaoValida x y = true) :
    ∃ g', trataEntrada ender (traduz x) y = some (true, g',
      ((x, y) :: escritos ender 63 x y (marcaCasa casasInicial x y)).map Matriz.entrada) := by
  obtain ⟨g0, g', e0, e1⟩ := achaSolucao_spec ender hinj x y hxy
    (Matriz.coordenadasSolucaoInicial.set 0 (traduz x, y))
  refine ⟨g', ?_⟩
  have hx := (Matriz.ePosicaoValida_iff x y).1 hxy
  have hfind : Matriz.coordenadaTraducao.find? (fun coordenada => coordenada.2 == traduz x)
      = some (x, traduz x) := by
    obtain ⟨h1, h8, _, _⟩ := hx
    interval_cases x <;> rfl
  unfold trataEntrada
  generalize Grafo.novo ender = og at e0 ⊢
  subst e0
  simp only [hfind]
  rw [e1]
  have e2 : Matriz.coordenadasSolucaoInicial.set 0 (traduz x, y)
      = [(traduz x, y)] ++ List.replicate 63 (Char.ofNat 0, 0) := rfl
  have := Matriz.escreve_append [(traduz x, y)] (List.replicate 63 (Char.ofNat 0, 0))
    (escritos ender 63 x y (marcaCasa casasInicial x y)) (by simp [length_escritos])
  simp only [List.length_singleton] at this
  rw [e2, this, length_escritos]
  simp [Matriz.entrada]

end Oop

/-!
The degrees of the two variants agree along a run (C10)
-/

namespace Oop

open Matriz (N traduz movimento ePosicaoValida destino checaVisitacao marcaCasa casasInicial
  gradeBoa)

theorem corridaEm_inv (ender : Int × Int → Nat) (hinj : EnderecosDistintos ender)
    (x y : Int) (g0 : Grafo) (v : Vertice) (hv : g0.em (x, y) = some v)
    (hI : Inv ender (retira g0 (x, y) v.casasVizinhas) (marcaCasa casasInicial x y) (x, y))
    (k : Nat) :
    ∃ g, corridaEm g0 x y k = some (g, (estado ender x y k).1, (estado ender x y k).2) ∧
      Inv ender g (estado ender x y k).2 (estado ender x y k).1 := by
  induction k with
  | zero =>
    refine ⟨_, ?_, hI⟩
    show inicio g0 x y = _
    unfold inicio
    simp only [hv]
    rfl
  | succ k ih =>
    obtain ⟨g, e, hIk⟩ := ih
    obtain ⟨g', e1, hI', _, _⟩ := retornaProximaCoordenada_inv ender hinj g _ _ _ hIk
    obtain ⟨nova, hnova, hid⟩ := em_de_valida g' hI'.1 _ hI'.2.2.1
    refine ⟨g', ?_, hI'⟩
    show (corridaEm g0 x y k).bind avanca = _
    rw [e, Option.some_bind]
    unfold avanca
    simp only [e1, hnova, hid]
    rfl

/-- Every state of a run agrees with the grid of the squares visited so far. -/
theorem corrida_inv (ender : Int × Int → Nat) (hinj : EnderecosDistintos ender)
    (x y : Int) (hxy : ePosicaoValida x y = true) (k : Nat) :
    ∃ g, corrida ender x y k = some (g, (estado ender x y k).1, (estado ender x y k).2) ∧
      Inv ender g (estado ender x y k).2 (estado ender x y k).1 := by
  obtain ⟨g0, v, e0, hv, hI⟩ := inicio_inv ender hinj x y hxy
  obtain ⟨g, e, hIk⟩ := corridaEm_inv ender hinj x y g0 v hv hI k
  refine ⟨g, ?_, hIk⟩
  unfold corrida
  rw [e0, Option.some_bind]
  exact e

/-- C10. At every state of a run of the graph variant from a start square of the
board (after the constructor, the erasing of the start vertex, and any number
`k` of selector steps; the vertices at distinct addresses), for every square
that is not visited yet, `Grafo::retornaGrau` (the size of the set of the
vertex) equals the `retornaGrau` of the board-state variant on the grid in
which exactly the squares visited so far are marked. -/
theorem retornaGrau_equivalente (ender : Int × Int → Nat) (hinj : EnderecosDistintos ender)
    (x y : Int) (hx1 : 1 ≤ x) (hx8 : x ≤ 8) (hy1 : 1 ≤ y) (hy8 : y ≤ 8) (k : Nat) :
    ∃ g cur c, corrida ender x y k = some (g, cur, c) ∧
      ∀ a b : Int, checaVisitacao c a b = true →
        retornaGrau g a b = some (Matriz.retornaGrau c a b) := by
  have hxy : ePosicaoValida x y = true := (Matriz.ePosicaoValida_iff x y).2 ⟨hx1, hx8, hy1, hy8⟩
  obtain ⟨g, e, hg, _, _, _, H⟩ := corrida_inv ender hinj x y hxy k
  refine ⟨g, _, _, e, ?_⟩
  intro a b hab
  have hv := checaVisitacao_valida _ a b hab
  obtain ⟨v, hv2, _⟩ := em_de_valida g hg (a, b) hv
  obtain ⟨_, hp⟩ := H (a, b) hv (Or.inl hab)
  unfold retornaGrau
  simp only [hv2]
  rw [← vizinhas_de_em g (a, b) v hv2, hp.length_eq, length_disponiveis]

theorem enderCrescente_distintos : EnderecosDistintos enderCrescente := by
  intro a b ha hb hab
  rw [Matriz.ePosicaoValida_iff] at ha hb
  unfold enderCrescente at hab
  exact Prod.ext (by omega) (by omega)

/-- Instance of C10: the start square a1, one selector step, increasing addresses. -/
theorem retornaGrau_equivalente_witness :
    ∃ g cur c, corrida enderCrescente 1 1 1 = some (g, cur, c) ∧
      ∀ a b : Int, checaVisitacao c a b = true →
        retornaGrau g a b = some (Matriz.retornaGrau c a b) :=
  retornaGrau_equivalente enderCrescente enderCrescente_distintos 1 1 (by decide) (by decide)
    (by decide) (by decide) 1

end Oop

/-!
Addresses in the order of the offset table
-/

namespace Oop

open Matriz (N traduz movimento ePosicaoValida destino checaVisitacao marcaCasa casasInicial
  gradeBoa)

theorem ordemDaTabela_distintos (ender : Int × Int → Nat) (h : OrdemDaTabela ender) :
    EnderecosDistintos ender := by
  intro a b ha hb hab
  have h1 := h a b ha hb
  have h2 := h b a hb ha
  have n1 : ¬ ender a < ender b := by omega
  have n2 : ¬ ender b < ender a := by omega
  rw [h1] at n1
  rw [h2] at n2
  exact Prod.ext (by omega) (by omega)

theorem movimentos_decrescentes :
    ∀ i, i < 8 → ∀ j, j < 8 → i < j →
      (movimento j).1 < (movimento i).1 ∨
        ((movimento j).1 = (movimento i).1 ∧ (movimento j).2 < (movimento i).2) := by
  decide

theorem sorted_disponiveis (ender : Int × Int → Nat) (h : OrdemDaTabela ender)
    (c : List (List Bool)) (u : Int × Int) : (disponiveis c u).Sorted (antes ender) := by
  unfold disponiveis
  have hp : (fun s : Int × Int => checaVisitacao c s.1 s.2)
      = (fun s => decide (checaVisitacao c s.1 s.2 = true)) := by
    funext s
    simp
  rw [List.Sorted, hp, List.pairwise_filter, List.pairwise_map]
  refine List.Pairwise.imp_of_mem ?_ (List.pairwise_lt_range 8)
  intro i j hi hj hij hci hcj
  have hvi := checaVisitacao_valida c _ _ hci
  have hvj := checaVisitacao_valida c _ _ hcj
  refine (h _ _ hvi hvj).2 ?_
  have := movimentos_decrescentes i (List.mem_range.1 hi) j (List.mem_range.1 hj) hij
  unfold destino
  simp only
  omega

theorem ordena_disponiveis (ender : Int × Int → Nat) (h : OrdemDaTabela ender)
    (c : List (List Bool)) (u : Int × Int) :
    ordena ender (disponiveis c u) = disponiveis c u := by
  obtain ⟨hs, hp⟩ := ordena_spec ender (ordemDaTabela_distintos ender h) _
    (nodup_disponiveis c u)
    (fun w hw => checaVisitacao_valida c _ _ ((mem_disponiveis c u w).1 hw).2)
  exact eq_de_ordenadas ender _ _ hp hs (sorted_disponiveis ender h c u)

theorem posicao_indice (x y : Int) (i : Nat) : Matriz.posicao x y (i : Int) = destino x y i := by
  unfold Matriz.posicao destino
  have : ¬ ((i : Int) = -1) := by omega
  simp [this]

/-- The loop of the selector of the board-state variant over the 8 offsets and
the loop of the selector of the graph variant over the available destinations,
in the order of the offsets, keep the same square and the same degree. -/
theorem foldl_passoProxima_ordenado (c : List (List Bool)) (x y : Int) (is : List Nat)
    (est : Int × Int) :
    ((is.map (destino x y)).filter (fun s => checaVisitacao c s.1 s.2)).foldl (passoOrdenado c)
        (Matriz.posicao x y est.1, est.2)
      = (Matriz.posicao x y (is.foldl (Matriz.passoProxima c x y) est).1,
          (is.foldl (Matriz.passoProxima c x y) est).2) := by
  induction is generalizing est with
  | nil => rfl
  | cons i is ih =>
    simp only [List.map_cons, List.foldl_cons]
    rw [Matriz.passoProxima_eq]
    by_cases hd : checaVisitacao c (destino x y i).1 (destino x y i).2 = true
    · rw [List.filter_cons_of_pos (by simpa using hd), List.foldl_cons]
      by_cases hlt : Matriz.retornaGrau c (destino x y i).1 (destino x y i).2 < est.2
      · have e1 : passoOrdenado c (Matriz.posicao x y est.1, est.2) (destino x y i)
            = (Matriz.posicao x y (i : Int),
                Matriz.retornaGrau c (destino x y i).1 (destino x y i).2) := by
          unfold passoOrdenado
          rw [if_pos hlt, posicao_indice]
        rw [e1, if_pos ⟨hd, hlt⟩]
        exact ih ((i : Int), Matriz.grauDestino c x y i)
      · have e1 : passoOrdenado c (Matriz.posicao x y est.1, est.2) (destino x y i)
            = (Matriz.posicao x y est.1, est.2) := by
          unfold passoOrdenado
          rw [if_neg hlt]
        rw [e1, if_neg (fun hh => hlt hh.2)]
        exact ih _
    · rw [List.filter_cons_of_neg (by simpa using hd), if_neg (fun hh => hd hh.1)]
      exact ih _

theorem proximaOrdenada_eq (ender : Int × Int → Nat) (h : OrdemDaTabela ender)
    (c : List (List Bool)) (x y : Int) :
    proximaOrdenada ender c x y = Matriz.retornaProximaCoordenada c x y := by
  unfold proximaOrdenada
  rw [ordena_disponiveis ender h c (x, y), Rapido.retornaProximaCoordenada_eq_posicao]
  have := foldl_passoProxima_ordenado c x y (List.range 8) (-1, N + 1)
  have e0 : Matriz.posicao x y ((-1, N + 1) : Int × Int).1 = (x, y) := by
    simp [Matriz.posicao]
  rw [e0] at this
  unfold disponiveis
  rw [this]

theorem escritos_eq_percurso (ender : Int × Int → Nat) (h : OrdemDaTabela ender) (n : Nat)
    (x y : Int) (c : List (List Bool)) (hl : (Matriz.percurso n x y c).length = n) :
    escritos ender n x y c = Matriz.percurso n x y c := by
  induction n generalizing x y c with
  | zero => rfl
  | succ n ih =>
    unfold Matriz.percurso at hl ⊢
    unfold escritos
    rw [proximaOrdenada_eq ender h]
    by_cases hc : (Matriz.retornaProximaCoordenada c x y).1 = x ∧
        (Matriz.retornaProximaCoordenada c x y).2 = y
    · rw [if_pos hc] at hl
      simp at hl
    · rw [if_neg hc] at hl ⊢
      simp only [List.length_cons, Nat.add_right_cancel_iff] at hl
      rw [ih _ _ _ hl]

end Oop

/-!
The two variants compared (C3)
-/

namespace Matriz

theorem solucao_eq (x y : Int) (hx1 : 1 ≤ x) (hx8 : x ≤ 8) (e : Estado)
    (h : trataEntrada (traduz x) y = some (true, e)) :
    (percurso 63 x y (marcaCasa casasInicial x y)).length = 63 ∧
      e.coordenadasSolucao
        = ((x, y) :: percurso 63 x y (marcaCasa casasInicial x y)).map entrada := by
  rw [trataEntrada_eq x y hx1 hx8] at h
  unfold achaSolucao at h
  rw [lacoSolucao_eq] at h
  simp only [Option.some.injEq, Prod.mk.injEq, decide_eq_true_eq] at h
  obtain ⟨hlen, he⟩ := h
  refine ⟨hlen, ?_⟩
  rw [← he]
  have e0 : coordenadasSolucaoInicial.set 0 (traduz x, y)
      = [(traduz x, y)] ++ List.replicate 63 (Char.ofNat 0, 0) := rfl
  simp only [e0]
  have := escreve_append [(traduz x, y)] (List.replicate 63 (Char.ofNat 0, 0))
    (percurso 63 x y (marcaCasa casasInicial x y)) (by simp [hlen])
  simp only [List.length_singleton] at this
  rw [this, hlen]
  simp [entrada]

theorem proxima_a1 : retornaProximaCoordenada (marcaCasa casasInicial 1 1) 1 1 = (3, 2) := by
  decide

end Matriz

namespace Oop

open Matriz (N traduz movimento ePosicaoValida destino checaVisitacao marcaCasa casasInicial
  gradeBoa)

/-- C3, amended. When the sets of the vertices enumerate their elements in the
order of the offset table (the addresses of the vertices decrease in the order
of construction), for every start square of the board from which the
board-state variant returns `true`, the graph variant returns `true` and leaves
the same solution sequence. -/
theorem variantes_coincidem (ender : Int × Int → Nat) (hord : OrdemDaTabela ender)
    (x y : Int) (hx1 : 1 ≤ x) (hx8 : x ≤ 8) (hy1 : 1 ≤ y) (hy8 : y ≤ 8) (e : Matriz.Estado)
    (h : Matriz.trataEntrada (traduz x) y = some (true, e)) :
    ∃ g, trataEntrada ender (traduz x) y = some (true, g, e.coordenadasSolucao) := by
  have hxy : ePosicaoValida x y = true := (Matriz.ePosicaoValida_iff x y).2 ⟨hx1, hx8, hy1, hy8⟩
  obtain ⟨hlen, he⟩ := Matriz.solucao_eq x y hx1 hx8 e h
  obtain ⟨g, hg⟩ := trataEntrada_spec ender (ordemDaTabela_distintos ender hord) x y hxy
  refine ⟨g, ?_⟩
  rw [hg, he, escritos_eq_percurso ender hord 63 x y _ hlen]

theorem enderDecrescente_ordem : OrdemDaTabela enderDecrescente := by
  intro a b ha hb
  rw [Matriz.ePosicaoValida_iff] at ha hb
  unfold enderDecrescente
  omega

/-- Instance of C3, amended: the start square a1, decreasing addresses. -/
theorem variantes_coincidem_witness :
    ∃ g, trataEntrada enderDecrescente (traduz 1) 1 = some (true, g,
      (Matriz.achaSolucao 1 1
        { casas := casasInicial
          coordenadasSolucao :=
            Matriz.coordenadasSolucaoInicial.set 0 (traduz 1, 1) }).2.coordenadasSolucao) :=
  variantes_coincidem enderDecrescente enderDecrescente_ordem 1 1 (by decide) (by decide)
    (by decide) (by decide) _ Matriz.trataEntrada_a1

theorem escritos_succ (ender : Int × Int → Nat) (n : Nat) (x y : Int) (c : List (List Bool)) :
    escritos ender (n + 1) x y c
      = proximaOrdenada ender c x y ::
          escritos ender n (proximaOrdenada ender c x y).1 (proximaOrdenada ender c x y).2
            (marcaCasa c (proximaOrdenada ender c x y).1 (proximaOrdenada ender c x y).2) :=
  rfl

set_option maxRecDepth 100000 in
theorem proximaOrdenada_a1 :
    proximaOrdenada enderCrescente (marcaCasa casasInicial 1 1) 1 1 = (2, 3) := by
  decide!

/-- C3, the claim as stated fails: when the addresses of the vertices grow in
the order of construction, both variants return `true` from a1, but the second
square of the solution sequence is c2 in the board-state variant and b3 in the
graph variant. -/
theorem variantes_divergem :
    ∃ e g s, Matriz.trataEntrada 'a' 1 = some (true, e) ∧
      trataEntrada enderCrescente 'a' 1 = some (true, g, s) ∧
      e.coordenadasSolucao.getD 1 (Char.ofNat 0, 0) = ('c', 2) ∧
      s.getD 1 (Char.ofNat 0, 0) = ('b', 3) := by
  obtain ⟨g, hg⟩ := trataEntrada_spec enderCrescente enderCrescente_distintos 1 1 (by decide)
  obtain ⟨_, he⟩ := Matriz.solucao_eq 1 1 (by decide) (by decide) _ Matriz.trataEntrada_a1
  refine ⟨_, g, _, Matriz.trataEntrada_a1, hg, ?_, ?_⟩
  · rw [he]
    have hp : Matriz.percurso 63 1 1 (marcaCasa casasInicial 1 1)
        = (3, 2) :: Matriz.percurso 62 3 2 (marcaCasa (marcaCasa casasInicial 1 1) 3 2) := by
      show Matriz.percurso (62 + 1) 1 1 (marcaCasa casasInicial 1 1) = _
      unfold Matriz.percurso
      rw [Matriz.proxima_a1]
      rfl
    rw [hp]
    rfl
  · have hp := escritos_succ enderCrescente 62 1 1 (marcaCasa casasInicial 1 1)
    rw [proximaOrdenada_a1] at hp
    rw [hp]
    rfl

end Oop

/-!
A dead end of the graph variant (C4, C5)
-/

namespace Oop

open Matriz (N traduz movimento ePosicaoValida destino checaVisitacao marcaCasa casasInicial
  gradeBoa)

set_option maxRecDepth 1000000 in
theorem escritos_d1 :
    escritos enderCrescente 63 4 1 (marcaCasa casasInicial 4 1) =
      [(2, 2), (1, 4), (2, 6), (1, 8), (3, 7), (1, 6), (2, 8), (4, 7), (6, 8), (8, 7),
       (7, 5), (8, 3), (7, 1), (5, 2), (3, 1), (1, 2), (2, 4), (3, 2), (1, 1), (2, 3),
       (1, 5), (2, 7), (3, 5), (4, 3), (5, 1), (7, 2), (8, 4), (6, 3), (8, 2), (6, 1),
       (4, 2), (2, 1), (1, 3), (3, 4), (5, 3), (4, 5), (3, 3), (2, 5), (1, 7), (3, 8),
       (4, 6), (5, 8), (7, 7), (5, 6), (4, 4), (3, 6), (4, 8), (6, 7), (8, 8), (7, 6),
       (5, 5), (7, 4), (6, 2), (8, 1), (7, 3), (5, 4), (6, 6), (8, 5), (6, 4), (6, 4),
       (6, 4), (6, 4), (6, 4)] := by
  decide!

set_option maxRecDepth 1000000 in
theorem estado_d1 :
    (estado enderCrescente 4 1 59).1 = (6, 4) ∧
      disponiveis (estado enderCrescente 4 1 59).2 (6, 4) = [] := by
  decide!

theorem proximaOrdenada_sem_destino (ender : Int × Int → Nat) (c : List (List Bool)) (x y : Int)
    (h : disponiveis c (x, y) = []) : proximaOrdenada ender c x y = (x, y) := by
  unfold proximaOrdenada
  rw [h]
  rfl

/-- C5, the code at the failing input d1 with addresses that grow in the order
of construction: `Grafo::achaSolucao` returns `true`, but the solution sequence
holds f4 five times and does not hold e7. -/
theorem grafo_d1_repete :
    ∃ g s, trataEntrada enderCrescente 'd' 1 = some (true, g, s) ∧ s.length = 64 ∧
      s.countP (fun p => decide (p = ('f', 4))) = 5 ∧
      s.countP (fun p => decide (p = ('e', 7))) = 0 := by
  obtain ⟨g, hg⟩ := trataEntrada_spec enderCrescente enderCrescente_distintos 4 1 (by decide)
  rw [escritos_d1] at hg
  exact ⟨g, _, hg, by decide, by decide, by decide⟩

/-- C4, the code at the failing input d1 with addresses that grow in the order
of construction: when the iteration `i = 60` starts (after 59 iterations) the
current square is f4 and the set of its vertex is empty, the selector returns
the current vertex and leaves the graph as it is, and yet `Grafo::achaSolucao`
returns `true` and has written f4 at the indices 60 to 63. -/
theorem grafo_d1_sem_movimento :
    ∃ g c g' s, corrida enderCrescente 4 1 59 = some (g, (6, 4), c) ∧
      vizinhas g (6, 4) = [] ∧
      retornaProximaCoordenada g 6 4 = some ((6, 4), g) ∧
      trataEntrada enderCrescente 'd' 1 = some (true, g', s) ∧
      s.getD 60 (Char.ofNat 0, 0) = ('f', 4) ∧ s.getD 61 (Char.ofNat 0, 0) = ('f', 4) ∧
      s.getD 62 (Char.ofNat 0, 0) = ('f', 4) ∧ s.getD 63 (Char.ofNat 0, 0) = ('f', 4) := by
  obtain ⟨g', hg'⟩ := trataEntrada_spec enderCrescente enderCrescente_distintos 4 1 (by decide)
  rw [escritos_d1] at hg'
  obtain ⟨g, e, hI⟩ := corrida_inv enderCrescente enderCrescente_distintos 4 1 (by decide) 59
  obtain ⟨h1, h2⟩ := estado_d1
  rw [h1] at e hI
  obtain ⟨g2, e2, _, hdead, _⟩ :=
    retornaProximaCoordenada_inv enderCrescente enderCrescente_distintos g _ 6 4 hI
  have hp := proximaOrdenada_sem_destino enderCrescente _ 6 4 h2
  rw [hp] at e2
  rw [(hdead hp).2] at e2
  have hv : vizinhas g (6, 4) = [] := by
    have := (hI.2.2.2.2 (6, 4) hI.2.2.1 (Or.inr rfl)).2
    rw [h2] at this
    exact this.eq_nil
  exact ⟨g, _, g', _, e, hv, e2, hg', by decide, by decide, by decide, by decide⟩

end Oop

/-!
The sentinel of the selector (C15)
-/

namespace Matriz

/-- C15: for every grid and every square `(x, y)`, `retornaProximaCoordenada`
returns `(x, y)` itself if and only if no destination of the 8 offsets from
`(x, y)` is within the board and unvisited; and the initial bound
`menorGrau = N + 1 = 9` is greater than every value of `retornaGrau`, so the
first available candidate always passes the test `< menorGrau`. -/
theorem retornaProximaCoordenada_sentinela (casas : List (List Bool)) (x y : Int) :
    (retornaProximaCoordenada casas x y = (x, y) ↔
        ∀ i, i < 8 → checaVisitacao casas (destino x y i).1 (destino x y i).2 = false) ∧
      N + 1 = 9 ∧
      (∀ a b : Int, retornaGrau casas a b < N + 1) ∧
      ∀ i, i < 8 → checaVisitacao casas (destino x y i).1 (destino x y i).2 = true →
        passoProxima casas x y (-1, N + 1) i = ((i : Int), grauDestino casas x y i) := by
  refine ⟨?_, by decide, ?_, ?_⟩
  · rcases retornaProximaCoordenada_casos casas x y with ⟨h1, h2⟩ | ⟨k, hk, h1, h2, _⟩
    · exact ⟨fun _ => h2, fun _ => h1⟩
    · constructor
      · intro h
        rw [h1] at h
        exact absurd h (Oop.destino_ne (x, y) k hk)
      · intro h
        have := h k hk
        unfold disponivel at h2
        rw [h2] at this
        exact absurd this (by decide)
  · intro a b
    have := retornaGrau_le casas a b
    have hN : N = 8 := rfl
    omega
  · intro i _ hi
    rw [passoProxima_eq]
    have hg : grauDestino casas x y i < N + 1 := by
      have := retornaGrau_le casas (destino x y i).1 (destino x y i).2
      have hN : N = 8 := rfl
      unfold grauDestino
      omega
    have hd : disponivel casas x y i = true := hi
    simp [hd, hg]

theorem retornaProximaCoordenada_sentinela_witness :
    retornaProximaCoordenada casasInicial 1 1 = (1, 1) ↔
      ∀ i, i < 8 → checaVisitacao casasInicial (destino 1 1 i).1 (destino 1 1 i).2 = false :=
  (retornaProximaCoordenada_sentinela casasInicial 1 1).1

end Matriz

/-!
The degree of a square (C17)
-/

namespace Matriz

theorem movimentoDeCavalo_iff (a b : Int × Int) :
    movimentoDeCavalo a b = true ↔ ∃ k, k < 8 ∧ b = destino a.1 a.2 k := by
  obtain ⟨a1, a2⟩ := a
  obtain ⟨b1, b2⟩ := b
  constructor
  · intro h
    simp only [movimentoDeCavalo, Bool.or_eq_true, Bool.and_eq_true, decide_eq_true_eq] at h
    have hd : ∀ k, k < 8 → ∀ d : Int × Int, movimento k = d → b1 - a1 = d.1 →
        b2 - a2 = d.2 → ∃ k, k < 8 ∧ (b1, b2) = destino a1 a2 k := by
      intro k hk d hm h1 h2
      refine ⟨k, hk, ?_⟩
      unfold destino
      rw [hm]
      ext <;> simp <;> omega
    rcases h with ⟨h1 | h1, h2 | h2⟩ | ⟨h1 | h1, h2 | h2⟩
    · exact hd 2 (by decide) (1, 2) rfl h1 h2
    · exact hd 3 (by decide) (1, -2) rfl h1 h2
    · exact hd 4 (by decide) (-1, 2) rfl h1 h2
    · exact hd 5 (by decide) (-1, -2) rfl h1 h2
    · exact hd 0 (by decide) (2, 1) rfl h1 h2
    · exact hd 1 (by decide) (2, -1) rfl h1 h2
    · exact hd 6 (by decide) (-2, 1) rfl h1 h2
    · exact hd 7 (by decide) (-2, -1) rfl h1 h2
  · rintro ⟨k, hk, h⟩
    simp only [destino, Prod.mk.injEq] at h
    obtain ⟨h1, h2⟩ := h
    simp only [movimentoDeCavalo, Bool.or_eq_true, Bool.and_eq_true, decide_eq_true_eq]
    interval_cases k <;> simp [movimento, movimentosPossiveis] at h1 h2 <;> omega

theorem vizinhasLivres_eq (casas : List (List Bool)) (x y : Int) :
    vizinhasLivres casas x y = (Oop.disponiveis casas (x, y)).toFinset := by
  ext s
  simp only [vizinhasLivres, Finset.mem_filter, Finset.mem_product, Finset.mem_Icc,
    List.mem_toFinset, Oop.mem_disponiveis, movimentoDeCavalo_iff]
  unfold checaVisitacao
  rw [Bool.and_eq_true, ePosicaoValida_iff]
  simp only [Bool.not_eq_true']
  tauto

/-- C17: for every grid and every square `(x, y)`, `retornaGrau` is the number
of distinct squares that are within the board, unvisited in the grid, and one
knight move away from `(x, y)`; it lies between 0 and 8, and it is at most 7
when a square of the board one knight move away from `(x, y)` is visited. -/
theorem retornaGrau_conta (casas : List (List Bool)) (x y : Int) :
    retornaGrau casas x y = ((vizinhasLivres casas x y).card : Int) ∧
      0 ≤ retornaGrau casas x y ∧ retornaGrau casas x y ≤ 8 ∧
      ((∃ s : Int × Int, ePosicaoValida s.1 s.2 = true ∧ movimentoDeCavalo (x, y) s = true ∧
          leCasa casas s.1 s.2 = true) → retornaGrau casas x y ≤ 7) := by
  have hlen := Oop.length_disponiveis casas (x, y)
  simp only at hlen
  refine ⟨?_, ?_, retornaGrau_le casas x y, ?_⟩
  · rw [vizinhasLivres_eq, List.toFinset_card_of_nodup (Oop.nodup_disponiveis casas (x, y)),
      hlen]
  · rw [← hlen]
    exact Int.natCast_nonneg _
  · rintro ⟨s, hs, hk, hv⟩
    rw [← hlen]
    have hlt : (Oop.disponiveis casas (x, y)).length
        < ((List.range 8).map (destino x y)).length := by
      unfold Oop.disponiveis
      rw [List.length_filter_lt_length_iff_exists]
      refine ⟨s, ?_, ?_⟩
      · obtain ⟨k, hk8, e⟩ := (movimentoDeCavalo_iff (x, y) s).1 hk
        rw [List.mem_map]
        exact ⟨k, List.mem_range.2 hk8, e.symm⟩
      · unfold checaVisitacao
        simp [hv]
    simp only [List.length_map, List.length_range] at hlt
    omega

theorem retornaGrau_conta_witness : retornaGrau (marcaCasa casasInicial 3 2) 1 1 ≤ 7 :=
  (retornaGrau_conta (marcaCasa casasInicial 3 2) 1 1).2.2.2
    ⟨(3, 2), by decide, by decide, by decide⟩

end Matriz

/-!
The graph that the constructor builds (C12, C13)
-/

namespace Oop

open Matriz (N traduz movimento ePosicaoValida destino checaVisitacao marcaCasa casasInicial
  gradeBoa)

theorem chaves_bemFormado (g : Grafo) (h : BemFormado g) :
    g.casas.map (fun e => e.1) = todas := by
  have h2 := congrArg (List.map Prod.fst) h
  simpa [List.map_map, Function.comp_def] using h2

theorem mem_destinosValidos (u w : Int × Int) :
    w ∈ destinosValidos u ↔
      (∃ k, k < 8 ∧ w = destino u.1 u.2 k) ∧ ePosicaoValida w.1 w.2 = true := by
  unfold destinosValidos
  rw [List.mem_filter, List.mem_map]
  constructor
  · rintro ⟨⟨k, hk, rfl⟩, h⟩
    exact ⟨⟨k, List.mem_range.1 hk, rfl⟩, h⟩
  · rintro ⟨⟨k, hk, rfl⟩, h⟩
    exact ⟨⟨k, List.mem_range.2 hk, rfl⟩, h⟩

theorem nodup_destinosValidos (u : Int × Int) : (destinosValidos u).Nodup :=
  (nodup_destinos u).filter _

theorem vizinhas_novo (ender : Int × Int → Nat) (hinj : EnderecosDistintos ender) (g0 : Grafo)
    (hviz : ∀ u, ePosicaoValida u.1 u.2 = true →
      vizinhas g0 u = ordena ender (destinosValidos u))
    (u : Int × Int) (hu : ePosicaoValida u.1 u.2 = true) :
    (vizinhas g0 u).Sorted (antes ender) ∧ (vizinhas g0 u).Perm (destinosValidos u) := by
  rw [hviz u hu]
  exact ordena_spec ender hinj _ (nodup_destinosValidos u)
    (fun w hw => ((mem_destinosValidos u w).1 hw).2)

theorem vizinhas_fora (g : Grafo) (h : BemFormado g) (u : Int × Int)
    (hu : ePosicaoValida u.1 u.2 = false) : g.em u = none ∧ vizinhas g u = [] := by
  have hn : g.em u = none := by
    unfold Grafo.em
    rw [List.lookup_eq_none_iff]
    intro e he
    have hmem : e.1 ∈ g.casas.map (fun e => e.1) := List.mem_map.2 ⟨e, he, rfl⟩
    rw [chaves_bemFormado g h, mem_todas] at hmem
    rw [bne_iff_ne]
    intro hk2
    rw [← hk2, hu] at hmem
    exact absurd hmem (by decide)
  refine ⟨hn, ?_⟩
  unfold vizinhas
  rw [hn]

theorem destinosValidos_centro (u : Int × Int) (h1 : 3 ≤ u.1) (h2 : u.1 ≤ 6) (h3 : 3 ≤ u.2)
    (h4 : u.2 ≤ 6) : (destinosValidos u).length = 8 := by
  have : destinosValidos u = (List.range 8).map (destino u.1 u.2) := by
    unfold destinosValidos
    rw [List.filter_eq_self]
    intro s hs
    obtain ⟨k, hk, rfl⟩ := List.mem_map.1 hs
    have hk8 := List.mem_range.1 hk
    rw [Matriz.ePosicaoValida_iff]
    unfold destino
    interval_cases k <;> simp [movimento, Matriz.movimentosPossiveis] <;> omega
  rw [this]
  simp

/-- C12: the constructor of `Grafo` returns a graph with exactly 64 vertices,
one under each key `(x, y)` with `1 <= x, y <= 8` and none under another key;
the set of the vertex of every square `A` holds, once each, exactly the
destinations of the 8 offsets of `movimentosPossiveis` from `A` that are within
the board; a corner has 2 neighbours and a central square has 8. -/
theorem novo_construcao (ender : Int × Int → Nat) (hinj : EnderecosDistintos ender) :
    ∃ g0, Grafo.novo ender = some g0 ∧ g0.casas.length = 64 ∧
      (g0.casas.map (fun e => e.1)).Nodup ∧
      (∀ x y : Int, (∃ v, g0.em (x, y) = some v ∧ v.id = (x, y)) ↔
        (1 ≤ x ∧ x ≤ 8 ∧ 1 ≤ y ∧ y ≤ 8)) ∧
      (∀ x y : Int, g0.em (x, y) = none ↔ ¬ (1 ≤ x ∧ x ≤ 8 ∧ 1 ≤ y ∧ y ≤ 8)) ∧
      (∀ A : Int × Int, ePosicaoValida A.1 A.2 = true →
        (vizinhas g0 A).Nodup ∧
          ∀ B : Int × Int, B ∈ vizinhas g0 A ↔
            (∃ k, k < 8 ∧ B = (A.1 + (movimento k).1, A.2 + (movimento k).2)) ∧
              ePosicaoValida B.1 B.2 = true) ∧
      (vizinhas g0 (1, 1)).length = 2 ∧ (vizinhas g0 (1, 8)).length = 2 ∧
      (vizinhas g0 (8, 1)).length = 2 ∧ (vizinhas g0 (8, 8)).length = 2 ∧
      ∀ A : Int × Int, 3 ≤ A.1 → A.1 ≤ 6 → 3 ≤ A.2 → A.2 ≤ 6 → (vizinhas g0 A).length = 8 := by
  obtain ⟨g0, e0, hb, hviz⟩ := novo_spec ender
  have hlen : ∀ u, ePosicaoValida u.1 u.2 = true →
      (vizinhas g0 u).length = (destinosValidos u).length := fun u hu =>
    (vizinhas_novo ender hinj g0 hviz u hu).2.length_eq
  have hkeys := chaves_bemFormado g0 hb
  refine ⟨g0, e0, ?_, ?_, ?_, ?_, ?_, ?_, ?_, ?_, ?_, ?_⟩
  · have := congrArg List.length hkeys
    rw [List.length_map] at this
    rw [this]
    decide
  · rw [hkeys]
    exact nodup_todas
  · intro x y
    rw [← Matriz.ePosicaoValida_iff]
    constructor
    · rintro ⟨v, hv, _⟩
      by_contra hne
      have hf : ePosicaoValida x y = false := by simpa using hne
      rw [(vizinhas_fora g0 hb (x, y) hf).1] at hv
      exact absurd hv (by simp)
    · intro h
      exact em_de_valida g0 hb (x, y) h
  · intro x y
    rw [← Matriz.ePosicaoValida_iff]
    constructor
    · intro hn hv
      obtain ⟨v, hv2, _⟩ := em_de_valida g0 hb (x, y) hv
      rw [hn] at hv2
      exact absurd hv2 (by simp)
    · intro hne
      have hf : ePosicaoValida x y = false := by simpa using hne
      exact (vizinhas_fora g0 hb (x, y) hf).1
  · intro A hA
    obtain ⟨_, hp⟩ := vizinhas_novo ender hinj g0 hviz A hA
    refine ⟨hp.nodup_iff.2 (nodup_destinosValidos A), fun B => ?_⟩
    rw [hp.mem_iff, mem_destinosValidos]
    rfl
  · rw [hlen _ (by decide)]
    decide
  · rw [hlen _ (by decide)]
    decide
  · rw [hlen _ (by decide)]
    decide
  · rw [hlen _ (by decide)]
    decide
  · intro A h1 h2 h3 h4
    rw [hlen A ((Matriz.ePosicaoValida_iff _ _).2 ⟨by omega, by omega, by omega, by omega⟩)]
    exact destinosValidos_centro A h1 h2 h3 h4

theorem novo_construcao_witness :
    ∃ g0, Grafo.novo enderCrescente = some g0 ∧ g0.casas.length = 64 := by
  obtain ⟨g0, e0, h, _⟩ := novo_construcao enderCrescente enderCrescente_distintos
  exact ⟨g0, e0, h⟩

/-- C13: in the graph that the constructor of `Grafo` returns, adjacency is
symmetric: for all squares `A` and `B`, `B` is in the set of the vertex of `A`
if and only if `A` is in the set of the vertex of `B`. -/
theorem novo_simetrico (ender : Int × Int → Nat) (hinj : EnderecosDistintos ender) :
    ∃ g0, Grafo.novo ender = some g0 ∧
      ∀ A B : Int × Int, B ∈ vizinhas g0 A ↔ A ∈ vizinhas g0 B := by
  obtain ⟨g0, e0, hb, hviz⟩ := novo_spec ender
  refine ⟨g0, e0, ?_⟩
  have hmem : ∀ A B : Int × Int, B ∈ vizinhas g0 A ↔
      ePosicaoValida A.1 A.2 = true ∧ ePosicaoValida B.1 B.2 = true ∧
        ∃ k, k < 8 ∧ B = destino A.1 A.2 k := by
    intro A B
    by_cases hA : ePosicaoValida A.1 A.2 = true
    · rw [(vizinhas_novo ender hinj g0 hviz A hA).2.mem_iff, mem_destinosValidos]
      exact ⟨fun h => ⟨hA, h.2, h.1⟩, fun h => ⟨h.2.2, h.2.1⟩⟩
    · have hf : ePosicaoValida A.1 A.2 = false := by simpa using hA
      rw [(vizinhas_fora g0 hb A hf).2]
      simp [hf]
  intro A B
  rw [hmem A B, hmem B A]
  constructor
  · rintro ⟨hA, hB, hk⟩
    exact ⟨hB, hA, salto_simetrico A B hk⟩
  · rintro ⟨hB, hA, hk⟩
    exact ⟨hA, hB, salto_simetrico B A hk⟩

theorem novo_simetrico_witness :
    ∃ g0, Grafo.novo enderCrescente = some g0 ∧
      ((2, 3) ∈ vizinhas g0 (1, 1) ↔ (1, 1) ∈ vizinhas g0 (2, 3)) := by
  obtain ⟨g0, e0, h⟩ := novo_simetrico enderCrescente enderCrescente_distintos
  exact ⟨g0, e0, h (1, 1) (2, 3)⟩

end Oop

/-!
The squares that a run of the graph variant writes (C19, C11)
-/

namespace Oop

open Matriz (N traduz movimento ePosicaoValida destino checaVisitacao marcaCasa casasInicial
  gradeBoa)

theorem valida_disponiveis (c : List (List Bool)) (u w : Int × Int) (h : w ∈ disponiveis c u) :
    ePosicaoValida w.1 w.2 = true :=
  checaVisitacao_valida c w.1 w.2 ((mem_disponiveis c u w).1 h).2

theorem proximaOrdenada_casos (ender : Int × Int → Nat) (hinj : EnderecosDistintos ender)
    (c : List (List Bool)) (x y : Int) :
    (disponiveis c (x, y) = [] ∧ proximaOrdenada ender c x y = (x, y)) ∨
      (proximaOrdenada ender c x y ∈ disponiveis c (x, y) ∧
        proximaOrdenada ender c x y ≠ (x, y)) := by
  by_cases h : disponiveis c (x, y) = []
  · exact Or.inl ⟨h, proximaOrdenada_sem_destino ender c x y h⟩
  · right
    obtain ⟨_, hp⟩ := ordena_spec ender hinj (disponiveis c (x, y)) (nodup_disponiveis c (x, y))
      (fun w hw => valida_disponiveis c (x, y) w hw)
    have hne : ordena ender (disponiveis c (x, y)) ≠ [] := by
      intro e
      rw [e] at hp
      exact h hp.symm.eq_nil
    have hm := foldl_passoOrdenado_inicio c _ hne (x, y)
    have hm2 : proximaOrdenada ender c x y ∈ disponiveis c (x, y) := hp.mem_iff.1 hm
    refine ⟨hm2, ?_⟩
    obtain ⟨⟨k, hk, e⟩, _⟩ := (mem_disponiveis c (x, y) _).1 hm2
    rw [e]
    exact destino_ne (x, y) k hk

theorem proximaOrdenada_valida (ender : Int × Int → Nat) (hinj : EnderecosDistintos ender)
    (c : List (List Bool)) (x y : Int) (hxy : ePosicaoValida x y = true) :
    ePosicaoValida (proximaOrdenada ender c x y).1 (proximaOrdenada ender c x y).2 = true := by
  rcases proximaOrdenada_casos ender hinj c x y with ⟨_, h⟩ | ⟨h, _⟩
  · rw [h]
    exact hxy
  · exact valida_disponiveis c (x, y) _ h

theorem escritos_parado (ender : Int × Int → Nat) (n : Nat) (x y : Int) (c : List (List Bool))
    (hc : gradeBoa c) (hxy : ePosicaoValida x y = true) (h : disponiveis c (x, y) = []) :
    escritos ender n x y c = List.replicate n (x, y) := by
  induction n generalizing c with
  | zero => rfl
  | succ n ih =>
    rw [escritos_succ, proximaOrdenada_sem_destino ender c x y h, List.replicate_succ]
    congr 1
    apply ih _ (Matriz.gradeBoa_marcaCasa c x y hc)
    have := disponiveis_marcaCasa c hc (x, y) (x, y) hxy
    simp only at this
    rw [this, h]
    rfl

theorem escritos_fora_do_inicio (ender : Int × Int → Nat) (hinj : EnderecosDistintos ender)
    (v : Int × Int) (n : Nat) (x y : Int) (c : List (List Bool)) (hc : gradeBoa c)
    (hxy : ePosicaoValida x y = true) (hv : checaVisitacao c v.1 v.2 = false)
    (hstart : (x, y) = v → disponiveis c (x, y) ≠ []) :
    ∀ w ∈ escritos ender n x y c, w ≠ v ∧ ePosicaoValida w.1 w.2 = true := by
  induction n generalizing x y c with
  | zero =>
    intro w hw
    simp [escritos] at hw
  | succ n ih =>
    rw [escritos_succ]
    have hpv := proximaOrdenada_valida ender hinj c x y hxy
    have hne : proximaOrdenada ender c x y ≠ v := by
      rcases proximaOrdenada_casos ender hinj c x y with ⟨h0, h⟩ | ⟨h, _⟩
      · rw [h]
        intro e
        exact hstart e h0
      · intro e
        have := ((mem_disponiveis c (x, y) _).1 h).2
        rw [e, hv] at this
        exact absurd this (by decide)
    intro w hw
    rcases List.mem_cons.1 hw with rfl | hw
    · exact ⟨hne, hpv⟩
    · refine ih _ _ _ (Matriz.gradeBoa_marcaCasa c _ _ hc) hpv ?_ ?_ w hw
      · rw [Matriz.checaVisitacao_marcaCasa c hc _ _ _ _ hpv, hv]
        rfl
      · intro e
        exact absurd e hne

theorem escritos_repete (ender : Int × Int → Nat) (hinj : EnderecosDistintos ender)
    (n : Nat) (x y : Int) (c : List (List Bool)) (hc : gradeBoa c)
    (hxy : ePosicaoValida x y = true) (pre suf : List (Int × Int)) (q : Int × Int)
    (h : escritos ender n x y c = pre ++ q :: q :: suf) : ∀ p ∈ suf, p = q := by
  induction n generalizing x y c pre with
  | zero =>
    simp [escritos] at h
  | succ n ih =>
    rw [escritos_succ] at h
    have hpv := proximaOrdenada_valida ender hinj c x y hxy
    have hc2 := Matriz.gradeBoa_marcaCasa c (proximaOrdenada ender c x y).1
      (proximaOrdenada ender c x y).2 hc
    cases pre with
    | nil =>
      simp only [List.nil_append, List.cons.injEq] at h
      obtain ⟨h1, h2⟩ := h
      cases n with
      | zero => simp [escritos] at h2
      | succ n =>
        rw [h1] at h2 hpv hc2
        have h3 : proximaOrdenada ender (marcaCasa c q.1 q.2) q.1 q.2 = q := by
          have h5 := h2
          rw [escritos_succ] at h5
          simp only [List.cons.injEq] at h5
          exact h5.1
        have hdead : disponiveis (marcaCasa c q.1 q.2) (q.1, q.2) = [] := by
          rcases proximaOrdenada_casos ender hinj (marcaCasa c q.1 q.2) q.1 q.2 with
            ⟨h0, _⟩ | ⟨_, hn⟩
          · exact h0
          · exact absurd h3 hn
        have hrep := escritos_parado ender (n + 1) q.1 q.2 _ hc2 hpv hdead
        rw [hrep] at h2
        intro p hp
        have : p ∈ List.replicate (n + 1) (q.1, q.2) := by
          rw [h2]
          exact List.mem_cons_of_mem _ hp
        exact (List.mem_replicate.1 this).2
    | cons a pre =>
      simp only [List.cons_append, List.cons.injEq] at h
      exact ih _ _ _ hc2 hpv pre h.2

theorem entrada_inj (a b : Int × Int) (ha : ePosicaoValida a.1 a.2 = true)
    (hb : ePosicaoValida b.1 b.2 = true) (h : Matriz.entrada a = Matriz.entrada b) : a = b := by
  rw [Matriz.ePosicaoValida_iff] at ha hb
  have h1 := Matriz.casaDaEntrada_entrada a.1 a.2 ha.1 ha.2.1
  have h2 := Matriz.casaDaEntrada_entrada b.1 b.2 hb.1 hb.2.1
  have h3 : Matriz.casaDaEntrada (Matriz.entrada a) = Matriz.casaDaEntrada (Matriz.entrada b) := by
    rw [h]
  rw [h1, h2] at h3
  exact h3

theorem inicio_disponiveis (x y : Int) (hxy : ePosicaoValida x y = true) :
    checaVisitacao (marcaCasa casasInicial x y) x y = false ∧
      disponiveis (marcaCasa casasInicial x y) (x, y) ≠ [] := by
  constructor
  · rw [Matriz.checaVisitacao_marcaCasa _ Matriz.gradeBoa_casasInicial _ _ _ _ hxy]
    simp
  · have h := disponiveis_marcaCasa casasInicial Matriz.gradeBoa_casasInicial (x, y) (x, y) hxy
    simp only at h
    rw [h, filtra_ausente, disponiveis_casasInicial]
    · exact destinosValidos_ne_nil (x, y) ((mem_todas (x, y)).2 hxy)
    · intro hm
      obtain ⟨⟨k, hk, e⟩, _⟩ := (mem_disponiveis _ _ _).1 hm
      exact destino_ne (x, y) k hk e.symm

theorem escritos_inicio (ender : Int × Int → Nat) (hinj : EnderecosDistintos ender)
    (x y : Int) (hxy : ePosicaoValida x y = true) :
    ∀ w ∈ escritos ender 63 x y (marcaCasa casasInicial x y),
      w ≠ (x, y) ∧ ePosicaoValida w.1 w.2 = true :=
  escritos_fora_do_inicio ender hinj (x, y) 63 x y _
    (Matriz.gradeBoa_marcaCasa _ _ _ Matriz.gradeBoa_casasInicial) hxy
    (inicio_disponiveis x y hxy).1 (fun _ => (inicio_disponiveis x y hxy).2)

theorem corrida_succ (ender : Int × Int → Nat) (x y : Int) (k : Nat) :
    corrida ender x y (k + 1) = (corrida ender x y k).bind avanca := by
  unfold corrida
  generalize Grafo.novo ender = og
  cases og with
  | none => rfl
  | some g => rfl

theorem escritos_estado (ender : Int × Int → Nat) (x y : Int) (n j k : Nat) (hk : k < n) :
    (escritos ender n (estado ender x y j).1.1 (estado ender x y j).1.2
        (estado ender x y j).2).getD k (0, 0)
      = (estado ender x y (j + k + 1)).1 := by
  induction n generalizing j k with
  | zero => omega
  | succ n ih =>
    rw [escritos_succ]
    cases k with
    | zero => rfl
    | succ k =>
      rw [List.getD_cons_succ]
      have e : j + (k + 1) + 1 = (j + 1) + k + 1 := by omega
      rw [e]
      exact ih (j + 1) k (by omega)

theorem sequencia_estado (ender : Int × Int → Nat) (x y : Int) (k : Nat) (hk : k ≤ 63) :
    (((x, y) :: escritos ender 63 x y (marcaCasa casasInicial x y)).map Matriz.entrada).getD k
        (Char.ofNat 0, 0)
      = Matriz.entrada (estado ender x y k).1 := by
  have hlen : k < (((x, y) :: escritos ender 63 x y (marcaCasa casasInicial x y)).map
      Matriz.entrada).length := by
    simp [length_escritos]
    omega
  rw [List.getD_eq_getElem _ _ hlen, List.getElem_map]
  congr 1
  cases k with
  | zero => rfl
  | succ k =>
    rw [List.getElem_cons_succ]
    have h := escritos_estado ender x y 63 0 k (by omega)
    rw [List.getD_eq_getElem _ _ (by rw [length_escritos]; omega)] at h
    rw [Nat.zero_add] at h
    exact h

theorem passo_da_corrida (ender : Int × Int → Nat) (hinj : EnderecosDistintos ender)
    (x y : Int) (hxy : ePosicaoValida x y = true) (k : Nat) (hk : k < 63) :
    ∃ gk g', corrida ender x y k = some (gk, (estado ender x y k).1, (estado ender x y k).2) ∧
      retornaProximaCoordenada gk (estado ender x y k).1.1 (estado ender x y k).1.2
        = some ((estado ender x y (k + 1)).1, g') ∧
      corrida ender x y (k + 1)
        = some (g', (estado ender x y (k + 1)).1, (estado ender x y (k + 1)).2) ∧
      (estado ender x y (k + 1)).1 ≠ (x, y) ∧
      (vizinhas gk (estado ender x y k).1 = [] →
        (estado ender x y (k + 1)).1 = (estado ender x y k).1 ∧ g' = gk) ∧
      (vizinhas gk (estado ender x y k).1 ≠ [] →
        (estado ender x y (k + 1)).1 ∈ vizinhas gk (estado ender x y k).1 ∧
          (estado ender x y (k + 1)).1 ≠ (estado ender x y k).1) ∧
      (k = 0 → vizinhas gk (estado ender x y k).1 ≠ []) := by
  obtain ⟨gk, e, hI⟩ := corrida_inv ender hinj x y hxy k
  obtain ⟨g', e1, hI', hdead, _⟩ := retornaProximaCoordenada_inv ender hinj gk _ _ _ hI
  obtain ⟨nova, hnova, hid⟩ := em_de_valida g' hI'.1 _ hI'.2.2.1
  obtain ⟨_, hperm⟩ := hI.2.2.2.2 (estado ender x y k).1 hI.2.2.1 (Or.inr rfl)
  refine ⟨gk, g', e, e1, ?_, ?_, ?_, ?_, ?_⟩
  · rw [corrida_succ, e, Option.some_bind]
    unfold avanca
    simp only [e1, hnova, hid]
    rfl
  · have h := escritos_estado ender x y 63 0 k hk
    rw [Nat.zero_add] at h
    have hlen : k < (escritos ender 63 (estado ender x y 0).1.1 (estado ender x y 0).1.2
        (estado ender x y 0).2).length := by
      rw [length_escritos]
      exact hk
    rw [List.getD_eq_getElem _ _ hlen] at h
    have hm := List.getElem_mem hlen
    rw [h] at hm
    exact (escritos_inicio ender hinj x y hxy _ hm).1
  · intro hv
    rw [hv] at hperm
    have hd : disponiveis (estado ender x y k).2
        ((estado ender x y k).1.1, (estado ender x y k).1.2) = [] := hperm.nil_eq.symm
    have hp := proximaOrdenada_sem_destino ender _ _ _ hd
    exact ⟨hp, (hdead hp).2⟩
  · intro hv
    rcases proximaOrdenada_casos ender hinj (estado ender x y k).2 (estado ender x y k).1.1
      (estado ender x y k).1.2 with ⟨h0, _⟩ | ⟨hm, hne⟩
    · have h2 : disponiveis (estado ender x y k).2 (estado ender x y k).1 = [] := h0
      rw [h2] at hperm
      exact absurd hperm.eq_nil hv
    · exact ⟨hperm.symm.subset hm, hne⟩
  · intro hk0 hv
    subst hk0
    rw [hv] at hperm
    exact (inicio_disponiveis x y hxy).2 hperm.nil_eq.symm

/-- C19: on the graph that the constructor builds, for every assignment of
distinct addresses to the vertices and every start square of the board,
`Grafo::achaSolucao` returns `true` with 64 entries in the solution sequence.
At every iteration `k + 1` of the loop (`k < 63`), from the state of the run
after `k` iterations, `retornaProximaCoordenada` has a result `r` that is never
the start vertex (so the failure test `novaCoordenada == v` never holds), the
entry written at the index `k + 1` is the entry of `r`, and `r` becomes the
current vertex; when the set of the current vertex is empty, `r` is the current
vertex itself and the graph is left as it is, so the current square is written
again; otherwise `r` is an element of that set; at the first iteration the set
of the start vertex is not empty. Hence no entry after the first is the start
square, and once two consecutive entries are equal every later entry is that
same square. -/
theorem achaSolucao_sempre_verdadeiro (ender : Int × Int → Nat)
    (hinj : EnderecosDistintos ender) (x y : Int) (hxy : ePosicaoValida x y = true) :
    ∃ g s, trataEntrada ender (traduz x) y = some (true, g, s) ∧ s.length = 64 ∧
      s.head? = some (traduz x, y) ∧
      (∀ p ∈ s.tail, p ≠ (traduz x, y)) ∧
      (∀ (pre suf : List (Char × Int)) (q : Char × Int),
        s = pre ++ q :: q :: suf → ∀ p ∈ suf, p = q) ∧
      ∀ k, k < 63 →
        ∃ (gk : Grafo) (cur : Int × Int) (c : List (List Bool)) (r : Int × Int) (g' : Grafo),
          corrida ender x y k = some (gk, cur, c) ∧
          retornaProximaCoordenada gk cur.1 cur.2 = some (r, g') ∧
          corrida ender x y (k + 1) = some (g', r, marcaCasa c r.1 r.2) ∧
          r ≠ (x, y) ∧
          s.getD k (Char.ofNat 0, 0) = (traduz cur.1, cur.2) ∧
          s.getD (k + 1) (Char.ofNat 0, 0) = (traduz r.1, r.2) ∧
          (vizinhas gk cur = [] → r = cur ∧ g' = gk) ∧
          (vizinhas gk cur ≠ [] → r ∈ vizinhas gk cur ∧ r ≠ cur) ∧
          (k = 0 → cur = (x, y) ∧ vizinhas gk cur ≠ []) := by
  obtain ⟨g, hg⟩ := trataEntrada_spec ender hinj x y hxy
  have hE := escritos_inicio ender hinj x y hxy
  refine ⟨g, _, hg, ?_, rfl, ?_, ?_, ?_⟩
  · simp [length_escritos]
  · intro p hp
    simp only [List.map_cons, List.tail_cons, List.mem_map] at hp
    obtain ⟨w, hw, rfl⟩ := hp
    intro e
    exact (hE w hw).1 (entrada_inj w (x, y) (hE w hw).2 hxy e)
  · intro pre suf q hs p hp
    obtain ⟨l1, l2, hL, h1, h2⟩ := List.map_eq_append_iff.1 hs
    obtain ⟨a, l3, rfl, ha, h3⟩ := List.map_eq_cons_iff.1 h2
    obtain ⟨b, l4, rfl, hb, h4⟩ := List.map_eq_cons_iff.1 h3
    have hval : ∀ w ∈ (x, y) :: escritos ender 63 x y (marcaCasa casasInicial x y),
        ePosicaoValida w.1 w.2 = true := by
      intro w hw
      rcases List.mem_cons.1 hw with rfl | hw
      · exact hxy
      · exact (hE w hw).2
    rw [hL] at hval
    have hab : a = b := entrada_inj a b (hval a (by simp)) (hval b (by simp)) (by rw [ha, hb])
    subst hab
    rw [← h4] at hp
    obtain ⟨w, hw, rfl⟩ := List.mem_map.1 hp
    rw [← ha]
    congr 1
    cases l1 with
    | nil =>
      simp only [List.nil_append, List.cons.injEq] at hL
      obtain ⟨hx, hrest⟩ := hL
      have : a ∈ escritos ender 63 x y (marcaCasa casasInicial x y) := by
        rw [hrest]
        exact List.mem_cons_self _ _
      exact absurd hx.symm (hE a this).1
    | cons u l1 =>
      simp only [List.cons_append, List.cons.injEq] at hL
      exact escritos_repete ender hinj 63 x y _
        (Matriz.gradeBoa_marcaCasa _ _ _ Matriz.gradeBoa_casasInicial) hxy l1 l4 a hL.2 w hw
  · intro k hk
    obtain ⟨gk, g', e, e1, e2, hne, hvazio, hcheio, hzero⟩ :=
      passo_da_corrida ender hinj x y hxy k hk
    refine ⟨gk, _, _, _, g', e, e1, e2, hne, ?_, ?_, hvazio, hcheio, ?_⟩
    · exact sequencia_estado ender x y k (by omega)
    · exact sequencia_estado ender x y (k + 1) (by omega)
    · intro hk0
      refine ⟨?_, hzero hk0⟩
      subst hk0
      rfl

theorem achaSolucao_sempre_verdadeiro_witness :
    ∃ g s, trataEntrada enderCrescente 'd' 1 = some (true, g, s) ∧ s.length = 64 := by
  obtain ⟨g, s, h1, h2, _⟩ :=
    achaSolucao_sempre_verdadeiro enderCrescente enderCrescente_distintos 4 1 (by decide)
  exact ⟨g, s, h1, h2⟩

end Oop

/-!
The output of the graph variant and the order of the addresses (C11)
-/

namespace Oop

open Matriz (N traduz movimento ePosicaoValida destino checaVisitacao marcaCasa casasInicial
  gradeBoa)

theorem insere_congr (e1 e2 : Int × Int → Nat)
    (hord : ∀ a b : Int × Int, ePosicaoValida a.1 a.2 = true → ePosicaoValida b.1 b.2 = true →
      (e1 a < e1 b ↔ e2 a < e2 b))
    (w : Int × Int) (hw : ePosicaoValida w.1 w.2 = true) (l : List (Int × Int))
    (hl : ∀ u ∈ l, ePosicaoValida u.1 u.2 = true) : insere e1 w l = insere e2 w l := by
  induction l with
  | nil => rfl
  | cons u l ih =>
    have hu := hl u (List.mem_cons_self _ _)
    unfold insere
    have h1 : (e1 w < e1 u) = (e2 w < e2 u) := propext (hord w u hw hu)
    have h2 : (e1 u < e1 w) = (e2 u < e2 w) := propext (hord u w hu hw)
    simp only [h1, h2, ih (fun x hx => hl x (List.mem_cons_of_mem _ hx))]

theorem foldl_insere_congr (e1 e2 : Int × Int → Nat)
    (hord : ∀ a b : Int × Int, ePosicaoValida a.1 a.2 = true → ePosicaoValida b.1 b.2 = true →
      (e1 a < e1 b ↔ e2 a < e2 b))
    (l acc : List (Int × Int)) (hl : ∀ u ∈ l, ePosicaoValida u.1 u.2 = true)
    (ha : ∀ u ∈ acc, ePosicaoValida u.1 u.2 = true) :
    l.foldl (fun acc w => insere e1 w acc) acc = l.foldl (fun acc w => insere e2 w acc) acc := by
  induction l generalizing acc with
  | nil => rfl
  | cons w l ih =>
    have hw := hl w (List.mem_cons_self _ _)
    simp only [List.foldl_cons]
    rw [insere_congr e1 e2 hord w hw acc ha]
    apply ih _ (fun x hx => hl x (List.mem_cons_of_mem _ hx))
    intro u hu
    rcases mem_insere_imp e2 w acc u hu with rfl | h
    · exact hw
    · exact ha u h

theorem proximaOrdenada_congr (e1 e2 : Int × Int → Nat)
    (hord : ∀ a b : Int × Int, ePosicaoValida a.1 a.2 = true → ePosicaoValida b.1 b.2 = true →
      (e1 a < e1 b ↔ e2 a < e2 b))
    (c : List (List Bool)) (x y : Int) : proximaOrdenada e1 c x y = proximaOrdenada e2 c x y := by
  unfold proximaOrdenada ordena
  rw [foldl_insere_congr e1 e2 hord _ [] (fun u hu => valida_disponiveis c (x, y) u hu)
    (fun u hu => absurd hu (List.not_mem_nil u))]

theorem escritos_congr (e1 e2 : Int × Int → Nat)
    (hord : ∀ a b : Int × Int, ePosicaoValida a.1 a.2 = true → ePosicaoValida b.1 b.2 = true →
      (e1 a < e1 b ↔ e2 a < e2 b))
    (n : Nat) (x y : Int) (c : List (List Bool)) : escritos e1 n x y c = escritos e2 n x y c := by
  induction n generalizing x y c with
  | zero => rfl
  | succ n ih =>
    rw [escritos_succ, escritos_succ, proximaOrdenada_congr e1 e2 hord c x y, ih]

/-- C11, amended: the result and the solution sequence of a fresh run of the
graph variant depend only on the start square and on the order of the addresses
of the vertices. Two fresh runs from the same start square whose vertices have
distinct addresses in the same relative order both return `true` and write the
same solution sequence. -/
theorem trataEntrada_determinismo (ender1 ender2 : Int × Int → Nat)
    (hinj : EnderecosDistintos ender1)
    (hord : ∀ a b : Int × Int, ePosicaoValida a.1 a.2 = true → ePosicaoValida b.1 b.2 = true →
      (ender1 a < ender1 b ↔ ender2 a < ender2 b))
    (x y : Int) (hxy : ePosicaoValida x y = true) :
    ∃ g1 g2 s, trataEntrada ender1 (traduz x) y = some (true, g1, s) ∧
      trataEntrada ender2 (traduz x) y = some (true, g2, s) := by
  have hinj2 : EnderecosDistintos ender2 := by
    intro a b ha hb hab
    apply hinj a b ha hb
    have h1 := hord a b ha hb
    have h2 := hord b a hb ha
    omega
  obtain ⟨g1, h1⟩ := trataEntrada_spec ender1 hinj x y hxy
  obtain ⟨g2, h2⟩ := trataEntrada_spec ender2 hinj2 x y hxy
  rw [← escritos_congr ender1 ender2 hord] at h2
  exact ⟨g1, g2, _, h1, h2⟩

theorem trataEntrada_determinismo_witness :
    ∃ g1 g2 s, trataEntrada enderCrescente (traduz 1) 1 = some (true, g1, s) ∧
      trataEntrada (fun k => 2 * enderCrescente k + 7) (traduz 1) 1 = some (true, g2, s) :=
  trataEntrada_determinismo enderCrescente (fun k => 2 * enderCrescente k + 7)
    enderCrescente_distintos (fun _ _ _ _ => by dsimp only; omega) 1 1 (by decide)

/-- C11, the claim as stated fails: two fresh runs from the start square a1, one
with the addresses of the vertices growing in the order of construction and one
with the addresses decreasing, both return `true`, but the second entry of the
solution sequence is b3 in the first run and c2 in the second. -/
theorem enderecos_mudam_a_saida :
    ∃ g1 s1 g2 s2, trataEntrada enderCrescente 'a' 1 = some (true, g1, s1) ∧
      trataEntrada enderDecrescente 'a' 1 = some (true, g2, s2) ∧
      s1.getD 1 (Char.ofNat 0, 0) = ('b', 3) ∧ s2.getD 1 (Char.ofNat 0, 0) = ('c', 2) ∧
      s1 ≠ s2 := by
  obtain ⟨g1, h1⟩ := trataEntrada_spec enderCrescente enderCrescente_distintos 1 1 (by decide)
  obtain ⟨g2, h2⟩ := trataEntrada_spec enderDecrescente
    (ordemDaTabela_distintos _ enderDecrescente_ordem) 1 1 (by decide)
  have hp1 := escritos_succ enderCrescente 62 1 1 (marcaCasa casasInicial 1 1)
  rw [proximaOrdenada_a1] at hp1
  have hp2 := escritos_succ enderDecrescente 62 1 1 (marcaCasa casasInicial 1 1)
  rw [proximaOrdenada_eq enderDecrescente enderDecrescente_ordem, Matriz.proxima_a1] at hp2
  have e1 : (((1, 1) :: escritos enderCrescente 63 1 1 (marcaCasa casasInicial 1 1)).map
      Matriz.entrada).getD 1 (Char.ofNat 0, 0) = ('b', 3) := by
    rw [hp1]
    rfl
  have e2 : (((1, 1) :: escritos enderDecrescente 63 1 1 (marcaCasa casasInicial 1 1)).map
      Matriz.entrada).getD 1 (Char.ofNat 0, 0) = ('c', 2) := by
    rw [hp2]
    rfl
  refine ⟨g1, _, g2, _, h1, h2, e1, e2, ?_⟩
  intro h
  rw [h, e2] at e1
  exact absurd e1 (by decide)

end Oop

/-!
The pruning of the sets (C14)
-/

namespace Oop

open Matriz (N traduz movimento ePosicaoValida destino checaVisitacao marcaCasa casasInicial
  gradeBoa)

theorem retornaProximaCoordenada_grafo (g : Grafo) (x y : Int) (nv : Int × Int) (g' : Grafo)
    (h : retornaProximaCoordenada g x y = some (nv, g')) (hne : nv ≠ (x, y)) :
    g' = retira g nv (vizinhas g nv) := by
  unfold retornaProximaCoordenada at h
  cases h1 : g.em (x, y) with
  | none => simp [h1] at h
  | some atual =>
    simp only [h1] at h
    cases h2 : atual.casasVizinhas.foldl (passoProxima g) (some ((x, y), N + 1)) with
    | none => simp [h2] at h
    | some est =>
      simp only [h2] at h
      by_cases h3 : est.1 = (x, y)
      · rw [if_pos h3] at h
        simp only [Option.some.injEq, Prod.mk.injEq] at h
        exact absurd h.1.symm hne
      · rw [if_neg h3] at h
        cases h4 : g.em est.1 with
        | none => simp [h4] at h
        | some melhor =>
          simp only [h4, Option.some.injEq, Prod.mk.injEq] at h
          obtain ⟨e1, e2⟩ := h
          rw [← e2, ← e1, vizinhas_de_em g est.1 melhor h4]

/-- A step that moves leaves the vertex it moves to in the set of the vertex it
moves from. -/
theorem anterior_permanece (ender : Int × Int → Nat) (hinj : EnderecosDistintos ender)
    (g : Grafo) (c : List (List Bool)) (x y : Int) (hI : Inv ender g c (x, y))
    (hmove : proximaOrdenada ender c x y ≠ (x, y)) :
    ∃ g', retornaProximaCoordenada g x y = some (proximaOrdenada ender c x y, g') ∧
      proximaOrdenada ender c x y ∈ vizinhas g' (x, y) := by
  obtain ⟨g', e, _, _, hvis⟩ := retornaProximaCoordenada_inv ender hinj g c x y hI
  refine ⟨g', e, ?_⟩
  have hP := hvis hmove
  have hg' := retornaProximaCoordenada_grafo g x y _ g' e hmove
  obtain ⟨_, _, hxy, hcur, H⟩ := hI
  have hmem : proximaOrdenada ender c x y ∈ disponiveis c (x, y) := by
    rcases proximaOrdenada_casos ender hinj c x y with ⟨_, h⟩ | ⟨h, _⟩
    · exact absurd h hmove
    · exact h
  obtain ⟨_, hperm⟩ := H (x, y) hxy (Or.inr rfl)
  obtain ⟨hPs, hPp⟩ := H _ (checaVisitacao_valida c _ _ hP) (Or.inl hP)
  have hnot : (x, y) ∉ vizinhas g (proximaOrdenada ender c x y) := by
    intro hm
    have := ((mem_disponiveis c _ _).1 (hPp.subset hm)).2
    rw [hcur] at this
    exact absurd this (by decide)
  rw [hg', vizinhas_retira g _ _ (nodup_de_ordenada ender _ hPs), if_neg hnot]
  exact hperm.symm.subset hmem

/-- C14, amended: at every state of a run of the graph variant (the vertices at
distinct addresses, the start square on the board, after any number `k` of
iterations of the loop), a visited vertex is in the set of no vertex that is not
visited yet and not in the set of the current vertex. -/
theorem visitado_fora_dos_conjuntos (ender : Int × Int → Nat) (hinj : EnderecosDistintos ender)
    (x y : Int) (hxy : ePosicaoValida x y = true) (k : Nat) :
    ∃ g cur c, corrida ender x y k = some (g, cur, c) ∧ Matriz.leCasa c cur.1 cur.2 = true ∧
      ∀ u w : Int × Int, ePosicaoValida u.1 u.2 = true →
        (Matriz.leCasa c u.1 u.2 = false ∨ u = cur) →
        Matriz.leCasa c w.1 w.2 = true → w ∉ vizinhas g u := by
  obtain ⟨g, e, hI⟩ := corrida_inv ender hinj x y hxy k
  obtain ⟨_, _, hcv, hcur, H⟩ := hI
  refine ⟨g, _, _, e, ?_, ?_⟩
  · unfold checaVisitacao at hcur
    rw [hcv] at hcur
    simpa using hcur
  · intro u w hu huc hw hm
    have hu2 : checaVisitacao (estado ender x y k).2 u.1 u.2 = true ∨
        u = (estado ender x y k).1 := by
      rcases huc with h | h
      · left
        unfold checaVisitacao
        rw [hu, h]
        rfl
      · exact Or.inr h
    obtain ⟨_, hp⟩ := H u hu hu2
    have := ((mem_disponiveis _ u w).1 (hp.subset hm)).2
    unfold checaVisitacao at this
    rw [hw] at this
    simp at this

theorem visitado_fora_dos_conjuntos_witness :
    ∃ g cur c, corrida enderCrescente 1 1 1 = some (g, cur, c) ∧
      Matriz.leCasa c cur.1 cur.2 = true := by
  obtain ⟨g, cur, c, h1, h2, _⟩ :=
    visitado_fora_dos_conjuntos enderCrescente enderCrescente_distintos 1 1 (by decide) 1
  exact ⟨g, cur, c, h1, h2⟩

/-- C14, the claim as stated fails: from the start square a1, with the addresses
of the vertices growing in the order of construction, the first iteration moves
to b3; in the state after it b3 is visited (it is the current vertex) and is
still in the set of the vertex of a1, which was visited before it. -/
theorem visitado_permanece :
    ∃ g c, corrida enderCrescente 1 1 1 = some (g, (2, 3), c) ∧
      Matriz.leCasa c 2 3 = true ∧ (2, 3) ∈ vizinhas g (1, 1) := by
  obtain ⟨g0, e0, hI0⟩ := corrida_inv enderCrescente enderCrescente_distintos 1 1 (by decide) 0
  have hI : Inv enderCrescente g0 (marcaCasa casasInicial 1 1) (1, 1) := hI0
  have e0b : corrida enderCrescente 1 1 0 = some (g0, (1, 1), marcaCasa casasInicial 1 1) := e0
  have hmove : proximaOrdenada enderCrescente (marcaCasa casasInicial 1 1) 1 1 ≠ (1, 1) := by
    rw [proximaOrdenada_a1]
    decide
  obtain ⟨g', e1, hm⟩ := anterior_permanece enderCrescente enderCrescente_distintos g0 _ 1 1 hI
    hmove
  rw [proximaOrdenada_a1] at e1 hm
  obtain ⟨nova, hnova, hid⟩ := em_de_valida g' (by
    obtain ⟨g'', e2, hI2, _⟩ :=
      retornaProximaCoordenada_inv enderCrescente enderCrescente_distintos g0 _ 1 1 hI
    rw [proximaOrdenada_a1] at e2
    rw [e1] at e2
    simp only [Option.some.injEq, Prod.mk.injEq, true_and] at e2
    rw [e2]
    exact hI2.1) (2, 3) (by decide)
  refine ⟨g', marcaCasa (marcaCasa casasInicial 1 1) 2 3, ?_, by decide, hm⟩
  rw [corrida_succ, e0b, Option.some_bind]
  unfold avanca
  simp only [e1, hnova, hid]

end Oop

/-!
The grid and the solution sequence after `k` steps (C16)
-/

namespace Matriz

theorem percurso_segmento (j m : Nat) (x y : Int) (c : List (List Bool)) :
    ∃ r, percurso (j + m) x y c = percurso j x y c ++ r := by
  induction j generalizing x y c with
  | zero => exact ⟨percurso (0 + m) x y c, rfl⟩
  | succ j ih =>
    have e : j + 1 + m = (j + m) + 1 := by omega
    rw [e]
    unfold percurso
    by_cases h : (retornaProximaCoordenada c x y).1 = x ∧ (retornaProximaCoordenada c x y).2 = y
    · rw [if_pos h, if_pos h]
      exact ⟨[], rfl⟩
    · rw [if_neg h, if_neg h]
      obtain ⟨r, hr⟩ := ih (retornaProximaCoordenada c x y).1 (retornaProximaCoordenada c x y).2
        (marcaCasa c (retornaProximaCoordenada c x y).1 (retornaProximaCoordenada c x y).2)
      exact ⟨r, by rw [hr]; rfl⟩

theorem marcaTodas_append (c : List (List Bool)) (l r : List (Int × Int)) :
    marcaTodas c (l ++ r) = marcaTodas (marcaTodas c l) r := by
  induction l generalizing c with
  | nil => rfl
  | cons s l ih =>
    simp only [List.cons_append, marcaTodas]
    exact ih _

theorem leCasa_marcaTodas (c : List (List Bool)) (hc : gradeBoa c) (l : List (Int × Int))
    (hl : ∀ s ∈ l, ePosicaoValida s.1 s.2 = true) (a b : Int) (ha : 0 ≤ a) (hb : 0 ≤ b) :
    leCasa (marcaTodas c l) a b = true ↔ (leCasa c a b = true ∨ (a, b) ∈ l) := by
  induction l generalizing c with
  | nil => simp [marcaTodas]
  | cons s l ih =>
    have hs := (ePosicaoValida_iff s.1 s.2).1 (hl s (List.mem_cons_self _ _))
    unfold marcaTodas
    rw [ih _ (gradeBoa_marcaCasa c _ _ hc) (fun t ht => hl t (List.mem_cons_of_mem _ ht)),
      leCasa_marcaCasa c hc s.1 s.2 a b (by omega) (by omega) (by omega) (by omega) ha hb]
    by_cases hab : a = s.1 ∧ b = s.2
    · have : (a, b) = s := by
        obtain ⟨h1, h2⟩ := hab
        ext <;> simp [h1, h2]
      simp [hab, this]
    · have : (a, b) ≠ s := by
        intro e
        apply hab
        rw [← e]
        exact ⟨rfl, rfl⟩
      simp [hab, this]

theorem percurso_valido (n : Nat) (x y : Int) (c : List (List Bool)) (hc : gradeBoa c) :
    ∀ s ∈ percurso n x y c, ePosicaoValida s.1 s.2 = true := by
  intro s hs
  have := (percurso_props n x y c hc).2.1 s hs
  unfold checaVisitacao at this
  simp only [Bool.and_eq_true] at this
  exact this.1

theorem map_casaDaEntrada (l : List (Int × Int))
    (hl : ∀ s ∈ l, ePosicaoValida s.1 s.2 = true) : (l.map entrada).map casaDaEntrada = l := by
  induction l with
  | nil => rfl
  | cons s l ih =>
    have hs := (ePosicaoValida_iff s.1 s.2).1 (hl s (List.mem_cons_self _ _))
    simp only [List.map_cons]
    rw [ih (fun t ht => hl t (List.mem_cons_of_mem _ ht)),
      casaDaEntrada_entrada s.1 s.2 hs.1 hs.2.1]

/-- C16: from a fresh grid and a start square of the board, when `k` steps of
the loop of `achaSolucao` (`0 <= k <= 63`) have completed without failing, the
squares at the indices `0..k` of the solution sequence are pairwise distinct,
the cells of the grid that are marked visited are exactly these squares, and
every cell marked after `j <= k` steps is still marked after `k` steps. -/
theorem achaSolucao_invariante (x y : Int) (hxy : ePosicaoValida x y = true) (k : Nat)
    (hk : k ≤ 63) (e : Estado)
    (hrun : lacoSolucao k 1 x y
      { casas := marcaCasa casasInicial x y
        coordenadasSolucao := coordenadasSolucaoInicial.set 0 (traduz x, y) } = (true, e)) :
    (e.coordenadasSolucao.take (k + 1)).Nodup ∧
      ((e.coordenadasSolucao.take (k + 1)).map casaDaEntrada).Nodup ∧
      ((e.coordenadasSolucao.take (k + 1)).map casaDaEntrada).length = k + 1 ∧
      (∀ a b : Int, 0 ≤ a → a ≤ 8 → 0 ≤ b → b ≤ 8 →
        (leCasa e.casas a b = true ↔
          (a, b) ∈ (e.coordenadasSolucao.take (k + 1)).map casaDaEntrada)) ∧
      ∀ j, j ≤ k → ∀ a b : Int, 0 ≤ a → a ≤ 8 → 0 ≤ b → b ≤ 8 →
        leCasa (lacoSolucao j 1 x y
          { casas := marcaCasa casasInicial x y
            coordenadasSolucao := coordenadasSolucaoInicial.set 0 (traduz x, y) }).2.casas a b
          = true →
        leCasa e.casas a b = true := by
  rw [lacoSolucao_eq] at hrun
  simp only [Prod.mk.injEq, decide_eq_true_eq] at hrun
  obtain ⟨hlen, he⟩ := hrun
  have hc1 : gradeBoa (marcaCasa casasInicial x y) :=
    gradeBoa_marcaCasa _ _ _ gradeBoa_casasInicial
  obtain ⟨p1, p2, _⟩ := percurso_props k x y (marcaCasa casasInicial x y) hc1
  have hval := percurso_valido k x y (marcaCasa casasInicial x y) hc1
  have hxy2 := (ePosicaoValida_iff x y).1 hxy
  have hsol : e.coordenadasSolucao.take (k + 1)
      = ((x, y) :: percurso k x y (marcaCasa casasInicial x y)).map entrada := by
    rw [← he]
    have e0 : coordenadasSolucaoInicial.set 0 (traduz x, y)
        = [(traduz x, y)] ++ List.replicate 63 (Char.ofNat 0, 0) := rfl
    simp only [e0]
    have := escreve_append [(traduz x, y)] (List.replicate 63 (Char.ofNat 0, 0))
      (percurso k x y (marcaCasa casasInicial x y)) (by simp [hlen, hk])
    simp only [List.length_singleton] at this
    rw [this, List.append_assoc, List.take_append_eq_append_take]
    simp [hlen, entrada]
  have hQ : (e.coordenadasSolucao.take (k + 1)).map casaDaEntrada
      = (x, y) :: percurso k x y (marcaCasa casasInicial x y) := by
    rw [hsol]
    apply map_casaDaEntrada
    intro s hs
    rcases List.mem_cons.1 hs with rfl | hs
    · exact hxy
    · exact hval s hs
  have hnd : ((x, y) :: percurso k x y (marcaCasa casasInicial x y)).Nodup := by
    refine List.nodup_cons.2 ⟨fun hm => ?_, p1⟩
    have := p2 _ hm
    rw [checaVisitacao_marcaCasa _ gradeBoa_casasInicial _ _ _ _ hxy] at this
    simp at this
  have hini : ∀ a b : Int, 0 ≤ a → 0 ≤ b →
      (leCasa (marcaCasa casasInicial x y) a b = true ↔ (a, b) = (x, y)) := by
    intro a b ha hb
    rw [leCasa_marcaCasa _ gradeBoa_casasInicial x y a b (by omega) (by omega) (by omega)
      (by omega) ha hb, Oop.leCasa_casasInicial]
    simp
  refine ⟨?_, ?_, ?_, ?_, ?_⟩
  · have h2 : ((e.coordenadasSolucao.take (k + 1)).map casaDaEntrada).Nodup := by
      rw [hQ]
      exact hnd
    exact List.Nodup.of_map _ h2
  · rw [hQ]
    exact hnd
  · rw [hQ]
    simp [hlen]
  · intro a b ha _ hb _
    rw [hQ, ← he]
    simp only
    rw [leCasa_marcaTodas _ hc1 _ hval a b ha hb, hini a b ha hb, List.mem_cons]
  · intro j hj a b ha _ hb _ hm
    rw [lacoSolucao_eq] at hm
    simp only at hm
    obtain ⟨r, hr⟩ := percurso_segmento j (k - j) x y (marcaCasa casasInicial x y)
    have ejk : j + (k - j) = k := by omega
    rw [ejk] at hr
    rw [← he]
    simp only
    rw [hr, marcaTodas_append]
    have hvj := percurso_valido j x y (marcaCasa casasInicial x y) hc1
    have hcj : gradeBoa (marcaTodas (marcaCasa casasInicial x y)
        (percurso j x y (marcaCasa casasInicial x y))) := by
      have : ∀ (l : List (Int × Int)) (c : List (List Bool)), gradeBoa c →
          gradeBoa (marcaTodas c l) := by
        intro l
        induction l with
        | nil => exact fun c hc => hc
        | cons s l ih => exact fun c hc => ih _ (gradeBoa_marcaCasa c _ _ hc)
      exact this _ _ hc1
    rw [leCasa_marcaTodas _ hcj r ?_ a b ha hb]
    · exact Or.inl hm
    · intro s hs
      apply hval
      rw [hr]
      exact List.mem_append_right _ hs

theorem achaSolucao_invariante_witness :
    (List.take 3
      (lacoSolucao 2 1 1 1
        { casas := marcaCasa casasInicial 1 1
          coordenadasSolucao :=
            coordenadasSolucaoInicial.set 0 (traduz 1, 1) }).2.coordenadasSolucao).Nodup :=
  (achaSolucao_invariante 1 1 (by decide) 2 (by decide) _ (Prod.ext (by decide) rfl)).1

end Matriz

/-!
The accesses of a run stay within bounds (C18)
-/

namespace Matriz

theorem movimentoVerificado_eq (i : Nat) (hi : i < 8) :
    movimentoVerificado (i : Int) = some (movimento i) := by
  unfold movimentoVerificado
  rw [if_pos (by omega)]
  simp

theorem checaVisitacaoVerificada_eq (casas : List (List Bool)) (x y : Int) :
    checaVisitacaoVerificada casas x y = some (checaVisitacao casas x y) := by
  unfold checaVisitacaoVerificada checaVisitacao
  by_cases h : ePosicaoValida x y = true
  · have h2 := (ePosicaoValida_iff x y).1 h
    unfold leCasaVerificada
    rw [if_pos h, if_pos h2, h]
    rfl
  · have hf : ePosicaoValida x y = false := by simpa using h
    rw [if_neg h, hf]
    rfl

theorem foldl_passoGrauVerificado (casas : List (List Bool)) (x y : Int) (l : List Nat)
    (hl : ∀ i ∈ l, i < 8) (grau : Int) :
    l.foldl (passoGrauVerificado casas x y) (some grau) =
      some (l.foldl
        (fun grau i =>
          if checaVisitacao casas (x + (movimento i).1) (y + (movimento i).2) then grau + 1
          else grau)
        grau) := by
  induction l generalizing grau with
  | nil => rfl
  | cons i l ih =>
    simp only [List.foldl_cons]
    have e : passoGrauVerificado casas x y (some grau) i
        = some (if checaVisitacao casas (x + (movimento i).1) (y + (movimento i).2) then grau + 1
            else grau) := by
      unfold passoGrauVerificado
      simp only [movimentoVerificado_eq i (hl i (List.mem_cons_self _ _)),
        checaVisitacaoVerificada_eq]
    rw [e]
    exact ih (fun j hj => hl j (List.mem_cons_of_mem _ hj)) _

theorem retornaGrauVerificado_eq (casas : List (List Bool)) (x y : Int) :
    retornaGrauVerificado casas x y = some (retornaGrau casas x y) :=
  foldl_passoGrauVerificado casas x y (List.range 8) (fun _ hi => List.mem_range.1 hi) 0

theorem passoProximaVerificado_eq (casas : List (List Bool)) (x y : Int) (est : Int × Int)
    (i : Nat) (hi : i < 8) :
    passoProximaVerificado casas x y (some est) i = some (passoProxima casas x y est i) := by
  unfold passoProximaVerificado passoProxima
  simp only [movimentoVerificado_eq i hi, checaVisitacaoVerificada_eq]
  cases h : checaVisitacao casas (x + (movimento i).1) (y + (movimento i).2) with
  | false => simp
  | true =>
    simp only [retornaGrauVerificado_eq, Bool.true_and, decide_eq_true_eq]
    split <;> rfl

theorem foldl_passoProximaVerificado (casas : List (List Bool)) (x y : Int) (l : List Nat)
    (hl : ∀ i ∈ l, i < 8) (est : Int × Int) :
    l.foldl (passoProximaVerificado casas x y) (some est)
      = some (l.foldl (passoProxima casas x y) est) := by
  induction l generalizing est with
  | nil => rfl
  | cons i l ih =>
    simp only [List.foldl_cons]
    rw [passoProximaVerificado_eq casas x y est i (hl i (List.mem_cons_self _ _))]
    exact ih (fun j hj => hl j (List.mem_cons_of_mem _ hj)) _

theorem retornaProximaCoordenadaVerificada_eq (casas : List (List Bool)) (x y : Int) :
    retornaProximaCoordenadaVerificada casas x y = some (retornaProximaCoordenada casas x y) := by
  unfold retornaProximaCoordenadaVerificada retornaProximaCoordenada
  rw [foldl_passoProximaVerificado casas x y (List.range 8) (fun _ hi => List.mem_range.1 hi)]
  simp only
  rcases foldl_passoProxima casas x y (List.range 8) (List.sorted_lt_range 8) (-1, N + 1) with
    ⟨he, _⟩ | ⟨k, hk, he, _⟩
  · rw [he]
    simp
  · rw [he]
    have hk8 := List.mem_range.1 hk
    have hne : ((k : Int)) ≠ -1 := by omega
    simp only [if_neg hne, movimentoVerificado_eq k hk8, Int.toNat_ofNat]

theorem entradaVerificada_eq (x y : Int) (h : ePosicaoValida x y = true) :
    entradaVerificada x y = some (traduz x, y) := by
  obtain ⟨h1, h2, h3, h4⟩ := (ePosicaoValida_iff x y).1 h
  unfold entradaVerificada
  interval_cases x <;> simp [coordenadaTraducao, List.lookup, traduz, h3, h4]

theorem lacoSolucaoVerificado_eq (n i : Nat) (x y : Int) (e : Estado) :
    lacoSolucaoVerificado n i x y e = some (lacoSolucao n i x y e) := by
  induction n generalizing i x y e with
  | zero => rfl
  | succ n ih =>
    rw [lacoSolucaoVerificado, lacoSolucao]
    simp only [retornaProximaCoordenadaVerificada_eq, Option.some_bind]
    by_cases h : (retornaProximaCoordenada e.casas x y).1 = x ∧
        (retornaProximaCoordenada e.casas x y).2 = y
    · rw [if_pos h, if_pos h]
    · rw [if_neg h, if_neg h]
      have hv : ePosicaoValida (retornaProximaCoordenada e.casas x y).1
          (retornaProximaCoordenada e.casas x y).2 = true := by
        rcases retornaProximaCoordenada_casos e.casas x y with ⟨he, _⟩ | ⟨k, _, he, hd, _⟩
        · exact absurd (by rw [he]; exact ⟨rfl, rfl⟩) h
        · rw [he]
          unfold disponivel checaVisitacao at hd
          simp only [Bool.and_eq_true] at hd
          exact hd.1
      have hm : marcaCasaVerificada e.casas (retornaProximaCoordenada e.casas x y).1
          (retornaProximaCoordenada e.casas x y).2
          = some (marcaCasa e.casas (retornaProximaCoordenada e.casas x y).1
              (retornaProximaCoordenada e.casas x y).2) := by
        unfold marcaCasaVerificada
        rw [if_pos ((ePosicaoValida_iff _ _).1 hv)]
      simp only [hm, entradaVerificada_eq _ _ hv, Option.some_bind]
      exact ih _ _ _ _

theorem achaSolucaoVerificado_eq (x y : Int) (hxy : ePosicaoValida x y = true) (e : Estado) :
    achaSolucaoVerificado x y e = some (achaSolucao x y e) := by
  unfold achaSolucaoVerificado achaSolucao marcaCasaVerificada
  rw [if_pos ((ePosicaoValida_iff x y).1 hxy)]
  exact lacoSolucaoVerificado_eq 63 1 x y _

/-- The checks are not void: from a start square outside the board the checked
run has no result. -/
theorem achaSolucaoVerificado_fora (y : Int) (e : Estado) :
    achaSolucaoVerificado 9 y e = none := by
  unfold achaSolucaoVerificado marcaCasaVerificada
  rw [if_neg (by omega)]

end Matriz

namespace Oop

open Matriz (N traduz movimento ePosicaoValida destino checaVisitacao marcaCasa casasInicial
  gradeBoa)

/-- C18: for every start square `(x, y)` with `1 <= x, y <= 8`, the run of the
board-state `achaSolucao` in which every access is checked (the grid `casas` is
read and written only at indices in `1..8`, `movimentosPossiveis` is indexed
only at `0..7`, `coordenadaTraducao` has the key of every `x` used, and every
entry written has a letter in `'a'..'h'` and a rank in `1..8`) has a result,
the result of the unchecked run, on every grid and solution sequence; and the
run of the graph variant, in which a failed `casas.at` lookup leaves no result,
has a result. -/
theorem acessos_validos (ender : Int × Int → Nat) (hinj : EnderecosDistintos ender)
    (x y : Int) (hx1 : 1 ≤ x) (hx8 : x ≤ 8) (hy1 : 1 ≤ y) (hy8 : y ≤ 8) :
    (∀ e : Matriz.Estado,
        Matriz.achaSolucaoVerificado x y e = some (Matriz.achaSolucao x y e)) ∧
      ∃ r, trataEntrada ender (traduz x) y = some r := by
  have hxy : ePosicaoValida x y = true := (Matriz.ePosicaoValida_iff x y).2 ⟨hx1, hx8, hy1, hy8⟩
  obtain ⟨g, hg⟩ := trataEntrada_spec ender hinj x y hxy
  exact ⟨fun e => Matriz.achaSolucaoVerificado_eq x y hxy e, _, hg⟩

theorem acessos_validos_witness :
    Matriz.achaSolucaoVerificado 1 1
        { casas := casasInicial, coordenadasSolucao := Matriz.coordenadasSolucaoInicial }
      = some (Matriz.achaSolucao 1 1
        { casas := casasInicial, coordenadasSolucao := Matriz.coordenadasSolucaoInicial }) :=
  (acessos_validos enderCrescente enderCrescente_distintos 1 1 (by decide) (by decide)
    (by decide) (by decide)).1 _

end Oop

